import Mathlib

/-!
# Mython interpreter: lexer and runtime model

A shallow embedding of `src/mython/lexer.h`, `src/mython/lexer.cpp`,
`src/mython/runtime.cpp` and `src/mython/statement.cpp`.

Conventions of the embedding.

* The input stream is the list of characters not yet consumed; a character
  stands for the byte `c.toNat`.  `char` is signed in the source
  (`c > 0`, `c < 0` are meaningful there), so a byte `>= 128` is a negative
  `char`, and `peek()` at the end of the stream is `-1`.
* `int` counters are modelled by unbounded integers; they are bounded by the
  number of input bytes, so the model is exact for inputs shorter than
  `2^31` bytes.
* A C++ exception is an `Except.error`.
* `NextToken` calls itself only after it has consumed a byte; the embedding
  carries a fuel argument for that recursion, instantiated with the number
  of remaining bytes plus one.
-/

namespace parse

/-- The token variants of `lexer.h`, in the order of `TokenBase`. -/
inductive Token where
  | Number (value : Int)
  | Id (value : String)
  | Char (value : Char)
  | String (value : String)
  | Class
  | Return
  | If
  | Else
  | Def
  | Newline
  | Print
  | Indent
  | Dedent
  | And
  | Or
  | Not
  | Eq
  | NotEq
  | LessOrEq
  | GreaterOrEq
  | None
  | True
  | False
  | Eof
  deriving DecidableEq, Repr

/-- The exceptions that leave the lexer: `std::stoi` throws `out_of_range` or
`invalid_argument`; `LexerError` is thrown by the `Expect` helpers.
`undefined` is not an exception: it marks undefined behaviour of the source
(`LoadString` and `LoadSingleQuotedString` dereference and increment their
stream iterator at the end of the stream). `fuel_exhausted` is not an
exception of the source either: it marks a recursion of the embedding that ran
out of fuel (`NextToken_fuel_sufficient` shows that `NextToken` never produces
it). -/
inductive Exception where
  | out_of_range
  | invalid_argument
  | LexerError (what : String)
  | undefined
  | fuel_exhausted
  deriving DecidableEq, Repr

/-- The private members of `class Lexer`; `input_` is the unread rest of the
stream. `curr_token_` is default-constructed: the first alternative of the
variant, value-initialised. -/
structure Lexer where
  input_ : List Char
  indent_index_ : Int := 0
  curr_token_ : Token := Token.Number 0
  first_ : Bool := true
  spaces_ : Int := 0
  deriving DecidableEq, Repr

/-- The conversion of a byte to the signed `char` of the source. -/
def toSignedChar (ch : Char) : Int :=
  if ch.toNat < 128 then (ch.toNat : Int) else ((ch.toNat % 256 : Nat) : Int) - 256

/-- The value of `char c = input.peek()`: `-1` at the end of the stream. -/
def peekChar : List Char → Int
  | [] => -1
  | ch :: _ => toSignedChar ch

/-- The test `input.peek() == x` for an ASCII character `x`. -/
def peekIs (x : Char) : List Char → Bool
  | [] => false
  | ch :: _ => ch == x

/-- The loop of `LoadString`: `s` is the string built so far. A backslash
consumes the byte after it, which appends a character only when it is one of
the six escapes. After a backslash that is the last byte of the stream the
iterator is dereferenced and incremented at the end of the stream: the
behaviour is undefined. -/
def LoadStringLoop : List Char → String → Except Exception (Token × List Char)
  | [], s => Except.ok (Token.String s, [])
  | ch :: rest, s =>
    if ch = '"' then Except.ok (Token.String s, rest)
    else if ch = '\\' then
      match rest with
      | [] => Except.error Exception.undefined
      | escaped_char :: rest2 =>
        if escaped_char = 'n' then LoadStringLoop rest2 (s.push '\n')
        else if escaped_char = 't' then LoadStringLoop rest2 (s.push '\t')
        else if escaped_char = 'r' then LoadStringLoop rest2 (s.push '\r')
        else if escaped_char = '\'' then LoadStringLoop rest2 (s.push '\'')
        else if escaped_char = '\\' then LoadStringLoop rest2 (s.push '\\')
        else if escaped_char = '"' then LoadStringLoop rest2 (s.push '"')
        else LoadStringLoop rest2 s
    else LoadStringLoop rest (s.push ch)

/-- `LoadString`, called after the opening double quote has been consumed. -/
def LoadString (input : List Char) : Except Exception (Token × List Char) :=
  LoadStringLoop input ""

/-- The loop of `LoadSingleQuotedString`; a backslash that is the last byte of
the stream ends in undefined behaviour, as in `LoadString`. -/
def LoadSingleQuotedStringLoop : List Char → String → Except Exception (Token × List Char)
  | [], s => Except.ok (Token.String s, [])
  | ch :: rest, s =>
    if ch = '\'' then Except.ok (Token.String s, rest)
    else if ch = '\\' then
      match rest with
      | [] => Except.error Exception.undefined
      | escaped_char :: rest2 =>
        if escaped_char = 'n' then LoadSingleQuotedStringLoop rest2 (s.push '\n')
        else if escaped_char = 't' then LoadSingleQuotedStringLoop rest2 (s.push '\t')
        else if escaped_char = 'r' then LoadSingleQuotedStringLoop rest2 (s.push '\r')
        else if escaped_char = '"' then LoadSingleQuotedStringLoop rest2 (s.push '"')
        else if escaped_char = '\\' then LoadSingleQuotedStringLoop rest2 (s.push '\\')
        else if escaped_char = '\'' then LoadSingleQuotedStringLoop rest2 (s.push '\'')
        else LoadSingleQuotedStringLoop rest2 s
    else LoadSingleQuotedStringLoop rest (s.push ch)

/-- `LoadSingleQuotedString`, called after the opening quote has been consumed. -/
def LoadSingleQuotedString (input : List Char) : Except Exception (Token × List Char) :=
  LoadSingleQuotedStringLoop input ""

/-- `IgnoreComment`: skips to the next newline, which is left in the stream. -/
def IgnoreComment : List Char → List Char
  | [] => []
  | ch :: rest => if ch = '\n' then ch :: rest else IgnoreComment rest

/-- The loop `while (input.peek() == ' ') { input.get(); ++i; }`. -/
def CountSpacesLoop : List Char → Nat → Nat × List Char
  | [], i => (i, [])
  | ch :: rest, i => if ch = ' ' then CountSpacesLoop rest (i + 1) else (i, ch :: rest)

/-- `CountSpaces`: the number of leading spaces halved, or `0` when the line
holds nothing but spaces; the spaces are consumed. -/
def CountSpaces (input : List Char) : Int × List Char :=
  let r := CountSpacesLoop input 0
  if peekIs '\n' r.2 then (0, r.2) else (((r.1 / 2 : Nat) : Int), r.2)

/-- The loop of `LoadNumber`: collects the digits into `parsed_num`. -/
def LoadNumberLoop : List Char → List Char → List Char × List Char
  | [], parsed_num => (parsed_num, [])
  | ch :: rest, parsed_num =>
    if ch.isDigit then LoadNumberLoop rest (parsed_num ++ [ch]) else (parsed_num, ch :: rest)

/-- The decimal value of a string of digits. -/
def decimalValue (digits : List Char) : Nat :=
  digits.foldl (fun v d => 10 * v + (d.toNat - 48)) 0

/-- `std::stoi` on a string of digits: the value when it fits an `int`. -/
def stoi (digits : List Char) : Except Exception Int :=
  if digits = [] then Except.error Exception.invalid_argument
  else if decimalValue digits ≤ 2147483647 then Except.ok (decimalValue digits : Int)
  else Except.error Exception.out_of_range

/-- `LoadNumber`. -/
def LoadNumber (input : List Char) : Except Exception (Token × List Char) :=
  let r := LoadNumberLoop input []
  match stoi r.1 with
  | Except.ok v => Except.ok (Token.Number v, r.2)
  | Except.error e => Except.error e

/-- `IsSymbol`: the bytes 40..47 and 58. -/
def IsSymbol (c : Char) : Bool :=
  (decide (toSignedChar c > 39) && decide (toSignedChar c < 48)) || decide (toSignedChar c = 58)

/-- `IsCompareSymbol`. -/
def IsCompareSymbol (c : Char) : Bool :=
  c == '=' || c == '<' || c == '>' || c == '!'

/-- The loop of `LoadLiteral`: `res` is the literal built so far. -/
def LoadLiteralLoop : List Char → String → String × List Char
  | [], res => (res, [])
  | c :: rest, res =>
    if toSignedChar c < 0 then (res, c :: rest)
    else if c ≠ ' ' ∧ c ≠ '#' ∧ c ≠ '\n' ∧ IsSymbol c = false ∧ IsCompareSymbol c = false then
      LoadLiteralLoop rest (res.push c)
    else (res, c :: rest)

/-- `LoadLiteral`. -/
def LoadLiteral (input : List Char) : String × List Char :=
  LoadLiteralLoop input ""

/-- `LoadIdOrElse`: a keyword token or an identifier. -/
def LoadIdOrElse (input : List Char) : Token × List Char :=
  let r := LoadLiteral input
  let s := r.1
  if s = "True" then (Token.True, r.2)
  else if s = "False" then (Token.False, r.2)
  else if s = "None" then (Token.None, r.2)
  else if s = "class" then (Token.Class, r.2)
  else if s = "return" then (Token.Return, r.2)
  else if s = "if" then (Token.If, r.2)
  else if s = "else" then (Token.Else, r.2)
  else if s = "def" then (Token.Def, r.2)
  else if s = "print" then (Token.Print, r.2)
  else if s = "and" then (Token.And, r.2)
  else if s = "or" then (Token.Or, r.2)
  else if s = "not" then (Token.Not, r.2)
  else (Token.Id s, r.2)

/-- `LoadChar`. -/
def LoadChar (c : Char) : Token := Token.Char c

/-- `LoadCompareSymbol`. At the end of the stream `get()` yields `EOF`, the
byte 255 as a `char`. -/
def LoadCompareSymbol : List Char → Token × List Char
  | [] => (Token.Char (Char.ofNat 255), [])
  | c :: rest =>
    if peekIs '=' rest then
      if c = '=' then (Token.Eq, rest.tail)
      else if c = '>' then (Token.GreaterOrEq, rest.tail)
      else if c = '<' then (Token.LessOrEq, rest.tail)
      else if c = '!' then (Token.NotEq, rest.tail)
      else (Token.Char c, rest.tail)
    else (Token.Char c, rest)

/-- The loop `while (input_.peek() == x) { input_.get(); }`. -/
def skipWhile (x : Char) : List Char → List Char
  | [] => []
  | ch :: rest => if ch = x then skipWhile x rest else ch :: rest

/-- `Lexer::NextToken`, with fuel for its calls of itself. The result is the
lexer after the call; the token returned is its `curr_token_`. -/
def NextTokenFuel : Nat → Lexer → Except Exception Lexer
  | 0, _ => Except.error Exception.fuel_exhausted
  | fuel + 1, lx =>
    let c := peekChar lx.input_
    if lx.spaces_ > 0 then
      Except.ok { lx with curr_token_ := Token.Indent, indent_index_ := lx.indent_index_ + 1,
                          spaces_ := lx.spaces_ - 1, first_ := false }
    else if lx.spaces_ < 0 then
      Except.ok { lx with curr_token_ := Token.Dedent, indent_index_ := lx.indent_index_ - 1,
                          spaces_ := lx.spaces_ + 1, first_ := false }
    else if c > 0 then
      match lx.input_ with
      | [] => Except.ok { lx with first_ := false }
      | ch :: rest =>
        if ch = '#' then
          match NextTokenFuel fuel { lx with input_ := IgnoreComment rest } with
          | Except.ok lx2 => Except.ok { lx2 with first_ := false }
          | Except.error e => Except.error e
        else if ch = '"' then
          match LoadString rest with
          | Except.ok r => Except.ok { lx with curr_token_ := r.1, input_ := r.2, first_ := false }
          | Except.error e => Except.error e
        else if ch = '\'' then
          match LoadSingleQuotedString rest with
          | Except.ok r => Except.ok { lx with curr_token_ := r.1, input_ := r.2, first_ := false }
          | Except.error e => Except.error e
        else if ch.isDigit then
          match LoadNumber lx.input_ with
          | Except.ok r => Except.ok { lx with curr_token_ := r.1, input_ := r.2, first_ := false }
          | Except.error e => Except.error e
        else if ch.isAlpha ∨ ch = '_' then
          Except.ok { lx with curr_token_ := (LoadIdOrElse lx.input_).1,
                              input_ := (LoadIdOrElse lx.input_).2, first_ := false }
        else if IsCompareSymbol ch then
          Except.ok { lx with curr_token_ := (LoadCompareSymbol lx.input_).1,
                              input_ := (LoadCompareSymbol lx.input_).2, first_ := false }
        else if IsSymbol ch then
          Except.ok { lx with curr_token_ := LoadChar ch, input_ := rest, first_ := false }
        else if ch = '\n' then
          if lx.curr_token_ ≠ Token.Newline ∧ lx.first_ = false then
            let rest2 := skipWhile '\n' rest
            if peekIs ' ' rest2 = false ∧ lx.indent_index_ > 0 then
              Except.ok { lx with curr_token_ := Token.Newline, input_ := rest2,
                                  spaces_ := -lx.indent_index_, first_ := false }
            else
              Except.ok { lx with curr_token_ := Token.Newline, input_ := rest2, first_ := false }
          else
            match NextTokenFuel fuel { lx with input_ := rest } with
            | Except.ok lx2 => Except.ok { lx2 with first_ := false }
            | Except.error e => Except.error e
        else if ch = ' ' then
          if lx.curr_token_ ≠ Token.Newline ∧ lx.curr_token_ ≠ Token.Dedent then
            match NextTokenFuel fuel { lx with input_ := skipWhile ' ' lx.input_ } with
            | Except.ok lx2 => Except.ok { lx2 with first_ := false }
            | Except.error e => Except.error e
          else if lx.curr_token_ = Token.Newline then
            match NextTokenFuel fuel { lx with input_ := (CountSpaces lx.input_).2,
                                               spaces_ := (CountSpaces lx.input_).1 - lx.indent_index_ } with
            | Except.ok lx2 => Except.ok { lx2 with first_ := false }
            | Except.error e => Except.error e
          else Except.ok { lx with first_ := false }
        else Except.ok { lx with first_ := false }
    else
      if lx.curr_token_ ≠ Token.Eof then
        if lx.indent_index_ > 0 then
          Except.ok { lx with curr_token_ := Token.Dedent, indent_index_ := lx.indent_index_ - 1,
                              first_ := false }
        else if lx.curr_token_ ≠ Token.Newline ∧ lx.curr_token_ ≠ Token.Dedent ∧ lx.first_ = false then
          Except.ok { lx with curr_token_ := Token.Newline, first_ := false }
        else
          Except.ok { lx with curr_token_ := Token.Eof, first_ := false }
      else Except.ok { lx with first_ := false }

/-- `Lexer::NextToken`: every call of itself follows the consumption of a byte,
so the number of unread bytes plus one is enough fuel. -/
def NextToken (lx : Lexer) : Except Exception Lexer :=
  NextTokenFuel (lx.input_.length + 1) lx

/-- The constructor `Lexer::Lexer(input)`: the members take their defaults and
the first token is read. -/
def Lexer.new (input : List Char) : Except Exception Lexer :=
  NextToken { input_ := input }

/-- The tokens handed out by `n` further calls of `NextToken`, oldest first,
and the lexer after them; an exception ends the run. -/
def nextTokens : Nat → Lexer → Except Exception (List Token × Lexer)
  | 0, lx => Except.ok ([], lx)
  | n + 1, lx =>
    match NextToken lx with
    | Except.error e => Except.error e
    | Except.ok lx2 =>
      match nextTokens n lx2 with
      | Except.error e => Except.error e
      | Except.ok r => Except.ok (lx2.curr_token_ :: r.1, r.2)

/-- The constructor followed by `n` calls of `NextToken`: the tokens handed
out (the constructor's token first) and the lexer after them. -/
def lexRun (input : List Char) (n : Nat) : Except Exception (List Token × Lexer) :=
  match Lexer.new input with
  | Except.error e => Except.error e
  | Except.ok lx =>
    match nextTokens n lx with
    | Except.error e => Except.error e
    | Except.ok r => Except.ok (lx.curr_token_ :: r.1, r.2)

/-- The token stream: the constructor's token followed by the results of
`n` calls of `NextToken`. -/
def tokenStream (input : List Char) (n : Nat) : Except Exception (List Token) :=
  match lexRun input n with
  | Except.error e => Except.error e
  | Except.ok r => Except.ok r.1

/-! ## The branches of `NextToken` and the predicates of the proofs -/

/-- The ending `first_ = false; return curr_token_;` after a call of itself. -/
def setFirst : Except Exception Lexer → Except Exception Lexer
  | Except.ok lx2 => Except.ok { lx2 with first_ := false }
  | Except.error e => Except.error e

/-- The branch of `NextToken` for a newline, `rest` being the stream after it. -/
def onNewline (recur : Lexer → Except Exception Lexer) (lx : Lexer) (rest : List Char) :
    Except Exception Lexer :=
  if lx.curr_token_ ≠ Token.Newline ∧ lx.first_ = false then
    if peekIs ' ' (skipWhile '\n' rest) = false ∧ lx.indent_index_ > 0 then
      Except.ok { lx with curr_token_ := Token.Newline, input_ := skipWhile '\n' rest,
                          spaces_ := -lx.indent_index_, first_ := false }
    else
      Except.ok { lx with curr_token_ := Token.Newline, input_ := skipWhile '\n' rest,
                          first_ := false }
  else setFirst (recur { lx with input_ := rest })

/-- The branch of `NextToken` for a space. -/
def onSpace (recur : Lexer → Except Exception Lexer) (lx : Lexer) : Except Exception Lexer :=
  if lx.curr_token_ ≠ Token.Newline ∧ lx.curr_token_ ≠ Token.Dedent then
    setFirst (recur { lx with input_ := skipWhile ' ' lx.input_ })
  else if lx.curr_token_ = Token.Newline then
    setFirst (recur { lx with input_ := (CountSpaces lx.input_).2,
                              spaces_ := (CountSpaces lx.input_).1 - lx.indent_index_ })
  else Except.ok { lx with first_ := false }

/-- The branch of `NextToken` for a number. -/
def onDigit (lx : Lexer) : Except Exception Lexer :=
  match LoadNumber lx.input_ with
  | Except.ok r => Except.ok { lx with curr_token_ := r.1, input_ := r.2, first_ := false }
  | Except.error e => Except.error e

/-- The dispatch of `NextToken` on a positive `char`. -/
def onChar (recur : Lexer → Except Exception Lexer) (lx : Lexer) (ch : Char) (rest : List Char) :
    Except Exception Lexer :=
  if ch = '#' then setFirst (recur { lx with input_ := IgnoreComment rest })
  else if ch = '"' then
    match LoadString rest with
    | Except.ok r => Except.ok { lx with curr_token_ := r.1, input_ := r.2, first_ := false }
    | Except.error e => Except.error e
  else if ch = '\'' then
    match LoadSingleQuotedString rest with
    | Except.ok r => Except.ok { lx with curr_token_ := r.1, input_ := r.2, first_ := false }
    | Except.error e => Except.error e
  else if ch.isDigit then onDigit lx
  else if ch.isAlpha ∨ ch = '_' then
    Except.ok { lx with curr_token_ := (LoadIdOrElse lx.input_).1,
                        input_ := (LoadIdOrElse lx.input_).2, first_ := false }
  else if IsCompareSymbol ch then
    Except.ok { lx with curr_token_ := (LoadCompareSymbol lx.input_).1,
                        input_ := (LoadCompareSymbol lx.input_).2, first_ := false }
  else if IsSymbol ch then
    Except.ok { lx with curr_token_ := LoadChar ch, input_ := rest, first_ := false }
  else if ch = '\n' then onNewline recur lx rest
  else if ch = ' ' then onSpace recur lx
  else Except.ok { lx with first_ := false }

/-- The branch of `NextToken` at the end of the stream. -/
def atEnd (lx : Lexer) : Except Exception Lexer :=
  if lx.curr_token_ ≠ Token.Eof then
    if lx.indent_index_ > 0 then
      Except.ok { lx with curr_token_ := Token.Dedent, indent_index_ := lx.indent_index_ - 1,
                          first_ := false }
    else if lx.curr_token_ ≠ Token.Newline ∧ lx.curr_token_ ≠ Token.Dedent ∧ lx.first_ = false then
      Except.ok { lx with curr_token_ := Token.Newline, first_ := false }
    else
      Except.ok { lx with curr_token_ := Token.Eof, first_ := false }
  else Except.ok { lx with first_ := false }

/-- The runs of `NextToken`, branch by branch: `Lexes lx r` says that the call
in state `lx` ends with `r`. -/
inductive Lexes : Lexer → Except Exception Lexer → Prop where
  | indent (lx : Lexer) (hs : 0 < lx.spaces_) :
      Lexes lx (Except.ok
        { lx with curr_token_ := Token.Indent, indent_index_ := lx.indent_index_ + 1,
                  spaces_ := lx.spaces_ - 1, first_ := false })
  | dedent (lx : Lexer) (hs : lx.spaces_ < 0) :
      Lexes lx (Except.ok
        { lx with curr_token_ := Token.Dedent, indent_index_ := lx.indent_index_ - 1,
                  spaces_ := lx.spaces_ + 1, first_ := false })
  | comment (lx : Lexer) (rest : List Char) (r : Except Exception Lexer)
      (hs : lx.spaces_ = 0) (hi : lx.input_ = '#' :: rest)
      (hr : Lexes { lx with input_ := IgnoreComment rest } r) : Lexes lx (setFirst r)
  | dquote (lx : Lexer) (rest : List Char) (r : Token × List Char)
      (hs : lx.spaces_ = 0) (hi : lx.input_ = '"' :: rest) (hn : LoadString rest = Except.ok r) :
      Lexes lx (Except.ok { lx with curr_token_ := r.1, input_ := r.2, first_ := false })
  | dquoteError (lx : Lexer) (rest : List Char) (e : Exception)
      (hs : lx.spaces_ = 0) (hi : lx.input_ = '"' :: rest)
      (hn : LoadString rest = Except.error e) : Lexes lx (Except.error e)
  | squote (lx : Lexer) (rest : List Char) (r : Token × List Char)
      (hs : lx.spaces_ = 0) (hi : lx.input_ = '\'' :: rest)
      (hn : LoadSingleQuotedString rest = Except.ok r) :
      Lexes lx (Except.ok { lx with curr_token_ := r.1, input_ := r.2, first_ := false })
  | squoteError (lx : Lexer) (rest : List Char) (e : Exception)
      (hs : lx.spaces_ = 0) (hi : lx.input_ = '\'' :: rest)
      (hn : LoadSingleQuotedString rest = Except.error e) : Lexes lx (Except.error e)
  | number (lx : Lexer) (ch : Char) (rest : List Char) (r : Token × List Char)
      (hs : lx.spaces_ = 0) (hi : lx.input_ = ch :: rest) (hc : ch.isDigit = true)
      (hn : LoadNumber lx.input_ = Except.ok r) :
      Lexes lx (Except.ok { lx with curr_token_ := r.1, input_ := r.2, first_ := false })
  | numberError (lx : Lexer) (ch : Char) (rest : List Char) (e : Exception)
      (hs : lx.spaces_ = 0) (hi : lx.input_ = ch :: rest) (hc : ch.isDigit = true)
      (hn : LoadNumber lx.input_ = Except.error e) : Lexes lx (Except.error e)
  | word (lx : Lexer) (ch : Char) (rest : List Char)
      (hs : lx.spaces_ = 0) (hi : lx.input_ = ch :: rest)
      (hc : ch.isAlpha = true ∨ ch = '_') :
      Lexes lx (Except.ok
        { lx with curr_token_ := (LoadIdOrElse lx.input_).1, input_ := (LoadIdOrElse lx.input_).2,
                  first_ := false })
  | compare (lx : Lexer) (ch : Char) (rest : List Char)
      (hs : lx.spaces_ = 0) (hi : lx.input_ = ch :: rest) (hc : IsCompareSymbol ch = true) :
      Lexes lx (Except.ok
        { lx with curr_token_ := (LoadCompareSymbol lx.input_).1,
                  input_ := (LoadCompareSymbol lx.input_).2, first_ := false })
  | symbol (lx : Lexer) (ch : Char) (rest : List Char)
      (hs : lx.spaces_ = 0) (hi : lx.input_ = ch :: rest) (hc : IsSymbol ch = true) :
      Lexes lx (Except.ok { lx with curr_token_ := LoadChar ch, input_ := rest, first_ := false })
  | newlineDedent (lx : Lexer) (rest : List Char)
      (hs : lx.spaces_ = 0) (hi : lx.input_ = '\n' :: rest)
      (ht : lx.curr_token_ ≠ Token.Newline) (hf : lx.first_ = false)
      (hp : peekIs ' ' (skipWhile '\n' rest) = false) (hl : 0 < lx.indent_index_) :
      Lexes lx (Except.ok
        { lx with curr_token_ := Token.Newline, input_ := skipWhile '\n' rest,
                  spaces_ := -lx.indent_index_, first_ := false })
  | newline (lx : Lexer) (rest : List Char)
      (hs : lx.spaces_ = 0) (hi : lx.input_ = '\n' :: rest)
      (ht : lx.curr_token_ ≠ Token.Newline) (hf : lx.first_ = false)
      (hp : peekIs ' ' (skipWhile '\n' rest) = true ∨ lx.indent_index_ ≤ 0) :
      Lexes lx (Except.ok
        { lx with curr_token_ := Token.Newline, input_ := skipWhile '\n' rest, first_ := false })
  | blankLine (lx : Lexer) (rest : List Char) (r : Except Exception Lexer)
      (hs : lx.spaces_ = 0) (hi : lx.input_ = '\n' :: rest)
      (ht : lx.curr_token_ = Token.Newline ∨ lx.first_ = true)
      (hr : Lexes { lx with input_ := rest } r) : Lexes lx (setFirst r)
  | spaces (lx : Lexer) (rest : List Char) (r : Except Exception Lexer)
      (hs : lx.spaces_ = 0) (hi : lx.input_ = ' ' :: rest)
      (ht : lx.curr_token_ ≠ Token.Newline) (hd : lx.curr_token_ ≠ Token.Dedent)
      (hr : Lexes { lx with input_ := skipWhile ' ' lx.input_ } r) : Lexes lx (setFirst r)
  | indentation (lx : Lexer) (rest : List Char) (r : Except Exception Lexer)
      (hs : lx.spaces_ = 0) (hi : lx.input_ = ' ' :: rest)
      (ht : lx.curr_token_ = Token.Newline)
      (hr : Lexes { lx with input_ := (CountSpaces lx.input_).2,
                            spaces_ := (CountSpaces lx.input_).1 - lx.indent_index_ } r) :
      Lexes lx (setFirst r)
  | spaceAfterDedent (lx : Lexer) (rest : List Char)
      (hs : lx.spaces_ = 0) (hi : lx.input_ = ' ' :: rest)
      (ht : lx.curr_token_ = Token.Dedent) :
      Lexes lx (Except.ok { lx with first_ := false })
  | unknown (lx : Lexer) (ch : Char) (rest : List Char)
      (hs : lx.spaces_ = 0) (hi : lx.input_ = ch :: rest) (hp : 0 < toSignedChar ch)
      (h1 : ch ≠ '#') (h2 : ch ≠ '"') (h3 : ch ≠ '\'') (h4 : ch.isDigit = false)
      (h5 : ch.isAlpha = false) (h6 : ch ≠ '_') (h7 : IsCompareSymbol ch = false)
      (h8 : IsSymbol ch = false) (h9 : ch ≠ '\n') (h10 : ch ≠ ' ') :
      Lexes lx (Except.ok { lx with first_ := false })
  | endDedent (lx : Lexer) (hs : lx.spaces_ = 0) (hp : peekChar lx.input_ ≤ 0)
      (ht : lx.curr_token_ ≠ Token.Eof) (hl : 0 < lx.indent_index_) :
      Lexes lx (Except.ok
        { lx with curr_token_ := Token.Dedent, indent_index_ := lx.indent_index_ - 1,
                  first_ := false })
  | endNewline (lx : Lexer) (hs : lx.spaces_ = 0) (hp : peekChar lx.input_ ≤ 0)
      (ht : lx.curr_token_ ≠ Token.Eof) (hl : lx.indent_index_ ≤ 0)
      (hn : lx.curr_token_ ≠ Token.Newline) (hd : lx.curr_token_ ≠ Token.Dedent)
      (hf : lx.first_ = false) :
      Lexes lx (Except.ok { lx with curr_token_ := Token.Newline, first_ := false })
  | endEof (lx : Lexer) (hs : lx.spaces_ = 0) (hp : peekChar lx.input_ ≤ 0)
      (ht : lx.curr_token_ ≠ Token.Eof) (hl : lx.indent_index_ ≤ 0)
      (hn : lx.curr_token_ = Token.Newline ∨ lx.curr_token_ = Token.Dedent ∨ lx.first_ = true) :
      Lexes lx (Except.ok { lx with curr_token_ := Token.Eof, first_ := false })
  | afterEof (lx : Lexer) (hs : lx.spaces_ = 0) (hp : peekChar lx.input_ ≤ 0)
      (ht : lx.curr_token_ = Token.Eof) :
      Lexes lx (Except.ok { lx with first_ := false })

/-- The numeric reading of the tests of `NextToken` on a character. -/
structure CharFacts (c : Char) : Prop where
  hash : c = '#' ↔ c.toNat = 35
  dquote : c = '"' ↔ c.toNat = 34
  squote : c = '\'' ↔ c.toNat = 39
  underscore : c = '_' ↔ c.toNat = 95
  newline : c = '\n' ↔ c.toNat = 10
  space : c = ' ' ↔ c.toNat = 32
  digit : c.isDigit = true ↔ 48 ≤ c.toNat ∧ c.toNat ≤ 57
  alpha : c.isAlpha = true ↔ (65 ≤ c.toNat ∧ c.toNat ≤ 90) ∨ (97 ≤ c.toNat ∧ c.toNat ≤ 122)
  symbol : IsSymbol c = true ↔ (40 ≤ c.toNat ∧ c.toNat ≤ 47) ∨ c.toNat = 58
  compare : IsCompareSymbol c = true ↔ c.toNat = 61 ∨ c.toNat = 60 ∨ c.toNat = 62 ∨ c.toNat = 33
  positive : 0 < toSignedChar c ↔ 0 < c.toNat ∧ c.toNat < 128

/-- The change of the indent level a token stands for. -/
def indentDelta : Token → Int
  | Token.Indent => 1
  | Token.Dedent => -1
  | _ => 0

/-- The tokens read from the text, as opposed to the structural `Newline`,
`Indent`, `Dedent` and `Eof`. -/
def Token.ordinary : Token → Bool
  | Token.Newline => false
  | Token.Indent => false
  | Token.Dedent => false
  | Token.Eof => false
  | _ => true

/-- The lexer has no pending token and sees the end of its stream (the end of
the input, or a byte that is not positive as a `char`). -/
def AtEnd (lx : Lexer) : Prop := peekChar lx.input_ ≤ 0 ∧ lx.spaces_ = 0

/-- A call of `NextToken` in this state changes nothing but `first_`: it hands
out the current token again. -/
def Stuck (lx : Lexer) : Prop :=
  ∀ b : Bool, Lexes { lx with first_ := b } (Except.ok { lx with first_ := false })

/-- The relation between the members that every call keeps: the level is not
negative, pending dedents do not exceed it, and pending tokens follow a
`Newline` or a token of their own kind. -/
def Coherent (lx : Lexer) : Prop :=
  0 ≤ lx.indent_index_ ∧ 0 ≤ lx.indent_index_ + lx.spaces_ ∧
  (0 < lx.spaces_ → lx.curr_token_ = Token.Newline ∨ lx.curr_token_ = Token.Indent) ∧
  (lx.spaces_ < 0 → lx.curr_token_ = Token.Newline ∨ lx.curr_token_ = Token.Dedent)

/-- What a call that hands out a new token guarantees about it. -/
def Emits (lx lx2 : Lexer) : Prop :=
  lx2.indent_index_ = lx.indent_index_ + indentDelta lx2.curr_token_ ∧
  (lx2.curr_token_ = Token.Indent →
    lx.curr_token_ = Token.Newline ∨ lx.curr_token_ = Token.Indent) ∧
  (lx2.curr_token_ = Token.Dedent →
    lx.curr_token_ = Token.Newline ∨ lx.curr_token_ = Token.Dedent ∨ AtEnd lx2) ∧
  (lx2.curr_token_ = Token.Eof →
    (lx.curr_token_ = Token.Newline ∨ lx.curr_token_ = Token.Dedent ∨ lx.first_ = true) ∧
    lx2.indent_index_ = 0 ∧ AtEnd lx2)

/-- What every call of `NextToken` guarantees. -/
def StepOk (lx lx2 : Lexer) : Prop :=
  Coherent lx2 ∧ lx2.first_ = false ∧
    ((Stuck lx2 ∧ lx2.curr_token_ = lx.curr_token_ ∧ lx2.indent_index_ = lx.indent_index_)
      ∨ Emits lx lx2)

/-- What holds of a token `b`, the token `a` handed out before it and the
tokens `post` handed out after it; `start` says that `a` is the token the
lexer held before its first call. -/
def Follows (start : Prop) (a b : Token) (post : List Token) : Prop :=
  (b = Token.Indent → a = Token.Newline ∨ a = Token.Indent) ∧
  (b = Token.Dedent → a = Token.Newline ∨ a = Token.Dedent ∨
    ∀ t ∈ post, t = Token.Dedent ∨ t = Token.Eof) ∧
  (b = Token.Eof → a = Token.Eof ∨ a = Token.Newline ∨ a = Token.Dedent ∨ start)

/-- The bytes at which `NextToken` reads a token from the text. -/
def startsToken (ch : Char) : Bool :=
  ch == '"' || ch == '\'' || ch.isDigit || ch.isAlpha || ch == '_' || IsCompareSymbol ch ||
    IsSymbol ch

/-- The stream `r` with the tokens `pre` put in front. -/
def prepend (pre : List Token) :
    Except Exception (List Token × Lexer) → Except Exception (List Token × Lexer)
  | Except.ok r => Except.ok (pre ++ r.1, r.2)
  | Except.error e => Except.error e

/-- The bytes that end a word, in the words of the specification: a space, `#`,
a newline, one of `= < > !`, a byte in 40..47 or the byte 58. -/
def endsWord (c : Char) : Bool :=
  c == ' ' || c == '#' || c == '\n' || c == '=' || c == '<' || c == '>' || c == '!' ||
    (decide (40 ≤ c.toNat) && decide (c.toNat ≤ 47)) || c.toNat == 58

/-- The bytes of a word: the bytes below 128 that do not end a word. -/
def wordByte (c : Char) : Bool :=
  decide (c.toNat < 128) && !endsWord c

/-- The keywords and their tokens, in the order of the specification. -/
def keywords : List (String × Token) :=
  [("class", Token.Class), ("return", Token.Return), ("if", Token.If), ("else", Token.Else),
   ("def", Token.Def), ("print", Token.Print), ("and", Token.And), ("or", Token.Or),
   ("not", Token.Not), ("None", Token.None), ("True", Token.True), ("False", Token.False)]

/-- The token of a word, in the words of the specification: the token of the
keyword when the word is exactly a keyword, and `Id` with the word
otherwise. -/
def wordToken (s : String) : Token :=
  match keywords.lookup s with
  | some t => t
  | none => Token.Id s

/-- The character an escape denotes, for the six escapes `\n`, `\t`, `\r`,
`\\`, `\"` and `\'` of the specification; `c` is the byte after the
backslash. -/
def escapeOf (c : Char) : Option Char :=
  if c = 'n' then some '\n'
  else if c = 't' then some '\t'
  else if c = 'r' then some '\r'
  else if c = '\\' then some '\\'
  else if c = '"' then some '"'
  else if c = '\'' then some '\''
  else none

/-- The body of a string literal decoded, in the words of the specification:
each of the six escapes is replaced by the character it denotes, a backslash
followed by any other byte is dropped together with that byte, and every other
byte is copied. -/
def decodeBody : List Char → List Char
  | [] => []
  | c :: rest =>
    if c = '\\' then
      match rest with
      | [] => []
      | escaped :: rest2 => (escapeOf escaped).toList ++ decodeBody rest2
    else c :: decodeBody rest

/-- The bytes `body` can stand between an opening quote `q` and the quote that
closes the literal: read from the left, with a backslash taking the byte after
it, `body` holds no quote `q` outside an escape and does not end in the middle
of an escape. Then the first quote `q` after `body` that is not escaped is the
one right after `body`. -/
def closedBody (q : Char) : List Char → Bool
  | [] => true
  | c :: rest =>
    if c = '\\' then
      match rest with
      | [] => false
      | _ :: rest2 => closedBody q rest2
    else c != q && closedBody q rest

/-- The alternatives of the variant `TokenBase`: the template argument `T` of
`Is<T>`, `Expect<T>` and `ExpectNext<T>`. -/
inductive Alternative where
  | Number
  | Id
  | Char
  | String
  | Class
  | Return
  | If
  | Else
  | Def
  | Newline
  | Print
  | Indent
  | Dedent
  | And
  | Or
  | Not
  | Eq
  | NotEq
  | LessOrEq
  | GreaterOrEq
  | None
  | True
  | False
  | Eof
  deriving DecidableEq, Repr

/-- The alternative a token holds. -/
def Token.alternative : Token → Alternative
  | Token.Number _ => Alternative.Number
  | Token.Id _ => Alternative.Id
  | Token.Char _ => Alternative.Char
  | Token.String _ => Alternative.String
  | Token.Class => Alternative.Class
  | Token.Return => Alternative.Return
  | Token.If => Alternative.If
  | Token.Else => Alternative.Else
  | Token.Def => Alternative.Def
  | Token.Newline => Alternative.Newline
  | Token.Print => Alternative.Print
  | Token.Indent => Alternative.Indent
  | Token.Dedent => Alternative.Dedent
  | Token.And => Alternative.And
  | Token.Or => Alternative.Or
  | Token.Not => Alternative.Not
  | Token.Eq => Alternative.Eq
  | Token.NotEq => Alternative.NotEq
  | Token.LessOrEq => Alternative.LessOrEq
  | Token.GreaterOrEq => Alternative.GreaterOrEq
  | Token.None => Alternative.None
  | Token.True => Alternative.True
  | Token.False => Alternative.False
  | Token.Eof => Alternative.Eof

/-- `Token::Is<T>`. -/
def Token.Is (t : Token) (T : Alternative) : Bool :=
  t.alternative == T

/-- The member `value` of the four alternatives that have one: an `int`, a
`std::string` or a `char`. -/
inductive Payload where
  | int (value : Int)
  | string (value : String)
  | char (value : Char)
  deriving DecidableEq, Repr

/-- The expression `As<T>().value`: the payload of a token, `none` for the
alternatives without a member `value` (for which `Expect<T>(value)` does not
compile). -/
def Token.value : Token → Option Payload
  | Token.Number value => some (Payload.int value)
  | Token.Id value => some (Payload.string value)
  | Token.Char value => some (Payload.char value)
  | Token.String value => some (Payload.string value)
  | _ => none

/-- The result of one of the `Expect` helpers: the lexer after the call, and
the value returned or the exception thrown. -/
structure Expected (α : Type) where
  lexer : Lexer
  result : Except Exception α

/-- `Lexer::Expect<T>()`, a `const` member: the reference returned is the
current token, which holds the alternative `T`. -/
def Lexer.Expect (lx : Lexer) (T : Alternative) : Expected Token :=
  if lx.curr_token_.Is T then { lexer := lx, result := Except.ok lx.curr_token_ }
  else { lexer := lx, result := Except.error (Exception.LexerError "Wrong type") }

/-- `Lexer::Expect<T>(value)`, a `const` member; `value` is compared with the
member `value` of the alternative `T`. -/
def Lexer.ExpectValue (lx : Lexer) (T : Alternative) (value : Payload) : Expected Unit :=
  if lx.curr_token_.Is T && lx.curr_token_.value == some value then
    { lexer := lx, result := Except.ok () }
  else { lexer := lx, result := Except.error (Exception.LexerError "Wrong type or value") }

/-- `Lexer::ExpectNext<T>()`; an exception of `NextToken` leaves the call. -/
def Lexer.ExpectNext (lx : Lexer) (T : Alternative) : Except Exception (Expected Token) :=
  match NextToken lx with
  | Except.error e => Except.error e
  | Except.ok lx2 =>
    if lx2.curr_token_.Is T then
      Except.ok { lexer := lx2, result := Except.ok lx2.curr_token_ }
    else
      Except.ok { lexer := lx2,
                  result := Except.error (Exception.LexerError "Wrong next token's type") }

/-- `Lexer::ExpectNext<T>(value)`; an exception of `NextToken` leaves the call. -/
def Lexer.ExpectNextValue (lx : Lexer) (T : Alternative) (value : Payload) :
    Except Exception (Expected Unit) :=
  match NextToken lx with
  | Except.error e => Except.error e
  | Except.ok lx2 =>
    if lx2.curr_token_.Is T && lx2.curr_token_.value == some value then
      Except.ok { lexer := lx2, result := Except.ok () }
    else
      Except.ok { lexer := lx2,
                  result := Except.error (Exception.LexerError "Wrong type or value") }

/-- The bytes for which the chain of tests of `NextToken` has no branch: positive
as a `char` and none of `#`, a quote, a digit, a letter, `_`, a comparison
symbol, a symbol, a newline or a space. A tab, `%`, `;` and `[` are such
bytes. -/
def noBranch (ch : Char) : Bool :=
  decide (0 < toSignedChar ch) && ch != '#' && ch != '"' && ch != '\'' && !ch.isDigit &&
    !ch.isAlpha && ch != '_' && !IsCompareSymbol ch && !IsSymbol ch && ch != '\n' && ch != ' '

end parse

/-!
## The runtime and the syntax tree

Conventions of the embedding.

* `runtime.h` and `statement.h` are not among the sources; the types they
  declare are modelled below from the uses in `runtime.cpp` and
  `statement.cpp` and from the data model of the specification.
* A `Class` is immutable once built, so a pointer to a class is modelled by the
  class itself. A `ClassInstance` is mutable and shared: it is modelled by its
  address, and the `Heap` maps an address to the field map `closure_` of the
  instance. The instances of a program are the members `class_p_` of its
  `NewInstance` nodes; a node carries the address of its member, and the field
  map of an address the heap does not list is empty.
* A node whose `Execute` changes the node itself (`ClassDefinition` moves its
  holder out) carries an identifier, and the heap records the change.
* An `int` value is modelled by an integer; the results of `+`, `-` and `*`
  are reduced to the 32 bits of `int` (`wrapInt`), and the one quotient that
  does not fit an `int` ends in undefined behaviour.
* An exception is an `Outcome` other than `normal`; the state reached when it
  was thrown is kept in the result.
* `Execute` is defined by recursion on a fuel argument, which bounds the depth
  of nested `Execute` calls; `fuel_exhausted` is the outcome of a run that
  needs more.
-/

namespace runtime

/-- The six comparators of `runtime.cpp` that a `Comparison` node can hold
(`Comparator` is a `std::function` in the source). -/
inductive Comparator where
  | Equal
  | NotEqual
  | Less
  | Greater
  | LessOrEqual
  | GreaterOrEqual
  deriving DecidableEq, Repr

mutual
/-- Modelled from the spec: the objects of `runtime.h`. `ClassInstance` holds
the address of the instance and its class `cls_`. -/
inductive Object where
  | Number (value : Int)
  | String (value : String)
  | Bool (value : Bool)
  | Class (cls : Class)
  | ClassInstance (address : Nat) (cls_ : Class)
/-- Modelled from the spec: `class Class` with the members `name_`, `methods_`
and `parent_` that `runtime.cpp` uses. -/
inductive Class where
  | mk (name_ : String) (methods_ : List Method) (parent_ : Option Class)
/-- Modelled from the spec: `struct Method`. -/
inductive Method where
  | mk (name : String) (formal_params : List String) (body : Statement)
/-- The nodes of `statement.cpp`, each with the members its `Execute` uses.
`NewInstance` carries the address of its member `class_p_` and the class the
member was built from; `ClassDefinition` carries an identifier of the node;
`FieldAssignment` carries the two members of its `VariableValue object_`. -/
inductive Statement where
  | Assignment (var_ : String) (rv_ : Statement)
  | VariableValue (var_name_ : String) (dotted_ids_ : List String)
  | Print (args_ : List Statement)
  | MethodCall (object_ : Statement) (method_ : String) (args_ : List Statement)
  | Stringify (argument_ : Statement)
  | Add (lhs_ rhs_ : Statement)
  | Sub (lhs_ rhs_ : Statement)
  | Mult (lhs_ rhs_ : Statement)
  | Div (lhs_ rhs_ : Statement)
  | Compound (args_ : List Statement)
  | Return (statement_ : Statement)
  | ClassDefinition (node : Nat) (cls_ : Option Object)
  | FieldAssignment (object_var_name_ : String) (object_dotted_ids_ : List String)
      (field_name_ : String) (rv_ : Statement)
  | IfElse (condition_ if_body_ : Statement) (else_body_ : Option Statement)
  | Or (lhs_ rhs_ : Statement)
  | And (lhs_ rhs_ : Statement)
  | Not (argument_ : Statement)
  | Comparison (comp_ : Comparator) (lhs_ rhs_ : Statement)
  | NewInstance (class_p_ : Nat) (cls : Class) (args_ : List Statement)
  | MethodBody (body_ : Statement)
end

/-- `ObjectHolder`: a pointer to an object, or null (`None`). -/
abbrev ObjectHolder := Option Object

/-- Modelled from the spec: `Closure`, a map from names to holders, kept as an
association list without repeated names. -/
abbrev Closure := List (String × ObjectHolder)

/-- The lookup `closure.count(name)` / `closure.at(name)`. -/
def Closure.find : Closure → String → Option ObjectHolder
  | [], _ => none
  | (k, v) :: rest, name => if k = name then some v else Closure.find rest name

/-- The assignment `closure[name] = value`. -/
def Closure.assign : Closure → String → ObjectHolder → Closure
  | [], name, value => [(name, value)]
  | (k, v) :: rest, name, value =>
    if k = name then (k, value) :: rest else (k, v) :: Closure.assign rest name value

/-- The mutable state outside the closures: the field maps of the instances, by
address, and the `ClassDefinition` nodes whose holder has been moved out. -/
structure Heap where
  fields_ : List (Nat × Closure) := []
  moved_ : List Nat := []

/-- `ClassInstance::Fields()` of the instance at `address`. -/
def Heap.Fields (heap : Heap) (address : Nat) : Closure :=
  match heap.fields_.find? (fun e => e.1 == address) with
  | some e => e.2
  | none => []

/-- The heap after the field map of the instance at `address` became `closure`. -/
def Heap.setFields (heap : Heap) (address : Nat) (closure : Closure) : Heap :=
  { heap with fields_ := (address, closure) :: heap.fields_.filter (fun e => e.1 != address) }

/-- Modelled from the spec: `Context`, the output stream of the program. -/
structure Context where
  output : String := ""

/-- The stream after `os << text`. -/
def Context.write (context : Context) (text : String) : Context :=
  { context with output := context.output ++ text }

/-- How a call ends: with a value, with a thrown `ObjectHolder` (the exit of
`Return`), with a `std::runtime_error`, or in undefined behaviour (a null
pointer is dereferenced, an `int` division overflows). `fuel_exhausted` is not
an outcome of the source. -/
inductive Outcome (α : Type) where
  | normal (value : α)
  | thrown (value : ObjectHolder)
  | runtime_error (what : String)
  | undefined
  | fuel_exhausted

/-- The result of `Execute`: the outcome and the state it leaves. -/
structure Result where
  outcome : Outcome ObjectHolder
  closure : Closure
  heap : Heap
  context : Context

/-- The result of a call that has no closure of the caller to change. -/
structure Effect (α : Type) where
  outcome : Outcome α
  heap : Heap
  context : Context

/-- The signature of `Statement::Execute`. -/
abbrev Exec := Statement → Closure → Heap → Context → Result

/-- The outcome `o` of a part of a computation that did not end normally, as
the outcome of the whole. -/
def Outcome.propagate {α β : Type} : Outcome α → Outcome β
  | Outcome.normal _ => Outcome.undefined
  | Outcome.thrown v => Outcome.thrown v
  | Outcome.runtime_error what => Outcome.runtime_error what
  | Outcome.undefined => Outcome.undefined
  | Outcome.fuel_exhausted => Outcome.fuel_exhausted

/-- The member `name` of a method. -/
def Method.name : Method → String
  | Method.mk name _ _ => name

/-- The member `formal_params` of a method. -/
def Method.formal_params : Method → List String
  | Method.mk _ formal_params _ => formal_params

/-- The member `body` of a method. -/
def Method.body : Method → Statement
  | Method.mk _ _ body => body

/-- The member `methods_` of a class. -/
def Class.methods_ : Class → List Method
  | Class.mk _ methods_ _ => methods_

/-- The member `parent_` of a class. -/
def Class.parent_ : Class → Option Class
  | Class.mk _ _ parent_ => parent_

/-- `Class::GetName`. -/
def Class.GetName : Class → String
  | Class.mk name_ _ _ => name_

/-- `std::find_if` over the methods of a class. -/
def find_if (comp : Method → Bool) : List Method → Option Method
  | [] => none
  | m :: rest => if comp m then some m else find_if comp rest

mutual
/-- `Class::GetMethod`: `none` is the null pointer. -/
def Class.GetMethod : Class → String → Option Method
  | Class.mk _ methods_ parent_, name =>
    match find_if (fun m => m.name == name) methods_ with
    | some m => some m
    | none => GetMethodOfParent parent_ name
/-- The branch `if (parent_) return parent_->GetMethod(name); else return nullptr;`
of `Class::GetMethod`. -/
def GetMethodOfParent : Option Class → String → Option Method
  | some parent, name => Class.GetMethod parent name
  | none, _ => none
end

/-- `IsTrue`. -/
def IsTrue : ObjectHolder → Bool
  | some (Object.Bool value) => value
  | some (Object.String value) => !value.isEmpty
  | some (Object.Number value) => value != 0
  | some _ => false
  | none => false

/-- `ClassInstance::HasMethod` of an instance of class `cls_`. -/
def ClassInstance.HasMethod (cls_ : Class) (method : String) (argument_count : Nat) : Bool :=
  match cls_.GetMethod method with
  | some m => m.formal_params.length == argument_count
  | none => false

/-- The loop of `ClassInstance::Call` that binds the formal parameters. -/
def bindParams : List String → List ObjectHolder → Closure → Closure
  | param :: params, arg :: args, closure => bindParams params args (closure.assign param arg)
  | _, _, closure => closure

/-- The closure `ClassInstance::Call` builds for the method body. -/
def ClassInstance.frame (address : Nat) (cls_ : Class) (m : Method)
    (actual_args : List ObjectHolder) : Closure :=
  bindParams m.formal_params actual_args
    (Closure.assign [] "self" (some (Object.ClassInstance address cls_)))

/-- `ClassInstance::Call` on the instance at `address`. -/
def ClassInstance.Call (exec : Exec) (address : Nat) (cls_ : Class) (method : String)
    (actual_args : List ObjectHolder) (heap : Heap) (context : Context) : Effect ObjectHolder :=
  if ClassInstance.HasMethod cls_ method actual_args.length then
    match cls_.GetMethod method with
    | some m =>
      let r := exec m.body (ClassInstance.frame address cls_ m actual_args) heap context
      { outcome := r.outcome, heap := r.heap, context := r.context }
    | none => { outcome := Outcome.undefined, heap := heap, context := context }
  else
    { outcome := Outcome.runtime_error "Method not found", heap := heap, context := context }

/-- The result of printing an object: the text written to the stream. -/
abbrev PrintEffect := Effect String

/-- The text `os << this` writes for the instance at `address`: it is defined by
the implementation; the model fixes one. -/
def pointerText (address : Nat) : String := "0x" ++ toString address

/-- `Object::Print` by dynamic type: the text written to `os`, after the effects
of the `__str__` calls it makes. `depth` bounds the chain of `__str__` results
that are instances again. -/
def Object.Print (exec : Exec) : Nat → Object → Heap → Context → PrintEffect
  | 0, _, heap, context =>
    { outcome := Outcome.fuel_exhausted, heap := heap, context := context }
  | depth + 1, object, heap, context =>
    match object with
    | Object.Number value =>
      { outcome := Outcome.normal (toString value), heap := heap, context := context }
    | Object.String value =>
      { outcome := Outcome.normal value, heap := heap, context := context }
    | Object.Bool value =>
      { outcome := Outcome.normal (if value then "True" else "False"), heap := heap,
        context := context }
    | Object.Class cls =>
      { outcome := Outcome.normal ("Class " ++ cls.GetName), heap := heap, context := context }
    | Object.ClassInstance address cls_ =>
      if ClassInstance.HasMethod cls_ "__str__" 0 then
        let r := ClassInstance.Call exec address cls_ "__str__" [] heap context
        match r.outcome with
        | Outcome.normal (some object2) => Object.Print exec depth object2 r.heap r.context
        | Outcome.normal none =>
          { outcome := Outcome.undefined, heap := r.heap, context := r.context }
        | o => { outcome := o.propagate, heap := r.heap, context := r.context }
      else
        { outcome := Outcome.normal (pointerText address), heap := heap, context := context }

/-- `CompareValueObjects` with the comparator `Eq`. -/
def CompareValueObjectsEq : ObjectHolder → ObjectHolder → Except String Bool
  | some (Object.Bool l), some (Object.Bool r) => Except.ok (l == r)
  | some (Object.Bool _), _ => Except.error "Different types of compared objects"
  | some (Object.Number l), some (Object.Number r) => Except.ok (l == r)
  | some (Object.Number _), _ => Except.error "Different types of compared objects"
  | some (Object.String l), some (Object.String r) => Except.ok (l == r)
  | some (Object.String _), _ => Except.error "Different types of compared objects"
  | _, _ => Except.error "Comparation error"

/-- `CompareValueObjects` with the comparator `Le` (which is `<`). -/
def CompareValueObjectsLe : ObjectHolder → ObjectHolder → Except String Bool
  | some (Object.Bool l), some (Object.Bool r) => Except.ok (decide (l < r))
  | some (Object.Bool _), _ => Except.error "Different types of compared objects"
  | some (Object.Number l), some (Object.Number r) => Except.ok (decide (l < r))
  | some (Object.Number _), _ => Except.error "Different types of compared objects"
  | some (Object.String l), some (Object.String r) => Except.ok (decide (l < r))
  | some (Object.String _), _ => Except.error "Different types of compared objects"
  | _, _ => Except.error "Comparation error"

/-- The result of `CompareValueObjects` as an effect. -/
def compareEffect (r : Except String Bool) (heap : Heap) (context : Context) : Effect Bool :=
  match r with
  | Except.ok b => { outcome := Outcome.normal b, heap := heap, context := context }
  | Except.error what =>
    { outcome := Outcome.runtime_error what, heap := heap, context := context }

/-- The part of `Equal` and `Less` for a `ClassInstance` on the left: the call
of `method` with `rhs`, whose result must be a `Bool`; `what` is the message
of the error thrown otherwise. -/
def compareInstance (exec : Exec) (address : Nat) (cls_ : Class) (method what : String)
    (rhs : ObjectHolder) (heap : Heap) (context : Context) : Effect Bool :=
  if ClassInstance.HasMethod cls_ method 1 then
    let r := ClassInstance.Call exec address cls_ method [rhs] heap context
    match r.outcome with
    | Outcome.normal (some (Object.Bool value)) =>
      { outcome := Outcome.normal value, heap := r.heap, context := r.context }
    | Outcome.normal _ =>
      { outcome := Outcome.runtime_error what, heap := r.heap, context := r.context }
    | o => { outcome := o.propagate, heap := r.heap, context := r.context }
  else { outcome := Outcome.runtime_error what, heap := heap, context := context }

/-- `Equal`. -/
def Equal (exec : Exec) (lhs rhs : ObjectHolder) (heap : Heap) (context : Context) :
    Effect Bool :=
  match lhs, rhs with
  | none, none => { outcome := Outcome.normal true, heap := heap, context := context }
  | some (Object.ClassInstance address cls_), _ =>
    compareInstance exec address cls_ "__eq__" "Comparation error" rhs heap context
  | _, _ => compareEffect (CompareValueObjectsEq lhs rhs) heap context

/-- `Less`. -/
def Less (exec : Exec) (lhs rhs : ObjectHolder) (heap : Heap) (context : Context) :
    Effect Bool :=
  match lhs with
  | some (Object.ClassInstance address cls_) =>
    compareInstance exec address cls_ "__lt__" "Cannot compare objects for less" rhs heap
      context
  | _ => compareEffect (CompareValueObjectsLe lhs rhs) heap context

/-- The negation `!f(...)` of a comparison. -/
def Effect.not (r : Effect Bool) : Effect Bool :=
  match r.outcome with
  | Outcome.normal b => { r with outcome := Outcome.normal (!b) }
  | _ => r

/-- `NotEqual`. -/
def NotEqual (exec : Exec) (lhs rhs : ObjectHolder) (heap : Heap) (context : Context) :
    Effect Bool :=
  (Equal exec lhs rhs heap context).not

/-- `Greater`: `!Less(...) && !Equal(...)`. -/
def Greater (exec : Exec) (lhs rhs : ObjectHolder) (heap : Heap) (context : Context) :
    Effect Bool :=
  let r := Less exec lhs rhs heap context
  match r.outcome with
  | Outcome.normal true => { r with outcome := Outcome.normal false }
  | Outcome.normal false => (Equal exec lhs rhs r.heap r.context).not
  | _ => r

/-- `LessOrEqual`: `Less(...) || Equal(...)`. -/
def LessOrEqual (exec : Exec) (lhs rhs : ObjectHolder) (heap : Heap) (context : Context) :
    Effect Bool :=
  let r := Less exec lhs rhs heap context
  match r.outcome with
  | Outcome.normal true => r
  | Outcome.normal false => Equal exec lhs rhs r.heap r.context
  | _ => r

/-- `GreaterOrEqual`. -/
def GreaterOrEqual (exec : Exec) (lhs rhs : ObjectHolder) (heap : Heap) (context : Context) :
    Effect Bool :=
  (Less exec lhs rhs heap context).not

/-- The call `comp_(left, right, context)` of a `Comparison` node. -/
def applyComparator (comp_ : Comparator) (exec : Exec) (lhs rhs : ObjectHolder) (heap : Heap)
    (context : Context) : Effect Bool :=
  match comp_ with
  | Comparator.Equal => Equal exec lhs rhs heap context
  | Comparator.NotEqual => NotEqual exec lhs rhs heap context
  | Comparator.Less => Less exec lhs rhs heap context
  | Comparator.Greater => Greater exec lhs rhs heap context
  | Comparator.LessOrEqual => LessOrEqual exec lhs rhs heap context
  | Comparator.GreaterOrEqual => GreaterOrEqual exec lhs rhs heap context

end runtime

namespace ast

open runtime

/-- `ADD_METHOD`. -/
def ADD_METHOD : String := "__add__"

/-- `INIT_METHOD`. -/
def INIT_METHOD : String := "__init__"

/-- `Assignment::Execute`. -/
def Assignment.Execute (exec : Exec) (var_ : String) (rv_ : Statement) (closure : Closure)
    (heap : Heap) (context : Context) : Result :=
  let r := exec rv_ closure heap context
  match r.outcome with
  | Outcome.normal value => { r with closure := r.closure.assign var_ value }
  | _ => r

/-- `VariableValue::Execute`; the call on `VariableValue(dotted_ids_)` is the
call on the first of the remaining names. -/
def VariableValue.Execute : String → List String → Closure → Heap → Outcome ObjectHolder
  | var_name_, dotted_ids_, closure, heap =>
    match closure.find var_name_ with
    | some obj =>
      match dotted_ids_ with
      | [] => Outcome.normal obj
      | next :: ids =>
        match obj with
        | some (Object.ClassInstance address _) =>
          VariableValue.Execute next ids (heap.Fields address) heap
        | _ => Outcome.normal obj
    | none => Outcome.runtime_error "Unknown variable name"

/-- The loop of `Print::Execute`; `first` is its flag. -/
def Print.Loop (exec : Exec) (depth : Nat) :
    List Statement → Bool → Closure → Heap → Context → Result
  | [], _, closure, heap, context =>
    { outcome := Outcome.normal none, closure := closure, heap := heap, context := context }
  | var :: rest, first, closure, heap, context =>
    let r := exec var closure heap (if first then context else context.write " ")
    match r.outcome with
    | Outcome.normal (some object) =>
      let p := Object.Print exec depth object r.heap r.context
      match p.outcome with
      | Outcome.normal text =>
        Print.Loop exec depth rest false r.closure p.heap (p.context.write text)
      | o => { outcome := o.propagate, closure := r.closure, heap := p.heap,
               context := p.context }
    | Outcome.normal none =>
      Print.Loop exec depth rest false r.closure r.heap (r.context.write "None")
    | _ => r

/-- `Print::Execute`. -/
def Print.Execute (exec : Exec) (depth : Nat) (args_ : List Statement) (closure : Closure)
    (heap : Heap) (context : Context) : Result :=
  let r := Print.Loop exec depth args_ true closure heap context
  match r.outcome with
  | Outcome.normal _ => { r with outcome := Outcome.normal none, context := r.context.write "\n" }
  | _ => r

/-- The result of evaluating the arguments of a call in order. -/
structure ArgsResult where
  outcome : Outcome (List ObjectHolder)
  closure : Closure
  heap : Heap
  context : Context

/-- The loop that evaluates the arguments of a call in order. -/
def ExecuteArgs (exec : Exec) : List Statement → Closure → Heap → Context → ArgsResult
  | [], closure, heap, context =>
    { outcome := Outcome.normal [], closure := closure, heap := heap, context := context }
  | arg :: rest, closure, heap, context =>
    let r := exec arg closure heap context
    match r.outcome with
    | Outcome.normal value =>
      let rs := ExecuteArgs exec rest r.closure r.heap r.context
      match rs.outcome with
      | Outcome.normal values => { rs with outcome := Outcome.normal (value :: values) }
      | _ => rs
    | o => { outcome := o.propagate, closure := r.closure, heap := r.heap,
             context := r.context }

/-- `MethodCall::Execute`. -/
def MethodCall.Execute (exec : Exec) (object_ : Statement) (method_ : String)
    (args_ : List Statement) (closure : Closure) (heap : Heap) (context : Context) : Result :=
  let r := exec object_ closure heap context
  match r.outcome with
  | Outcome.normal (some (Object.ClassInstance address cls_)) =>
    let a := ExecuteArgs exec args_ r.closure r.heap r.context
    match a.outcome with
    | Outcome.normal args =>
      let c := ClassInstance.Call exec address cls_ method_ args a.heap a.context
      { outcome := c.outcome, closure := a.closure, heap := c.heap, context := c.context }
    | o => { outcome := o.propagate, closure := a.closure, heap := a.heap,
             context := a.context }
  | Outcome.normal _ =>
    { r with outcome := Outcome.runtime_error "Object must be a ClassInstance to call a method" }
  | _ => r

/-- `Stringify::Execute`. -/
def Stringify.Execute (exec : Exec) (depth : Nat) (argument_ : Statement) (closure : Closure)
    (heap : Heap) (context : Context) : Result :=
  let r := exec argument_ closure heap context
  match r.outcome with
  | Outcome.normal (some object) =>
    let p := Object.Print exec depth object r.heap r.context
    match p.outcome with
    | Outcome.normal text =>
      { outcome := Outcome.normal (some (Object.String text)), closure := r.closure,
        heap := p.heap, context := p.context }
    | o => { outcome := o.propagate, closure := r.closure, heap := p.heap,
             context := p.context }
  | Outcome.normal none => { r with outcome := Outcome.normal (some (Object.String "None")) }
  | _ => r

/-- The evaluation of the two operands of a binary operation, left first. -/
def ExecuteOperands (exec : Exec) (lhs_ rhs_ : Statement) (closure : Closure) (heap : Heap)
    (context : Context) : Outcome (ObjectHolder × ObjectHolder) × Result :=
  let l := exec lhs_ closure heap context
  match l.outcome with
  | Outcome.normal left_obj =>
    let r := exec rhs_ l.closure l.heap l.context
    match r.outcome with
    | Outcome.normal right_obj => (Outcome.normal (left_obj, right_obj), r)
    | o => (o.propagate, r)
  | o => (o.propagate, l)

/-- The value an arithmetic result `x` takes in an `int` (32 bits, two's
complement): `x` itself when it fits, and otherwise `x` reduced modulo `2^32`
into the range of `int`, which is what the machine operation leaves (the
overflow of a signed `int` is undefined in C++). -/
def wrapInt (x : Int) : Int :=
  (x + 2147483648) % 4294967296 - 2147483648

/-- `Add::Execute`. -/
def Add.Execute (exec : Exec) (lhs_ rhs_ : Statement) (closure : Closure) (heap : Heap)
    (context : Context) : Result :=
  match ExecuteOperands exec lhs_ rhs_ closure heap context with
  | (Outcome.normal (some (Object.Number l), some (Object.Number r)), s) =>
    { s with outcome := Outcome.normal (some (Object.Number (wrapInt (l + r)))) }
  | (Outcome.normal (some (Object.String l), some (Object.String r)), s) =>
    { s with outcome := Outcome.normal (some (Object.String (l ++ r))) }
  | (Outcome.normal (some (Object.ClassInstance address cls_), right_obj), s) =>
    let c := ClassInstance.Call exec address cls_ ADD_METHOD [right_obj] s.heap s.context
    { outcome := c.outcome, closure := s.closure, heap := c.heap, context := c.context }
  | (Outcome.normal _, s) =>
    { s with outcome := Outcome.runtime_error "Failed to add, check arguments" }
  | (_, s) => s

/-- `Sub::Execute`. -/
def Sub.Execute (exec : Exec) (lhs_ rhs_ : Statement) (closure : Closure) (heap : Heap)
    (context : Context) : Result :=
  match ExecuteOperands exec lhs_ rhs_ closure heap context with
  | (Outcome.normal (some (Object.Number l), some (Object.Number r)), s) =>
    { s with outcome := Outcome.normal (some (Object.Number (wrapInt (l - r)))) }
  | (Outcome.normal _, s) =>
    { s with outcome := Outcome.runtime_error "Failed to sub, check arguments" }
  | (_, s) => s

/-- `Mult::Execute`. -/
def Mult.Execute (exec : Exec) (lhs_ rhs_ : Statement) (closure : Closure) (heap : Heap)
    (context : Context) : Result :=
  match ExecuteOperands exec lhs_ rhs_ closure heap context with
  | (Outcome.normal (some (Object.Number l), some (Object.Number r)), s) =>
    { s with outcome := Outcome.normal (some (Object.Number (wrapInt (l * r)))) }
  | (Outcome.normal _, s) =>
    { s with outcome := Outcome.runtime_error "Failed to mult, check arguments" }
  | (_, s) => s

/-- `Div::Execute`; the quotient of `int` values truncates toward zero. The
quotient of `-2147483648` by `-1` does not fit an `int`: the division is
undefined behaviour (the machine division traps). -/
def Div.Execute (exec : Exec) (lhs_ rhs_ : Statement) (closure : Closure) (heap : Heap)
    (context : Context) : Result :=
  match ExecuteOperands exec lhs_ rhs_ closure heap context with
  | (Outcome.normal (some (Object.Number l), some (Object.Number r)), s) =>
    if r = 0 then
      { s with outcome :=
          Outcome.runtime_error "Failed to divide by 0, can't deal with eternity" }
    else if l = -2147483648 ∧ r = -1 then { s with outcome := Outcome.undefined }
    else { s with outcome := Outcome.normal (some (Object.Number (Int.tdiv l r))) }
  | (Outcome.normal _, s) =>
    { s with outcome := Outcome.runtime_error "Failed to div, check arguments" }
  | (_, s) => s

/-- The loop of `Compound::Execute`: the statements run in order until one of
them does not end normally. -/
def Compound.Loop (exec : Exec) : List Statement → Closure → Heap → Context → Result
  | [], closure, heap, context =>
    { outcome := Outcome.normal none, closure := closure, heap := heap, context := context }
  | argument :: rest, closure, heap, context =>
    let r := exec argument closure heap context
    match r.outcome with
    | Outcome.normal _ => Compound.Loop exec rest r.closure r.heap r.context
    | _ => r

/-- `Compound::Execute`. -/
def Compound.Execute (exec : Exec) (args_ : List Statement) (closure : Closure) (heap : Heap)
    (context : Context) : Result :=
  Compound.Loop exec args_ closure heap context

/-- `Return::Execute`: the value of the statement is thrown. -/
def Return.Execute (exec : Exec) (statement_ : Statement) (closure : Closure) (heap : Heap)
    (context : Context) : Result :=
  let r := exec statement_ closure heap context
  match r.outcome with
  | Outcome.normal value => { r with outcome := Outcome.thrown value }
  | _ => r

/-- `ClassDefinition::Execute`: the holder is moved into the closure, which
leaves the node with a null holder. -/
def ClassDefinition.Execute (node : Nat) (cls_ : ObjectHolder) (closure : Closure) (heap : Heap)
    (context : Context) : Result :=
  if heap.moved_.contains node then
    { outcome := Outcome.runtime_error "ClassDefinition error of some kind", closure := closure,
      heap := heap, context := context }
  else
    match cls_ with
    | some (Object.Class cls) =>
      { outcome := Outcome.normal none, closure := closure.assign cls.GetName cls_,
        heap := { heap with moved_ := node :: heap.moved_ }, context := context }
    | _ =>
      { outcome := Outcome.runtime_error "ClassDefinition error of some kind",
        closure := closure, heap := heap, context := context }

/-- `FieldAssignment::Execute`; on an object that is not an instance the null
pointer `class_inst_ptr_` is dereferenced. -/
def FieldAssignment.Execute (exec : Exec) (object_var_name_ : String)
    (object_dotted_ids_ : List String) (field_name_ : String) (rv_ : Statement)
    (closure : Closure) (heap : Heap) (context : Context) : Result :=
  match VariableValue.Execute object_var_name_ object_dotted_ids_ closure heap with
  | Outcome.normal (some (Object.ClassInstance address _)) =>
    let r := exec rv_ closure heap context
    match r.outcome with
    | Outcome.normal value =>
      { r with heap := r.heap.setFields address ((r.heap.Fields address).assign field_name_ value) }
    | _ => r
  | Outcome.normal _ =>
    { outcome := Outcome.undefined, closure := closure, heap := heap, context := context }
  | o => { outcome := o, closure := closure, heap := heap, context := context }

/-- `IfElse::Execute`; `else_body_` may be null. -/
def IfElse.Execute (exec : Exec) (condition_ if_body_ : Statement)
    (else_body_ : Option Statement) (closure : Closure) (heap : Heap) (context : Context) :
    Result :=
  let c := exec condition_ closure heap context
  match c.outcome with
  | Outcome.normal value =>
    if IsTrue value then exec if_body_ c.closure c.heap c.context
    else
      match else_body_ with
      | some else_body => exec else_body c.closure c.heap c.context
      | none => { c with outcome := Outcome.normal none }
  | _ => c

/-- `Or::Execute`. -/
def Or.Execute (exec : Exec) (lhs_ rhs_ : Statement) (closure : Closure) (heap : Heap)
    (context : Context) : Result :=
  let l := exec lhs_ closure heap context
  match l.outcome with
  | Outcome.normal left_obj =>
    if IsTrue left_obj then { l with outcome := Outcome.normal (some (Object.Bool true)) }
    else
      let r := exec rhs_ l.closure l.heap l.context
      match r.outcome with
      | Outcome.normal right_obj =>
        if IsTrue right_obj then { r with outcome := Outcome.normal (some (Object.Bool true)) }
        else { r with outcome := Outcome.normal (some (Object.Bool false)) }
      | _ => r
  | _ => l

/-- `And::Execute`. -/
def And.Execute (exec : Exec) (lhs_ rhs_ : Statement) (closure : Closure) (heap : Heap)
    (context : Context) : Result :=
  let l := exec lhs_ closure heap context
  match l.outcome with
  | Outcome.normal left_obj =>
    if !IsTrue left_obj then { l with outcome := Outcome.normal (some (Object.Bool false)) }
    else
      let r := exec rhs_ l.closure l.heap l.context
      match r.outcome with
      | Outcome.normal right_obj =>
        if !IsTrue right_obj then
          { r with outcome := Outcome.normal (some (Object.Bool false)) }
        else { r with outcome := Outcome.normal (some (Object.Bool true)) }
      | _ => r
  | _ => l

/-- `Not::Execute`. -/
def Not.Execute (exec : Exec) (argument_ : Statement) (closure : Closure) (heap : Heap)
    (context : Context) : Result :=
  let r := exec argument_ closure heap context
  match r.outcome with
  | Outcome.normal obj =>
    if IsTrue obj then { r with outcome := Outcome.normal (some (Object.Bool false)) }
    else { r with outcome := Outcome.normal (some (Object.Bool true)) }
  | _ => r

/-- `Comparison::Execute`. -/
def Comparison.Execute (exec : Exec) (comp_ : Comparator) (lhs_ rhs_ : Statement)
    (closure : Closure) (heap : Heap) (context : Context) : Result :=
  match ExecuteOperands exec lhs_ rhs_ closure heap context with
  | (Outcome.normal (left, right), s) =>
    let c := applyComparator comp_ exec left right s.heap s.context
    match c.outcome with
    | Outcome.normal b =>
      { outcome := Outcome.normal (some (Object.Bool b)), closure := s.closure, heap := c.heap,
        context := c.context }
    | o => { outcome := o.propagate, closure := s.closure, heap := c.heap,
             context := c.context }
  | (_, s) => s

/-- `NewInstance::Execute`: the instance handed out is the member `class_p_` of
the node, at every execution. -/
def NewInstance.Execute (exec : Exec) (class_p_ : Nat) (cls : runtime.Class)
    (args_ : List Statement)
    (closure : Closure) (heap : Heap) (context : Context) : Result :=
  if ClassInstance.HasMethod cls INIT_METHOD args_.length then
    let a := ExecuteArgs exec args_ closure heap context
    match a.outcome with
    | Outcome.normal args_object =>
      let c := ClassInstance.Call exec class_p_ cls INIT_METHOD args_object a.heap a.context
      match c.outcome with
      | Outcome.normal _ =>
        { outcome := Outcome.normal (some (Object.ClassInstance class_p_ cls)),
          closure := a.closure, heap := c.heap, context := c.context }
      | o => { outcome := o.propagate, closure := a.closure, heap := c.heap,
               context := c.context }
    | o => { outcome := o.propagate, closure := a.closure, heap := a.heap,
             context := a.context }
  else
    { outcome := Outcome.normal (some (Object.ClassInstance class_p_ cls)), closure := closure,
      heap := heap, context := context }

/-- `MethodBody::Execute`: a thrown `ObjectHolder` is caught and returned. -/
def MethodBody.Execute (exec : Exec) (body_ : Statement) (closure : Closure) (heap : Heap)
    (context : Context) : Result :=
  let r := exec body_ closure heap context
  match r.outcome with
  | Outcome.normal _ => { r with outcome := Outcome.normal none }
  | Outcome.thrown object => { r with outcome := Outcome.normal object }
  | _ => r

/-- `Statement::Execute`, dispatched on the node; `fuel` bounds the depth of the
nested calls. -/
def Execute : Nat → Exec
  | 0, _, closure, heap, context =>
    { outcome := Outcome.fuel_exhausted, closure := closure, heap := heap, context := context }
  | fuel + 1, statement, closure, heap, context =>
    match statement with
    | Statement.Assignment var_ rv_ =>
      Assignment.Execute (Execute fuel) var_ rv_ closure heap context
    | Statement.VariableValue var_name_ dotted_ids_ =>
      { outcome := VariableValue.Execute var_name_ dotted_ids_ closure heap, closure := closure,
        heap := heap, context := context }
    | Statement.Print args_ => Print.Execute (Execute fuel) fuel args_ closure heap context
    | Statement.MethodCall object_ method_ args_ =>
      MethodCall.Execute (Execute fuel) object_ method_ args_ closure heap context
    | Statement.Stringify argument_ =>
      Stringify.Execute (Execute fuel) fuel argument_ closure heap context
    | Statement.Add lhs_ rhs_ => Add.Execute (Execute fuel) lhs_ rhs_ closure heap context
    | Statement.Sub lhs_ rhs_ => Sub.Execute (Execute fuel) lhs_ rhs_ closure heap context
    | Statement.Mult lhs_ rhs_ => Mult.Execute (Execute fuel) lhs_ rhs_ closure heap context
    | Statement.Div lhs_ rhs_ => Div.Execute (Execute fuel) lhs_ rhs_ closure heap context
    | Statement.Compound args_ => Compound.Execute (Execute fuel) args_ closure heap context
    | Statement.Return statement_ =>
      Return.Execute (Execute fuel) statement_ closure heap context
    | Statement.ClassDefinition node cls_ => ClassDefinition.Execute node cls_ closure heap context
    | Statement.FieldAssignment object_var_name_ object_dotted_ids_ field_name_ rv_ =>
      FieldAssignment.Execute (Execute fuel) object_var_name_ object_dotted_ids_ field_name_ rv_
        closure heap context
    | Statement.IfElse condition_ if_body_ else_body_ =>
      IfElse.Execute (Execute fuel) condition_ if_body_ else_body_ closure heap context
    | Statement.Or lhs_ rhs_ => Or.Execute (Execute fuel) lhs_ rhs_ closure heap context
    | Statement.And lhs_ rhs_ => And.Execute (Execute fuel) lhs_ rhs_ closure heap context
    | Statement.Not argument_ => Not.Execute (Execute fuel) argument_ closure heap context
    | Statement.Comparison comp_ lhs_ rhs_ =>
      Comparison.Execute (Execute fuel) comp_ lhs_ rhs_ closure heap context
    | Statement.NewInstance class_p_ cls args_ =>
      NewInstance.Execute (Execute fuel) class_p_ cls args_ closure heap context
    | Statement.MethodBody body_ => MethodBody.Execute (Execute fuel) body_ closure heap context

end ast

namespace runtime

mutual
/-- The inheritance chain of a class: the class, its parent, the parent of its
parent, and so on. -/
def Class.chain : Class → List Class
  | Class.mk name_ methods_ parent_ => Class.mk name_ methods_ parent_ :: chainOfParent parent_
/-- The inheritance chain above a class. -/
def chainOfParent : Option Class → List Class
  | some parent => Class.chain parent
  | none => []
end

/-- The kinds of value a holder can have: null (`None`) and the five kinds of
object. -/
inductive Kind where
  | null
  | bool
  | number
  | string
  | classObject
  | classInstance
  deriving DecidableEq, Repr

/-- The kind of the value in a holder. -/
def kindOf : ObjectHolder → Kind
  | none => Kind.null
  | some (Object.Bool _) => Kind.bool
  | some (Object.Number _) => Kind.number
  | some (Object.String _) => Kind.string
  | some (Object.Class _) => Kind.classObject
  | some (Object.ClassInstance _ _) => Kind.classInstance

/-- The scalar kinds: `Bool`, `Number` and `String`. -/
def Kind.scalar : Kind → Bool
  | Kind.bool => true
  | Kind.number => true
  | Kind.string => true
  | _ => false

/-- Lexicographic order of two strings by the codes of their characters, as the
specification words it: the first position where the strings differ decides,
and a proper initial part of a string is less than the string. A character of
the model stands for a byte, and its code is the value of the byte. -/
def lexicographicLess : List Char → List Char → Bool
  | [], [] => false
  | [], _ :: _ => true
  | _ :: _, [] => false
  | a :: as, b :: bs =>
    if a.toNat < b.toNat then true
    else if b.toNat < a.toNat then false
    else lexicographicLess as bs

/-- The integer quotient of `a` by `b` truncated toward zero, as the
specification words it: the quotient of the absolute values, rounded down,
with the sign of the exact quotient. -/
def truncatedQuotient (a b : Int) : Int :=
  Int.sign a * Int.sign b * ((a.natAbs / b.natAbs : Nat) : Int)

/-- The holder a sequence of bindings gives to `name` when a later binding of a
name replaces an earlier one: the holder of the last binding of `name`. -/
def lastBinding : List (String × ObjectHolder) → String → Option ObjectHolder
  | [], _ => none
  | (k, v) :: rest, name =>
    match lastBinding rest name with
    | some w => some w
    | none => if k = name then some v else none

end runtime

namespace ast

open runtime

/-- The state of a `MethodCall` once the receiver `object_` and then the
arguments `args_` have been evaluated: the values of the arguments, and the
closure of the caller, the heap and the context at that point. -/
def evaluatedCall (fuel : Nat) (object_ : Statement) (args_ : List Statement)
    (closure : Closure) (heap : Heap) (context : Context) : ArgsResult :=
  ExecuteArgs (Execute fuel) args_ (Execute fuel object_ closure heap context).closure
    (Execute fuel object_ closure heap context).heap
    (Execute fuel object_ closure heap context).context

/-- The run of a statement reaches a `Return` through `Compound` and `IfElse`
nodes only: `ReachesReturn fuel b closure heap context v r` says that the
execution of `b` in the given state arrives, after the statements before it
ended normally and the conditions around it chose its branch, at a `Return`
whose statement has the value `v`, and that `r` is the result of that
`Return`. -/
inductive ReachesReturn :
    Nat → Statement → Closure → Heap → Context → ObjectHolder → Result → Prop where
  | here (fuel : Nat) (e : Statement) (closure : Closure) (heap : Heap) (context : Context)
      (v : ObjectHolder)
      (he : (Execute fuel e closure heap context).outcome = Outcome.normal v) :
      ReachesReturn (fuel + 1) (Statement.Return e) closure heap context v
        { Execute fuel e closure heap context with outcome := Outcome.thrown v }
  | compound (fuel : Nat) (pre : List Statement) (s : Statement) (post : List Statement)
      (closure : Closure) (heap : Heap) (context : Context) (w v : ObjectHolder) (r : Result)
      (hpre : (Compound.Loop (Execute fuel) pre closure heap context).outcome = Outcome.normal w)
      (hs : ReachesReturn fuel s (Compound.Loop (Execute fuel) pre closure heap context).closure
        (Compound.Loop (Execute fuel) pre closure heap context).heap
        (Compound.Loop (Execute fuel) pre closure heap context).context v r) :
      ReachesReturn (fuel + 1) (Statement.Compound (pre ++ s :: post)) closure heap context v r
  | ifBody (fuel : Nat) (condition_ if_body_ : Statement) (else_body_ : Option Statement)
      (closure : Closure) (heap : Heap) (context : Context) (c v : ObjectHolder) (r : Result)
      (hc : (Execute fuel condition_ closure heap context).outcome = Outcome.normal c)
      (ht : IsTrue c = true)
      (hs : ReachesReturn fuel if_body_ (Execute fuel condition_ closure heap context).closure
        (Execute fuel condition_ closure heap context).heap
        (Execute fuel condition_ closure heap context).context v r) :
      ReachesReturn (fuel + 1) (Statement.IfElse condition_ if_body_ else_body_) closure heap
        context v r
  | elseBody (fuel : Nat) (condition_ if_body_ else_body : Statement)
      (closure : Closure) (heap : Heap) (context : Context) (c v : ObjectHolder) (r : Result)
      (hc : (Execute fuel condition_ closure heap context).outcome = Outcome.normal c)
      (ht : IsTrue c = false)
      (hs : ReachesReturn fuel else_body (Execute fuel condition_ closure heap context).closure
        (Execute fuel condition_ closure heap context).heap
        (Execute fuel condition_ closure heap context).context v r) :
      ReachesReturn (fuel + 1) (Statement.IfElse condition_ if_body_ (some else_body)) closure
        heap context v r

/-- The texts `written` in order, with exactly one space between consecutive
ones. -/
def spaced : List String → String
  | [] => ""
  | [a] => a
  | a :: b :: rest => a ++ " " ++ spaced (b :: rest)

/-- The evaluation of the arguments of a `Print` node from left to right.
`PrintsArguments exec depth args_ closure heap written closure2 heap2` says
that each argument, taken in the closure and heap the arguments before it
left, evaluates normally, that its value is null or an object whose `Print`
ends normally with the text `form`, and that `closure2` and `heap2` are the
closure and heap after the last one. `written` lists, per argument, what
reaches the stream for it: first what the evaluation of the argument and the
`__str__` call for its value write themselves (`side`, empty for an argument
that prints nothing of its own), then the printed form of the value, which is
`None` for a null value. -/
inductive PrintsArguments (exec : Exec) (depth : Nat) :
    List Statement → Closure → Heap → List String → Closure → Heap → Prop where
  | nil (closure : Closure) (heap : Heap) :
      PrintsArguments exec depth [] closure heap [] closure heap
  | null (var : Statement) (rest : List Statement) (closure closure1 closure2 : Closure)
      (heap heap1 heap2 : Heap) (side : String) (written : List String)
      (hvar : ∀ context, exec var closure heap context =
        { outcome := Outcome.normal none, closure := closure1, heap := heap1,
          context := context.write side })
      (hrest : PrintsArguments exec depth rest closure1 heap1 written closure2 heap2) :
      PrintsArguments exec depth (var :: rest) closure heap ((side ++ "None") :: written)
        closure2 heap2
  | object (var : Statement) (rest : List Statement) (closure closure1 closure2 : Closure)
      (heap heap1 heap1p heap2 : Heap) (object : Object) (side1 side2 form : String)
      (written : List String)
      (hvar : ∀ context, exec var closure heap context =
        { outcome := Outcome.normal (some object), closure := closure1, heap := heap1,
          context := context.write side1 })
      (hprint : ∀ context, Object.Print exec depth object heap1 context =
        { outcome := Outcome.normal form, heap := heap1p, context := context.write side2 })
      (hrest : PrintsArguments exec depth rest closure1 heap1p written closure2 heap2) :
      PrintsArguments exec depth (var :: rest) closure heap ((side1 ++ side2 ++ form) :: written)
        closure2 heap2

end ast

/-! # Theorems: the lexer -/

namespace parse

/-- `NextToken` is the composition of its branches. -/
theorem NextTokenFuel_succ (fuel : Nat) (lx : Lexer) :
    NextTokenFuel (fuel + 1) lx =
      if lx.spaces_ > 0 then
        Except.ok { lx with curr_token_ := Token.Indent, indent_index_ := lx.indent_index_ + 1,
                            spaces_ := lx.spaces_ - 1, first_ := false }
      else if lx.spaces_ < 0 then
        Except.ok { lx with curr_token_ := Token.Dedent, indent_index_ := lx.indent_index_ - 1,
                            spaces_ := lx.spaces_ + 1, first_ := false }
      else if peekChar lx.input_ > 0 then
        match lx.input_ with
        | [] => Except.ok { lx with first_ := false }
        | ch :: rest => onChar (NextTokenFuel fuel) lx ch rest
      else atEnd lx := by
  rfl

theorem IgnoreComment_length (l : List Char) : (IgnoreComment l).length ≤ l.length := by
  induction l with
  | nil => simp [IgnoreComment]
  | cons c l ih =>
    unfold IgnoreComment
    split
    · exact Nat.le_refl _
    · simp only [List.length_cons]; omega

theorem skipWhile_length (x : Char) (l : List Char) : (skipWhile x l).length ≤ l.length := by
  induction l with
  | nil => simp [skipWhile]
  | cons c l ih =>
    unfold skipWhile
    split
    · simp only [List.length_cons]; omega
    · exact Nat.le_refl _

theorem CountSpacesLoop_length (l : List Char) (i : Nat) :
    (CountSpacesLoop l i).2.length ≤ l.length := by
  induction l generalizing i with
  | nil => simp [CountSpacesLoop]
  | cons c l ih =>
    unfold CountSpacesLoop
    split
    · have := ih (i + 1)
      simp only [List.length_cons]; omega
    · exact Nat.le_refl _

theorem CountSpaces_snd (l : List Char) : (CountSpaces l).2 = (CountSpacesLoop l 0).2 := by
  unfold CountSpaces
  simp only
  split <;> rfl

theorem CountSpaces_length (rest : List Char) :
    (CountSpaces (' ' :: rest)).2.length ≤ rest.length := by
  rw [CountSpaces_snd]
  unfold CountSpacesLoop
  simp only [if_true]
  exact CountSpacesLoop_length rest 1

theorem skipWhile_cons_length (x : Char) (rest : List Char) :
    (skipWhile x (x :: rest)).length ≤ rest.length := by
  unfold skipWhile
  simp only [if_true]
  exact skipWhile_length x rest

theorem peekChar_cons_pos {ch : Char} {rest : List Char} (h : peekChar (ch :: rest) > 0) :
    0 < toSignedChar ch := h

theorem onChar_lexes (recur : Lexer → Except Exception Lexer) (lx : Lexer) (ch : Char)
    (rest : List Char) (hs : lx.spaces_ = 0) (hi : lx.input_ = ch :: rest)
    (hp : 0 < toSignedChar ch)
    (hrec : ∀ lx2 : Lexer, lx2.input_.length ≤ rest.length → Lexes lx2 (recur lx2)) :
    Lexes lx (onChar recur lx ch rest) := by
  unfold onChar
  split_ifs with c1 c2 c3 c4 c5 c6 c7 c8 c9
  · subst c1
    exact Lexes.comment lx rest _ hs hi (hrec _ (IgnoreComment_length rest))
  · subst c2
    split
    · next r hn => exact Lexes.dquote lx rest r hs hi hn
    · next e hn => exact Lexes.dquoteError lx rest e hs hi hn
  · subst c3
    split
    · next r hn => exact Lexes.squote lx rest r hs hi hn
    · next e hn => exact Lexes.squoteError lx rest e hs hi hn
  · unfold onDigit
    split
    · next r hn => exact Lexes.number lx ch rest r hs hi c4 hn
    · next e hn => exact Lexes.numberError lx ch rest e hs hi c4 hn
  · exact Lexes.word lx ch rest hs hi c5
  · exact Lexes.compare lx ch rest hs hi c6
  · exact Lexes.symbol lx ch rest hs hi c7
  · subst c8
    unfold onNewline
    split_ifs with d1 d2
    · exact Lexes.newlineDedent lx rest hs hi d1.1 d1.2 d2.1 d2.2
    · refine Lexes.newline lx rest hs hi d1.1 d1.2 ?_
      by_cases hq : peekIs ' ' (skipWhile '\n' rest) = true
      · exact Or.inl hq
      · right
        have hq2 : peekIs ' ' (skipWhile '\n' rest) = false := by simpa using hq
        by_contra hl
        exact d2 ⟨hq2, by omega⟩
    · refine Lexes.blankLine lx rest _ hs hi ?_ (hrec _ (Nat.le_refl _))
      by_cases ht : lx.curr_token_ = Token.Newline
      · exact Or.inl ht
      · right
        by_contra hf
        exact d1 ⟨ht, by simpa using hf⟩
  · subst c9
    unfold onSpace
    split_ifs with d1 d2
    · refine Lexes.spaces lx rest _ hs hi d1.1 d1.2 (hrec _ ?_)
      simp only [hi]
      exact skipWhile_cons_length ' ' rest
    · refine Lexes.indentation lx rest _ hs hi d2 (hrec _ ?_)
      simp only [hi]
      exact CountSpaces_length rest
    · refine Lexes.spaceAfterDedent lx rest hs hi ?_
      by_contra hd
      exact d1 ⟨d2, hd⟩
  · refine Lexes.unknown lx ch rest hs hi hp c1 c2 c3 (by simpa using c4) ?_ ?_
      (by simpa using c6) (by simpa using c7) c8 c9
    · by_contra h
      exact c5 (Or.inl (by simpa using h))
    · intro h
      exact c5 (Or.inr h)

theorem atEnd_lexes (lx : Lexer) (hs : lx.spaces_ = 0) (hp : peekChar lx.input_ ≤ 0) :
    Lexes lx (atEnd lx) := by
  unfold atEnd
  split_ifs with c1 c2 c3
  · exact Lexes.endDedent lx hs hp c1 c2
  · exact Lexes.endNewline lx hs hp c1 (by omega) c3.1 c3.2.1 c3.2.2
  · refine Lexes.endEof lx hs hp c1 (by omega) ?_
    by_cases h1 : lx.curr_token_ = Token.Newline
    · exact Or.inl h1
    by_cases h2 : lx.curr_token_ = Token.Dedent
    · exact Or.inr (Or.inl h2)
    right; right
    by_contra hf
    exact c3 ⟨h1, h2, by simpa using hf⟩
  · exact Lexes.afterEof lx hs hp (by simpa using c1)

/-- Every run of `NextToken` with enough fuel is a run of `Lexes`. -/
theorem NextTokenFuel_lexes : ∀ (fuel : Nat) (lx : Lexer), lx.input_.length < fuel →
    Lexes lx (NextTokenFuel fuel lx) := by
  intro fuel
  induction fuel with
  | zero => intro lx h; omega
  | succ fuel ih =>
    intro lx hlen
    rw [NextTokenFuel_succ]
    split_ifs with c1 c2 c3
    · exact Lexes.indent lx c1
    · exact Lexes.dedent lx c2
    · have hs : lx.spaces_ = 0 := by omega
      split
      · next hi => rw [hi] at c3; simp [peekChar] at c3
      · next ch rest hi =>
        rw [hi] at c3 hlen
        refine onChar_lexes _ lx ch rest hs hi c3 ?_
        intro lx2 h2
        apply ih
        simp only [List.length_cons] at hlen
        omega
    · exact atEnd_lexes lx (by omega) (by omega)

theorem NextToken_lexes (lx : Lexer) : Lexes lx (NextToken lx) :=
  NextTokenFuel_lexes _ lx (Nat.lt_succ_self _)

/-! ## Character classes -/

theorem isDigit_iff (c : Char) : c.isDigit = true ↔ 48 ≤ c.toNat ∧ c.toNat ≤ 57 := by
  simp only [Char.isDigit, Bool.and_eq_true, decide_eq_true_eq, ge_iff_le, UInt32.le_def,
    BitVec.le_def]
  rfl

theorem isAlpha_iff (c : Char) : c.isAlpha = true ↔
    (65 ≤ c.toNat ∧ c.toNat ≤ 90) ∨ (97 ≤ c.toNat ∧ c.toNat ≤ 122) := by
  simp only [Char.isAlpha, Char.isUpper, Char.isLower, Bool.or_eq_true, Bool.and_eq_true,
    decide_eq_true_eq, ge_iff_le, UInt32.le_def, BitVec.le_def]
  rfl

theorem char_eq_iff (c d : Char) : c = d ↔ c.toNat = d.toNat := by
  constructor
  · intro h; rw [h]
  · intro h
    rw [← Char.ofNat_toNat c, ← Char.ofNat_toNat d, h]

theorem toSignedChar_pos_iff (c : Char) : 0 < toSignedChar c ↔ 0 < c.toNat ∧ c.toNat < 128 := by
  unfold toSignedChar
  split <;> omega

theorem toSignedChar_of_pos {c : Char} (h : 0 < toSignedChar c) :
    toSignedChar c = (c.toNat : Int) := by
  unfold toSignedChar at *
  split at h
  · simp [*]
  · omega

theorem IsSymbol_iff (c : Char) :
    IsSymbol c = true ↔ (40 ≤ c.toNat ∧ c.toNat ≤ 47) ∨ c.toNat = 58 := by
  unfold IsSymbol toSignedChar
  simp only [Bool.or_eq_true, Bool.and_eq_true, decide_eq_true_eq]
  split <;> omega

theorem IsCompareSymbol_iff (c : Char) :
    IsCompareSymbol c = true ↔ c.toNat = 61 ∨ c.toNat = 60 ∨ c.toNat = 62 ∨ c.toNat = 33 := by
  unfold IsCompareSymbol
  simp only [Bool.or_eq_true, beq_iff_eq, char_eq_iff]
  have h1 : ('=' : Char).toNat = 61 := rfl
  have h2 : ('<' : Char).toNat = 60 := rfl
  have h3 : ('>' : Char).toNat = 62 := rfl
  have h4 : ('!' : Char).toNat = 33 := rfl
  rw [h1, h2, h3, h4]
  tauto

theorem charFacts (c : Char) : CharFacts c where
  hash := char_eq_iff c '#'
  dquote := char_eq_iff c '"'
  squote := char_eq_iff c '\''
  underscore := char_eq_iff c '_'
  newline := char_eq_iff c '\n'
  space := char_eq_iff c ' '
  digit := isDigit_iff c
  alpha := isAlpha_iff c
  symbol := IsSymbol_iff c
  compare := IsCompareSymbol_iff c
  positive := toSignedChar_pos_iff c

theorem NextTokenFuel_char (fuel : Nat) (lx : Lexer) (ch : Char) (rest : List Char)
    (hs : lx.spaces_ = 0) (hi : lx.input_ = ch :: rest) (hp : 0 < toSignedChar ch) :
    NextTokenFuel (fuel + 1) lx = onChar (NextTokenFuel fuel) lx ch rest := by
  have hp2 : peekChar lx.input_ > 0 := by rw [hi]; exact hp
  rw [NextTokenFuel_succ, if_neg (by omega), if_neg (by omega), if_pos hp2]
  split
  · next h => rw [hi] at h; cases h
  · next c r h =>
    rw [hi] at h
    cases h
    rfl

theorem NextTokenFuel_end (fuel : Nat) (lx : Lexer)
    (hs : lx.spaces_ = 0) (hp : peekChar lx.input_ ≤ 0) :
    NextTokenFuel (fuel + 1) lx = atEnd lx := by
  rw [NextTokenFuel_succ, if_neg (by omega), if_neg (by omega), if_neg (by omega)]

/-- A run of `Lexes` is the result of `NextToken` for every sufficient fuel. -/
theorem Lexes.fuel {lx : Lexer} {r : Except Exception Lexer} (h : Lexes lx r) :
    ∀ fuel : Nat, lx.input_.length < fuel → NextTokenFuel fuel lx = r := by
  induction h with
  | indent lx hs =>
    intro fuel hf
    cases fuel with
    | zero => omega
    | succ f => rw [NextTokenFuel_succ, if_pos hs]
  | dedent lx hs =>
    intro fuel hf
    cases fuel with
    | zero => omega
    | succ f => rw [NextTokenFuel_succ, if_neg (by omega), if_pos hs]
  | comment lx rest r hs hi hr ih =>
    intro fuel hf
    cases fuel with
    | zero => omega
    | succ f =>
      rw [NextTokenFuel_char f lx '#' rest hs hi (by decide)]
      unfold onChar
      rw [if_pos rfl, ih f]
      have := IgnoreComment_length rest
      rw [hi] at hf
      simp only [List.length_cons] at hf ⊢
      omega
  | dquote lx rest r hs hi hn =>
    intro fuel hf
    cases fuel with
    | zero => omega
    | succ f =>
      rw [NextTokenFuel_char f lx '"' rest hs hi (by decide)]
      unfold onChar
      rw [if_neg (by decide), if_pos rfl, hn]
  | dquoteError lx rest e hs hi hn =>
    intro fuel hf
    cases fuel with
    | zero => omega
    | succ f =>
      rw [NextTokenFuel_char f lx '"' rest hs hi (by decide)]
      unfold onChar
      rw [if_neg (by decide), if_pos rfl, hn]
  | squote lx rest r hs hi hn =>
    intro fuel hf
    cases fuel with
    | zero => omega
    | succ f =>
      rw [NextTokenFuel_char f lx '\'' rest hs hi (by decide)]
      unfold onChar
      rw [if_neg (by decide), if_neg (by decide), if_pos rfl, hn]
  | squoteError lx rest e hs hi hn =>
    intro fuel hf
    cases fuel with
    | zero => omega
    | succ f =>
      rw [NextTokenFuel_char f lx '\'' rest hs hi (by decide)]
      unfold onChar
      rw [if_neg (by decide), if_neg (by decide), if_pos rfl, hn]
  | number lx ch rest r hs hi hc hn =>
    intro fuel hf
    cases fuel with
    | zero => omega
    | succ f =>
      have F := charFacts ch
      have hd := F.digit.1 hc
      rw [NextTokenFuel_char f lx ch rest hs hi (F.positive.2 (by omega))]
      unfold onChar
      rw [if_neg (by rw [F.hash]; omega), if_neg (by rw [F.dquote]; omega),
        if_neg (by rw [F.squote]; omega), if_pos hc]
      unfold onDigit
      rw [hn]
  | numberError lx ch rest e hs hi hc hn =>
    intro fuel hf
    cases fuel with
    | zero => omega
    | succ f =>
      have F := charFacts ch
      have hd := F.digit.1 hc
      rw [NextTokenFuel_char f lx ch rest hs hi (F.positive.2 (by omega))]
      unfold onChar
      rw [if_neg (by rw [F.hash]; omega), if_neg (by rw [F.dquote]; omega),
        if_neg (by rw [F.squote]; omega), if_pos hc]
      unfold onDigit
      rw [hn]
  | word lx ch rest hs hi hc =>
    intro fuel hf
    cases fuel with
    | zero => omega
    | succ f =>
      have F := charFacts ch
      have hd : (65 ≤ ch.toNat ∧ ch.toNat ≤ 90) ∨ (97 ≤ ch.toNat ∧ ch.toNat ≤ 122) ∨
          ch.toNat = 95 := by
        rcases hc with h | h
        · have := F.alpha.1 h; omega
        · have := F.underscore.1 h; omega
      rw [NextTokenFuel_char f lx ch rest hs hi (F.positive.2 (by omega))]
      unfold onChar
      rw [if_neg (by rw [F.hash]; omega), if_neg (by rw [F.dquote]; omega),
        if_neg (by rw [F.squote]; omega), if_neg (by rw [F.digit]; omega), if_pos hc]
  | compare lx ch rest hs hi hc =>
    intro fuel hf
    cases fuel with
    | zero => omega
    | succ f =>
      have F := charFacts ch
      have hd := F.compare.1 hc
      rw [NextTokenFuel_char f lx ch rest hs hi (F.positive.2 (by omega))]
      unfold onChar
      rw [if_neg (by rw [F.hash]; omega), if_neg (by rw [F.dquote]; omega),
        if_neg (by rw [F.squote]; omega), if_neg (by rw [F.digit]; omega),
        if_neg (by rw [F.alpha, F.underscore]; omega), if_pos hc]
  | symbol lx ch rest hs hi hc =>
    intro fuel hf
    cases fuel with
    | zero => omega
    | succ f =>
      have F := charFacts ch
      have hd := F.symbol.1 hc
      rw [NextTokenFuel_char f lx ch rest hs hi (F.positive.2 (by omega))]
      unfold onChar
      rw [if_neg (by rw [F.hash]; omega), if_neg (by rw [F.dquote]; omega),
        if_neg (by rw [F.squote]; omega), if_neg (by rw [F.digit]; omega),
        if_neg (by rw [F.alpha, F.underscore]; omega), if_neg (by rw [F.compare]; omega),
        if_pos hc]
  | newlineDedent lx rest hs hi ht hf2 hp hl =>
    intro fuel hf
    cases fuel with
    | zero => omega
    | succ f =>
      rw [NextTokenFuel_char f lx '\n' rest hs hi (by decide)]
      unfold onChar
      rw [if_neg (by decide), if_neg (by decide), if_neg (by decide), if_neg (by decide),
        if_neg (by decide), if_neg (by decide), if_neg (by decide), if_pos rfl]
      unfold onNewline
      rw [if_pos ⟨ht, hf2⟩, if_pos ⟨hp, hl⟩]
  | newline lx rest hs hi ht hf2 hp =>
    intro fuel hf
    cases fuel with
    | zero => omega
    | succ f =>
      rw [NextTokenFuel_char f lx '\n' rest hs hi (by decide)]
      unfold onChar
      rw [if_neg (by decide), if_neg (by decide), if_neg (by decide), if_neg (by decide),
        if_neg (by decide), if_neg (by decide), if_neg (by decide), if_pos rfl]
      unfold onNewline
      rw [if_pos ⟨ht, hf2⟩, if_neg]
      rintro ⟨q1, q2⟩
      rcases hp with hp | hp
      · rw [q1] at hp; cases hp
      · omega
  | blankLine lx rest r hs hi ht hr ih =>
    intro fuel hf
    cases fuel with
    | zero => omega
    | succ f =>
      rw [NextTokenFuel_char f lx '\n' rest hs hi (by decide)]
      unfold onChar
      rw [if_neg (by decide), if_neg (by decide), if_neg (by decide), if_neg (by decide),
        if_neg (by decide), if_neg (by decide), if_neg (by decide), if_pos rfl]
      unfold onNewline
      rw [if_neg, ih f]
      · rw [hi] at hf
        simp only [List.length_cons] at hf ⊢
        omega
      · rintro ⟨q1, q2⟩
        rcases ht with ht | ht
        · exact q1 ht
        · rw [q2] at ht; cases ht
  | spaces lx rest r hs hi ht hd hr ih =>
    intro fuel hf
    cases fuel with
    | zero => omega
    | succ f =>
      rw [NextTokenFuel_char f lx ' ' rest hs hi (by decide)]
      unfold onChar
      rw [if_neg (by decide), if_neg (by decide), if_neg (by decide), if_neg (by decide),
        if_neg (by decide), if_neg (by decide), if_neg (by decide), if_neg (by decide),
        if_pos rfl]
      unfold onSpace
      rw [if_pos ⟨ht, hd⟩, ih f]
      have := skipWhile_cons_length ' ' rest
      rw [hi] at hf ⊢
      simp only [List.length_cons] at hf ⊢
      omega
  | indentation lx rest r hs hi ht hr ih =>
    intro fuel hf
    cases fuel with
    | zero => omega
    | succ f =>
      rw [NextTokenFuel_char f lx ' ' rest hs hi (by decide)]
      unfold onChar
      rw [if_neg (by decide), if_neg (by decide), if_neg (by decide), if_neg (by decide),
        if_neg (by decide), if_neg (by decide), if_neg (by decide), if_neg (by decide),
        if_pos rfl]
      unfold onSpace
      rw [if_neg (fun q => q.1 ht), if_pos ht, ih f]
      have := CountSpaces_length rest
      rw [hi] at hf ⊢
      simp only [List.length_cons] at hf ⊢
      omega
  | spaceAfterDedent lx rest hs hi ht =>
    intro fuel hf
    cases fuel with
    | zero => omega
    | succ f =>
      rw [NextTokenFuel_char f lx ' ' rest hs hi (by decide)]
      unfold onChar
      rw [if_neg (by decide), if_neg (by decide), if_neg (by decide), if_neg (by decide),
        if_neg (by decide), if_neg (by decide), if_neg (by decide), if_neg (by decide),
        if_pos rfl]
      unfold onSpace
      rw [if_neg (fun q => q.2 ht), if_neg (by rw [ht]; decide)]
  | unknown lx ch rest hs hi hp h1 h2 h3 h4 h5 h6 h7 h8 h9 h10 =>
    intro fuel hf
    cases fuel with
    | zero => omega
    | succ f =>
      rw [NextTokenFuel_char f lx ch rest hs hi hp]
      unfold onChar
      rw [if_neg h1, if_neg h2, if_neg h3, if_neg (by simp [h4]), if_neg (by simp [h5, h6]),
        if_neg (by simp [h7]), if_neg (by simp [h8]), if_neg h9, if_neg h10]
  | endDedent lx hs hp ht hl =>
    intro fuel hf
    cases fuel with
    | zero => omega
    | succ f =>
      rw [NextTokenFuel_end f lx hs hp]
      unfold atEnd
      rw [if_pos ht, if_pos hl]
  | endNewline lx hs hp ht hl hn hd hf2 =>
    intro fuel hf
    cases fuel with
    | zero => omega
    | succ f =>
      rw [NextTokenFuel_end f lx hs hp]
      unfold atEnd
      rw [if_pos ht, if_neg (by omega), if_pos ⟨hn, hd, hf2⟩]
  | endEof lx hs hp ht hl hn =>
    intro fuel hf
    cases fuel with
    | zero => omega
    | succ f =>
      rw [NextTokenFuel_end f lx hs hp]
      unfold atEnd
      rw [if_pos ht, if_neg (by omega), if_neg]
      rintro ⟨q1, q2, q3⟩
      rcases hn with hn | hn | hn
      · exact q1 hn
      · exact q2 hn
      · rw [q3] at hn; cases hn
  | afterEof lx hs hp ht =>
    intro fuel hf
    cases fuel with
    | zero => omega
    | succ f =>
      rw [NextTokenFuel_end f lx hs hp]
      unfold atEnd
      rw [if_neg (by simp [ht])]

/-- The runs of `Lexes` are exactly the calls of `NextToken`. -/
theorem Lexes_iff (lx : Lexer) (r : Except Exception Lexer) : Lexes lx r ↔ NextToken lx = r :=
  ⟨fun h => h.fuel _ (Nat.lt_succ_self _), fun h => h ▸ NextToken_lexes lx⟩

/-- More fuel than the number of unread bytes does not change the result. -/
theorem NextTokenFuel_eq (fuel : Nat) (lx : Lexer) (h : lx.input_.length < fuel) :
    NextTokenFuel fuel lx = NextToken lx :=
  (NextToken_lexes lx).fuel fuel h

theorem CountSpaces_nonneg (input : List Char) : 0 ≤ (CountSpaces input).1 := by
  unfold CountSpaces
  simp only
  split
  · simp
  · exact Int.ofNat_nonneg _

theorem LoadStringLoop_isString (l : List Char) (s : String) :
    (∀ r, LoadStringLoop l s = Except.ok r → ∃ t, r.1 = Token.String t) ∧
    (∀ e, LoadStringLoop l s = Except.error e → e = Exception.undefined) := by
  induction l, s using LoadStringLoop.induct <;>
    (unfold LoadStringLoop; simp_all) <;> (rename_i ih; exact ih.2)

theorem LoadSingleQuotedStringLoop_isString (l : List Char) (s : String) :
    (∀ r, LoadSingleQuotedStringLoop l s = Except.ok r → ∃ t, r.1 = Token.String t) ∧
    (∀ e, LoadSingleQuotedStringLoop l s = Except.error e → e = Exception.undefined) := by
  induction l, s using LoadSingleQuotedStringLoop.induct <;>
    (unfold LoadSingleQuotedStringLoop; simp_all) <;> (rename_i ih; exact ih.2)

theorem LoadString_ordinary (l : List Char) (r : Token × List Char)
    (h : LoadString l = Except.ok r) : r.1.ordinary = true := by
  obtain ⟨t, ht⟩ := (LoadStringLoop_isString l "").1 r h
  rw [ht]
  rfl

theorem LoadSingleQuotedString_ordinary (l : List Char) (r : Token × List Char)
    (h : LoadSingleQuotedString l = Except.ok r) : r.1.ordinary = true := by
  obtain ⟨t, ht⟩ := (LoadSingleQuotedStringLoop_isString l "").1 r h
  rw [ht]
  rfl

theorem LoadNumber_ordinary (l : List Char) (r : Token × List Char)
    (h : LoadNumber l = Except.ok r) : r.1.ordinary = true := by
  unfold LoadNumber at h
  simp only at h
  split at h
  · cases h; rfl
  · cases h

theorem LoadIdOrElse_ordinary (l : List Char) : (LoadIdOrElse l).1.ordinary = true := by
  unfold LoadIdOrElse
  show Token.ordinary (Prod.fst (ite ((LoadLiteral l).1 = "True") _ _ : Token × List Char)) = true
  by_cases h1 : (LoadLiteral l).1 = "True"
  · rw [if_pos h1]; rfl
  rw [if_neg h1]
  by_cases h2 : (LoadLiteral l).1 = "False"
  · rw [if_pos h2]; rfl
  rw [if_neg h2]
  by_cases h3 : (LoadLiteral l).1 = "None"
  · rw [if_pos h3]; rfl
  rw [if_neg h3]
  by_cases h4 : (LoadLiteral l).1 = "class"
  · rw [if_pos h4]; rfl
  rw [if_neg h4]
  by_cases h5 : (LoadLiteral l).1 = "return"
  · rw [if_pos h5]; rfl
  rw [if_neg h5]
  by_cases h6 : (LoadLiteral l).1 = "if"
  · rw [if_pos h6]; rfl
  rw [if_neg h6]
  by_cases h7 : (LoadLiteral l).1 = "else"
  · rw [if_pos h7]; rfl
  rw [if_neg h7]
  by_cases h8 : (LoadLiteral l).1 = "def"
  · rw [if_pos h8]; rfl
  rw [if_neg h8]
  by_cases h9 : (LoadLiteral l).1 = "print"
  · rw [if_pos h9]; rfl
  rw [if_neg h9]
  by_cases h10 : (LoadLiteral l).1 = "and"
  · rw [if_pos h10]; rfl
  rw [if_neg h10]
  by_cases h11 : (LoadLiteral l).1 = "or"
  · rw [if_pos h11]; rfl
  rw [if_neg h11]
  by_cases h12 : (LoadLiteral l).1 = "not"
  · rw [if_pos h12]; rfl
  rw [if_neg h12]
  rfl

theorem LoadCompareSymbol_ordinary (l : List Char) :
    (LoadCompareSymbol l).1.ordinary = true := by
  unfold LoadCompareSymbol
  split
  · rfl
  · split_ifs <;> rfl

theorem ordinary_facts {t : Token} (h : t.ordinary = true) :
    indentDelta t = 0 ∧ t ≠ Token.Indent ∧ t ≠ Token.Dedent ∧ t ≠ Token.Eof ∧
      t ≠ Token.Newline := by
  cases t <;> simp_all [Token.ordinary, indentDelta]

theorem setFirst_ok {r : Except Exception Lexer} {lx2 : Lexer}
    (h : setFirst r = Except.ok lx2) :
    ∃ lx3, r = Except.ok lx3 ∧ lx2 = { lx3 with first_ := false } := by
  cases r with
  | error e => cases h
  | ok lx3 =>
    refine ⟨lx3, rfl, ?_⟩
    simp only [setFirst, Except.ok.injEq] at h
    exact h.symm

theorem stepOk_ordinary (lx : Lexer) (t : Token) (inp : List Char) (ht : t.ordinary = true)
    (hs : lx.spaces_ = 0) (hc : Coherent lx) :
    StepOk lx { lx with curr_token_ := t, input_ := inp, first_ := false } := by
  obtain ⟨o1, o2, o3, o4, o5⟩ := ordinary_facts ht
  obtain ⟨h1, h2, h3, h4⟩ := hc
  refine ⟨⟨h1, h2, ?_, ?_⟩, rfl, Or.inr ⟨?_, ?_, ?_, ?_⟩⟩
  · intro h; simp only at h; omega
  · intro h; simp only at h; omega
  · simp only [o1]; omega
  · intro h; exact absurd h o2
  · intro h; exact absurd h o3
  · intro h; exact absurd h o4

theorem stepOk_stuck (lx : Lexer) (hc : Coherent lx)
    (h : ∀ b : Bool, Lexes { lx with first_ := b } (Except.ok { lx with first_ := false })) :
    StepOk lx { lx with first_ := false } :=
  ⟨hc, rfl, Or.inl ⟨h, rfl, rfl⟩⟩

theorem stepOk_rec (lx inner lx2 : Lexer) (r : Except Exception Lexer)
    (ih : ∀ lx3, r = Except.ok lx3 → Coherent inner → StepOk inner lx3)
    (hc : Coherent inner) (e1 : inner.curr_token_ = lx.curr_token_)
    (e2 : inner.indent_index_ = lx.indent_index_) (e3 : inner.first_ = lx.first_)
    (h : setFirst r = Except.ok lx2) : StepOk lx lx2 := by
  obtain ⟨lx3, hr, rfl⟩ := setFirst_ok h
  obtain ⟨c, f, k⟩ := ih lx3 hr hc
  refine ⟨c, rfl, ?_⟩
  rcases k with ⟨k1, k2, k3⟩ | ⟨k1, k2, k3, k4⟩
  · left
    refine ⟨?_, k2.trans e1, k3.trans e2⟩
    intro b
    exact k1 b
  · right
    refine ⟨?_, ?_, ?_, ?_⟩
    · rw [← e2]; exact k1
    · rw [← e1]; exact k2
    · rw [← e1]; exact k3
    · rw [← e1, ← e3]; exact k4

/-- Every call of `NextToken` in a coherent state satisfies `StepOk`. -/
theorem Lexes.stepOk {lx : Lexer} {r : Except Exception Lexer} (h : Lexes lx r) :
    ∀ lx2, r = Except.ok lx2 → Coherent lx → StepOk lx lx2 := by
  induction h with
  | indent lx hs =>
    intro lx2 e hc
    cases e
    obtain ⟨h1, h2, h3, h4⟩ := hc
    refine ⟨⟨?_, ?_, ?_, ?_⟩, rfl, Or.inr ⟨rfl, ?_, ?_, ?_⟩⟩
    · simp only; omega
    · simp only; omega
    · intro _; exact Or.inr rfl
    · intro h; simp only at h; omega
    · intro _; exact h3 hs
    · intro h; cases h
    · intro h; cases h
  | dedent lx hs =>
    intro lx2 e hc
    cases e
    obtain ⟨h1, h2, h3, h4⟩ := hc
    refine ⟨⟨?_, ?_, ?_, ?_⟩, rfl, Or.inr ⟨rfl, ?_, ?_, ?_⟩⟩
    · simp only; omega
    · simp only; omega
    · intro h; simp only at h; omega
    · intro _; exact Or.inr rfl
    · intro h; cases h
    · intro _
      rcases h4 hs with q | q
      · exact Or.inl q
      · exact Or.inr (Or.inl q)
    · intro h; cases h
  | comment lx rest r hs hi hr ih =>
    intro lx2 e hc
    exact stepOk_rec lx _ lx2 r ih hc rfl rfl rfl e
  | dquote lx rest r hs hi hn =>
    intro lx2 e hc
    cases e
    exact stepOk_ordinary lx _ _ (LoadString_ordinary rest r hn) hs hc
  | dquoteError lx rest e hs hi hn =>
    intro lx2 e hc
    cases e
  | squote lx rest r hs hi hn =>
    intro lx2 e hc
    cases e
    exact stepOk_ordinary lx _ _ (LoadSingleQuotedString_ordinary rest r hn) hs hc
  | squoteError lx rest e hs hi hn =>
    intro lx2 e hc
    cases e
  | number lx ch rest r hs hi hc hn =>
    intro lx2 e hc
    cases e
    exact stepOk_ordinary lx _ _ (LoadNumber_ordinary _ r hn) hs hc
  | numberError lx ch rest e hs hi hc hn =>
    intro lx2 e hc
    cases e
  | word lx ch rest hs hi hc =>
    intro lx2 e hc
    cases e
    exact stepOk_ordinary lx _ _ (LoadIdOrElse_ordinary _) hs hc
  | compare lx ch rest hs hi hc =>
    intro lx2 e hc
    cases e
    exact stepOk_ordinary lx _ _ (LoadCompareSymbol_ordinary _) hs hc
  | symbol lx ch rest hs hi hc =>
    intro lx2 e hc
    cases e
    exact stepOk_ordinary lx _ _ rfl hs hc
  | newlineDedent lx rest hs hi ht hf2 hp hl =>
    intro lx2 e hc
    cases e
    obtain ⟨h1, h2, h3, h4⟩ := hc
    refine ⟨⟨h1, ?_, ?_, ?_⟩, rfl, Or.inr ⟨?_, ?_, ?_, ?_⟩⟩
    · simp only; omega
    · intro _; exact Or.inl rfl
    · intro _; exact Or.inl rfl
    · simp only [indentDelta]; omega
    · intro h; cases h
    · intro h; cases h
    · intro h; cases h
  | newline lx rest hs hi ht hf2 hp =>
    intro lx2 e hc
    cases e
    obtain ⟨h1, h2, h3, h4⟩ := hc
    refine ⟨⟨h1, h2, ?_, ?_⟩, rfl, Or.inr ⟨?_, ?_, ?_, ?_⟩⟩
    · intro _; exact Or.inl rfl
    · intro _; exact Or.inl rfl
    · simp only [indentDelta]; omega
    · intro h; cases h
    · intro h; cases h
    · intro h; cases h
  | blankLine lx rest r hs hi ht hr ih =>
    intro lx2 e hc
    exact stepOk_rec lx _ lx2 r ih hc rfl rfl rfl e
  | spaces lx rest r hs hi ht hd hr ih =>
    intro lx2 e hc
    exact stepOk_rec lx _ lx2 r ih hc rfl rfl rfl e
  | indentation lx rest r hs hi ht hr ih =>
    intro lx2 e hc
    obtain ⟨h1, h2, h3, h4⟩ := hc
    have hn := CountSpaces_nonneg lx.input_
    refine stepOk_rec lx _ lx2 r ih ⟨h1, ?_, ?_, ?_⟩ rfl rfl rfl e
    · simp only; omega
    · intro _; exact Or.inl ht
    · intro _; exact Or.inl ht
  | spaceAfterDedent lx rest hs hi ht =>
    intro lx2 e hc
    cases e
    exact stepOk_stuck lx hc (fun b => Lexes.spaceAfterDedent { lx with first_ := b } rest hs hi ht)
  | unknown lx ch rest hs hi hp h1 h2 h3 h4 h5 h6 h7 h8 h9 h10 =>
    intro lx2 e hc
    cases e
    exact stepOk_stuck lx hc (fun b =>
      Lexes.unknown { lx with first_ := b } ch rest hs hi hp h1 h2 h3 h4 h5 h6 h7 h8 h9 h10)
  | endDedent lx hs hp ht hl =>
    intro lx2 e hc
    cases e
    obtain ⟨h1, h2, h3, h4⟩ := hc
    refine ⟨⟨?_, ?_, ?_, ?_⟩, rfl, Or.inr ⟨rfl, ?_, ?_, ?_⟩⟩
    · simp only; omega
    · simp only; omega
    · intro h; simp only at h; omega
    · intro _; exact Or.inr rfl
    · intro h; cases h
    · intro _; exact Or.inr (Or.inr ⟨hp, hs⟩)
    · intro h; cases h
  | endNewline lx hs hp ht hl hn hd hf2 =>
    intro lx2 e hc
    cases e
    obtain ⟨h1, h2, h3, h4⟩ := hc
    refine ⟨⟨h1, h2, ?_, ?_⟩, rfl, Or.inr ⟨?_, ?_, ?_, ?_⟩⟩
    · intro _; exact Or.inl rfl
    · intro _; exact Or.inl rfl
    · simp only [indentDelta]; omega
    · intro h; cases h
    · intro h; cases h
    · intro h; cases h
  | endEof lx hs hp ht hl hn =>
    intro lx2 e hc
    cases e
    obtain ⟨h1, h2, h3, h4⟩ := hc
    refine ⟨⟨h1, h2, ?_, ?_⟩, rfl, Or.inr ⟨?_, ?_, ?_, ?_⟩⟩
    · intro h; simp only at h; omega
    · intro h; simp only at h; omega
    · simp only [indentDelta]; omega
    · intro h; cases h
    · intro h; cases h
    · intro _
      refine ⟨hn, ?_, hp, hs⟩
      simp only; omega
  | afterEof lx hs hp ht =>
    intro lx2 e hc
    cases e
    exact stepOk_stuck lx hc (fun b => Lexes.afterEof { lx with first_ := b } hs hp ht)

theorem lexRun_eq (input : List Char) (n : Nat) :
    lexRun input n = nextTokens (n + 1) { input_ := input } := rfl

theorem coherent_new (input : List Char) : Coherent { input_ := input } := by
  refine ⟨Int.le_refl _, ?_, ?_, ?_⟩
  · show (0 : Int) ≤ 0 + 0
    decide
  · intro h
    exact absurd (show (0 : Int) < 0 from h) (by decide)
  · intro h
    exact absurd (show (0 : Int) < 0 from h) (by decide)

theorem NextToken_stepOk {lx lx2 : Lexer} (h : NextToken lx = Except.ok lx2) (hc : Coherent lx) :
    StepOk lx lx2 :=
  (NextToken_lexes lx).stepOk lx2 h hc

theorem nextTokens_succ_ok {n : Nat} {lx : Lexer} {r : List Token × Lexer}
    (h : nextTokens (n + 1) lx = Except.ok r) :
    ∃ lx2 r2, NextToken lx = Except.ok lx2 ∧ nextTokens n lx2 = Except.ok r2 ∧
      r = (lx2.curr_token_ :: r2.1, r2.2) := by
  unfold nextTokens at h
  split at h
  · cases h
  · next lx2 h1 =>
    split at h
    · cases h
    · next r2 h2 =>
      cases h
      exact ⟨lx2, r2, h1, h2, rfl⟩

theorem Stuck.next {lx : Lexer} (h : Stuck lx) :
    NextToken lx = Except.ok { lx with first_ := false } :=
  (Lexes_iff lx _).1 (h lx.first_)

theorem Stuck.setFirst {lx : Lexer} (h : Stuck lx) (b : Bool) : Stuck { lx with first_ := b } :=
  fun b2 => h b2

/-- A stuck lexer hands out its current token forever. -/
theorem nextTokens_stuck : ∀ (n : Nat) (lx : Lexer) (r : List Token × Lexer), Stuck lx →
    nextTokens n lx = Except.ok r → ∀ t ∈ r.1, t = lx.curr_token_ := by
  intro n
  induction n with
  | zero =>
    intro lx r _ h t ht
    simp only [nextTokens, Except.ok.injEq] at h
    subst h
    cases ht
  | succ n ih =>
    intro lx r hs h t ht
    obtain ⟨lx2, r2, h1, h2, rfl⟩ := nextTokens_succ_ok h
    rw [hs.next] at h1
    cases h1
    rcases List.mem_cons.1 ht with e | e
    · exact e
    · exact ih _ r2 (hs.setFirst false) h2 t e

/-- The states between the calls are coherent. -/
theorem nextTokens_coherent : ∀ (n : Nat) (lx : Lexer) (r : List Token × Lexer), Coherent lx →
    nextTokens n lx = Except.ok r → Coherent r.2 := by
  intro n
  induction n with
  | zero =>
    intro lx r hc h
    simp only [nextTokens, Except.ok.injEq] at h
    subst h
    exact hc
  | succ n ih =>
    intro lx r hc h
    obtain ⟨lx2, r2, h1, h2, rfl⟩ := nextTokens_succ_ok h
    exact ih lx2 r2 (NextToken_stepOk h1 hc).1 h2

theorem sum_indentDelta (ts : List Token) :
    (ts.map indentDelta).sum = (ts.count Token.Indent : Int) - (ts.count Token.Dedent : Int) := by
  induction ts with
  | nil => simp
  | cons t ts ih =>
    rw [List.map_cons, List.sum_cons, ih]
    cases t <;> simp [indentDelta, List.count_cons] <;> omega

/-- At the first `Eof` the indents and dedents handed out so far cancel the
level the run started with. -/
theorem nextTokens_balance : ∀ (n : Nat) (lx : Lexer) (r : List Token × Lexer), Coherent lx →
    lx.curr_token_ ≠ Token.Eof → nextTokens n lx = Except.ok r →
    ∀ pre post, r.1 = pre ++ Token.Eof :: post → Token.Eof ∉ pre →
      lx.indent_index_ + (pre.map indentDelta).sum = 0 := by
  intro n
  induction n with
  | zero =>
    intro lx r _ _ h pre post e _
    simp only [nextTokens, Except.ok.injEq] at h
    subst h
    cases pre <;> cases e
  | succ n ih =>
    intro lx r hc hne h pre post e hpre
    obtain ⟨lx2, r2, h1, h2, rfl⟩ := nextTokens_succ_ok h
    obtain ⟨c2, _, k⟩ := NextToken_stepOk h1 hc
    rcases k with ⟨k1, k2, _⟩ | ⟨k1, _, _, k4⟩
    · exfalso
      have hall := nextTokens_stuck n lx2 r2 k1 h2
      have hmem : Token.Eof ∈ lx2.curr_token_ :: r2.1 := by
        rw [show (lx2.curr_token_ :: r2.1) = pre ++ Token.Eof :: post from e]
        simp
      rcases List.mem_cons.1 hmem with q | q
      · exact hne (k2 ▸ q.symm)
      · exact hne (k2 ▸ (hall _ q).symm)
    · cases pre with
      | nil =>
        simp only [List.nil_append, List.cons.injEq] at e
        have := (k4 e.1).2.1
        simp only [List.map_nil, List.sum_nil]
        rw [e.1] at k1
        simp only [indentDelta] at k1
        omega
      | cons p pre =>
        simp only [List.cons_append, List.cons.injEq] at e
        obtain ⟨e1, e2⟩ := e
        subst e1
        have hp : lx2.curr_token_ ≠ Token.Eof := fun q => hpre (q ▸ List.mem_cons_self _ _)
        have := ih lx2 r2 c2 hp h2 pre post e2 (fun q => hpre (List.mem_cons_of_mem _ q))
        rw [List.map_cons, List.sum_cons]
        omega

theorem tokenStream_ok {input : List Char} {n : Nat} {ts : List Token}
    (h : tokenStream input n = Except.ok ts) :
    ∃ lx, nextTokens (n + 1) { input_ := input } = Except.ok (ts, lx) := by
  unfold tokenStream at h
  rw [lexRun_eq] at h
  split at h
  · cases h
  · next r hr =>
    cases h
    exact ⟨r.2, hr⟩

theorem atEnd_next {lx lx2 : Lexer} (ha : AtEnd lx)
    (ht : lx.curr_token_ = Token.Dedent ∨ lx.curr_token_ = Token.Eof)
    (h : NextToken lx = Except.ok lx2) :
    AtEnd lx2 ∧ (lx2.curr_token_ = Token.Dedent ∨ lx2.curr_token_ = Token.Eof) := by
  unfold NextToken at h
  rw [NextTokenFuel_end _ lx ha.2 ha.1] at h
  unfold atEnd at h
  split_ifs at h with c1 c2 c3
  · cases h
    exact ⟨ha, Or.inl rfl⟩
  · exfalso
    rcases ht with q | q
    · exact c3.2.1 q
    · exact c1 q
  · cases h
    exact ⟨ha, Or.inr rfl⟩
  · cases h
    exact ⟨ha, ht⟩

/-- Once the end of the stream is reached after a `Dedent`, only `Dedent` and
`Eof` follow. -/
theorem nextTokens_atEnd : ∀ (n : Nat) (lx : Lexer) (r : List Token × Lexer), AtEnd lx →
    (lx.curr_token_ = Token.Dedent ∨ lx.curr_token_ = Token.Eof) →
    nextTokens n lx = Except.ok r → ∀ t ∈ r.1, t = Token.Dedent ∨ t = Token.Eof := by
  intro n
  induction n with
  | zero =>
    intro lx r _ _ h t ht
    simp only [nextTokens, Except.ok.injEq] at h
    subst h
    cases ht
  | succ n ih =>
    intro lx r ha hd h t ht
    obtain ⟨lx2, r2, h1, h2, rfl⟩ := nextTokens_succ_ok h
    obtain ⟨a2, d2⟩ := atEnd_next ha hd h1
    rcases List.mem_cons.1 ht with e | e
    · rw [e]; exact d2
    · exact ih lx2 r2 a2 d2 h2 t e

theorem nextTokens_follows : ∀ (n : Nat) (lx : Lexer) (r : List Token × Lexer), Coherent lx →
    nextTokens n lx = Except.ok r →
    ∀ pre a b post, lx.curr_token_ :: r.1 = pre ++ a :: b :: post →
      Follows (pre = [] ∧ lx.first_ = true) a b post := by
  intro n
  induction n with
  | zero =>
    intro lx r _ h pre a b post e
    simp only [nextTokens, Except.ok.injEq] at h
    subst h
    have := congrArg List.length e
    simp at this
    omega
  | succ n ih =>
    intro lx r hc h pre a b post e
    obtain ⟨lx2, r2, h1, h2, rfl⟩ := nextTokens_succ_ok h
    obtain ⟨c2, f2, k⟩ := NextToken_stepOk h1 hc
    cases pre with
    | nil =>
      simp only [List.nil_append, List.cons.injEq] at e
      obtain ⟨e1, e2, e3⟩ := e
      subst e1 e2 e3
      rcases k with ⟨_, k2, _⟩ | ⟨_, k2, k3, k4⟩
      · rw [k2]
        exact ⟨fun q => Or.inr q, fun q => Or.inr (Or.inl q), fun q => Or.inl q⟩
      · refine ⟨k2, ?_, ?_⟩
        · intro q
          rcases k3 q with j | j | j
          · exact Or.inl j
          · exact Or.inr (Or.inl j)
          · exact Or.inr (Or.inr (nextTokens_atEnd n lx2 r2 j (Or.inl q) h2))
        · intro q
          rcases (k4 q).1 with j | j | j
          · exact Or.inr (Or.inl j)
          · exact Or.inr (Or.inr (Or.inl j))
          · exact Or.inr (Or.inr (Or.inr ⟨rfl, j⟩))
    | cons p pre =>
      simp only [List.cons_append, List.cons.injEq] at e
      obtain ⟨_, e2⟩ := e
      obtain ⟨g1, g2, g3⟩ := ih lx2 r2 c2 h2 pre a b post e2
      refine ⟨g1, g2, ?_⟩
      intro q
      rcases g3 q with j | j | j | j
      · exact Or.inl j
      · exact Or.inr (Or.inl j)
      · exact Or.inr (Or.inr (Or.inl j))
      · rw [f2] at j
        exact absurd j.2 (by decide)

/-- The first token of a stream is neither `Indent` nor `Dedent`. -/
theorem first_token_plain {input : List Char} {lx : Lexer}
    (h : NextToken { input_ := input } = Except.ok lx) :
    lx.curr_token_ ≠ Token.Indent ∧ lx.curr_token_ ≠ Token.Dedent := by
  obtain ⟨c2, _, k⟩ := NextToken_stepOk h (coherent_new input)
  rcases k with ⟨_, k2, _⟩ | ⟨k1, k2, _, _⟩
  · have k3 : lx.curr_token_ = Token.Number 0 := k2
    rw [k3]
    exact ⟨by decide, by decide⟩
  · constructor
    · intro q
      have j : Token.Number 0 = Token.Newline ∨ Token.Number 0 = Token.Indent := k2 q
      rcases j with j | j <;> cases j
    · intro q
      have k3 : lx.indent_index_ = 0 + indentDelta lx.curr_token_ := k1
      rw [q] at k3
      have := c2.1
      rw [k3] at this
      exact absurd this (by decide)

theorem prepend_nil (r : Except Exception (List Token × Lexer)) : prepend [] r = r := by
  cases r <;> rfl

theorem prepend_cons (t : Token) (pre : List Token) (r : Except Exception (List Token × Lexer)) :
    prepend (t :: pre) r = prepend [t] (prepend pre r) := by
  cases r <;> rfl

theorem nextTokens_succ (n : Nat) (lx : Lexer) :
    nextTokens (n + 1) lx =
      match NextToken lx with
      | Except.error e => Except.error e
      | Except.ok lx2 => prepend [lx2.curr_token_] (nextTokens n lx2) := by
  rw [nextTokens]
  cases NextToken lx with
  | error e => rfl
  | ok lx2 =>
    simp only
    cases nextTokens n lx2 <;> rfl

theorem Lexes.first_false {lx : Lexer} {r : Except Exception Lexer} (h : Lexes lx r) :
    ∀ lx2, r = Except.ok lx2 → lx2.first_ = false := by
  cases h <;> intro lx2 e <;>
    first
    | (cases e; rfl)
    | (obtain ⟨_, _, rfl⟩ := setFirst_ok e; rfl)
    | cases e

theorem setFirst_NextToken (lx : Lexer) : setFirst (NextToken lx) = NextToken lx := by
  cases h : NextToken lx with
  | error e => rfl
  | ok lx2 =>
    have := (NextToken_lexes lx).first_false lx2 h
    simp only [setFirst]
    rw [← this]

theorem CountSpacesLoop_replicate (n i : Nat) (ch : Char) (rest : List Char) (h : ch ≠ ' ') :
    CountSpacesLoop (List.replicate n ' ' ++ ch :: rest) i = (i + n, ch :: rest) := by
  induction n generalizing i with
  | zero =>
    simp only [List.replicate_zero, List.nil_append, Nat.add_zero]
    rw [CountSpacesLoop, if_neg h]
  | succ n ih =>
    rw [List.replicate_succ, List.cons_append, CountSpacesLoop, if_pos rfl, ih]
    congr 1
    omega

theorem CountSpaces_replicate (n : Nat) (ch : Char) (rest : List Char) (h1 : ch ≠ ' ')
    (h2 : ch ≠ '\n') :
    CountSpaces (List.replicate n ' ' ++ ch :: rest) = (((n / 2 : Nat) : Int), ch :: rest) := by
  unfold CountSpaces
  simp only [CountSpacesLoop_replicate n 0 ch rest h1, Nat.zero_add]
  rw [if_neg]
  simp [peekIs, h2]

/-- Pending indents are handed out one per call. -/
theorem nextTokens_indents : ∀ (p : Nat) (lx : Lexer) (target : Int),
    lx.spaces_ = (p : Int) + 1 → target = lx.indent_index_ + p + 1 →
    ∀ j, nextTokens (p + 1 + j) lx =
      prepend (List.replicate (p + 1) Token.Indent)
        (nextTokens j { lx with curr_token_ := Token.Indent, indent_index_ := target,
                                spaces_ := 0, first_ := false }) := by
  intro p
  induction p with
  | zero =>
    intro lx target hs ht j
    have hpos : 0 < lx.spaces_ := by omega
    have h1 := (Lexes_iff lx _).1 (Lexes.indent lx hpos)
    rw [show 0 + 1 + j = j + 1 by omega, nextTokens_succ, h1]
    simp only [Nat.cast_zero, Int.add_zero, Int.zero_add] at hs ht
    simp only [hs, ht, Int.sub_self]
    rfl
  | succ p ih =>
    intro lx target hs ht j
    have hpos : 0 < lx.spaces_ := by omega
    have h1 := (Lexes_iff lx _).1 (Lexes.indent lx hpos)
    rw [show p + 1 + 1 + j = (p + 1 + j) + 1 by omega, nextTokens_succ, h1]
    simp only
    rw [ih _ target (by simp only; push_cast at hs; omega) (by simp only; push_cast at ht; omega) j]
    simp only
    generalize nextTokens j _ = r
    cases r <;> rfl

/-- Pending dedents are handed out one per call. -/
theorem nextTokens_dedents : ∀ (p : Nat) (lx : Lexer) (target : Int),
    lx.spaces_ = -((p : Int) + 1) → target = lx.indent_index_ - p - 1 →
    ∀ j, nextTokens (p + 1 + j) lx =
      prepend (List.replicate (p + 1) Token.Dedent)
        (nextTokens j { lx with curr_token_ := Token.Dedent, indent_index_ := target,
                                spaces_ := 0, first_ := false }) := by
  intro p
  induction p with
  | zero =>
    intro lx target hs ht j
    have hneg : lx.spaces_ < 0 := by omega
    have h1 := (Lexes_iff lx _).1 (Lexes.dedent lx hneg)
    rw [show 0 + 1 + j = j + 1 by omega, nextTokens_succ, h1]
    simp only [Nat.cast_zero, Int.add_zero, Int.zero_add, Int.sub_zero] at hs ht
    simp only [hs, ht]
    rfl
  | succ p ih =>
    intro lx target hs ht j
    have hneg : lx.spaces_ < 0 := by omega
    have h1 := (Lexes_iff lx _).1 (Lexes.dedent lx hneg)
    rw [show p + 1 + 1 + j = (p + 1 + j) + 1 by omega, nextTokens_succ, h1]
    simp only
    rw [ih _ target (by simp only; push_cast at hs; omega) (by simp only; push_cast at ht; omega) j]
    simp only
    generalize nextTokens j _ = r
    cases r <;> rfl

theorem startsToken_pos {ch : Char} (h : startsToken ch = true) : 0 < toSignedChar ch := by
  have F := charFacts ch
  rw [F.positive]
  simp only [startsToken, Bool.or_eq_true, beq_iff_eq] at h
  rw [F.dquote, F.squote, F.digit, F.alpha, F.underscore, F.compare, F.symbol] at h
  omega

/-- Where a token starts, the next call reads an ordinary token and keeps the
indent level. -/
theorem startsToken_next {lx lx2 : Lexer} {ch : Char} {rest : List Char}
    (hs : lx.spaces_ = 0) (hi : lx.input_ = ch :: rest) (hc : startsToken ch = true)
    (h : NextToken lx = Except.ok lx2) :
    lx2.curr_token_.ordinary = true ∧ lx2.indent_index_ = lx.indent_index_ := by
  unfold NextToken at h
  rw [NextTokenFuel_char _ lx ch rest hs hi (startsToken_pos hc)] at h
  unfold onChar at h
  split_ifs at h with c1 c2 c3 c4 c5 c6 c7 c8 c9
  · subst c1; cases hc
  · split at h
    · next r hn => cases h; exact ⟨LoadString_ordinary _ r hn, rfl⟩
    · cases h
  · split at h
    · next r hn => cases h; exact ⟨LoadSingleQuotedString_ordinary _ r hn, rfl⟩
    · cases h
  · unfold onDigit at h
    split at h
    · next r hn => cases h; exact ⟨LoadNumber_ordinary _ r hn, rfl⟩
    · cases h
  · cases h; exact ⟨LoadIdOrElse_ordinary _, rfl⟩
  · cases h; exact ⟨LoadCompareSymbol_ordinary _, rfl⟩
  · cases h; exact ⟨rfl, rfl⟩
  · subst c8; cases hc
  · subst c9; cases hc
  · exfalso
    simp only [startsToken, Bool.or_eq_true, beq_iff_eq] at hc
    tauto

/-- A `Newline` that a call has just put in place of another token leaves
dedents pending unless the next line starts with a space or the level is 0. -/
theorem Lexes.fresh_newline {lx0 : Lexer} {r : Except Exception Lexer} (h : Lexes lx0 r) :
    ∀ lx, r = Except.ok lx → lx0.curr_token_ ≠ Token.Newline → lx.curr_token_ = Token.Newline →
      lx.spaces_ = 0 → peekIs ' ' lx.input_ = true ∨ lx.indent_index_ ≤ 0 := by
  induction h with
  | indent lx hs => intro lx2 e _ hn _; cases e; cases hn
  | dedent lx hs => intro lx2 e _ hn _; cases e; cases hn
  | comment lx rest r hs hi hr ih =>
    intro lx2 e hp hn hz
    obtain ⟨lx3, hr, rfl⟩ := setFirst_ok e
    exact ih lx3 hr hp hn hz
  | dquote lx rest r hs hi hl =>
    intro lx2 e _ hn _; cases e
    exact absurd hn (ordinary_facts (LoadString_ordinary rest r hl)).2.2.2.2
  | dquoteError lx rest e hs hi hl => intro lx2 e; cases e
  | squote lx rest r hs hi hl =>
    intro lx2 e _ hn _; cases e
    exact absurd hn (ordinary_facts (LoadSingleQuotedString_ordinary rest r hl)).2.2.2.2
  | squoteError lx rest e hs hi hl => intro lx2 e; cases e
  | number lx ch rest r hs hi hc hn =>
    intro lx2 e _ hn2 _; cases e
    exact absurd hn2 (ordinary_facts (LoadNumber_ordinary _ r hn)).2.2.2.2
  | numberError lx ch rest e hs hi hc hn => intro lx2 e; cases e
  | word lx ch rest hs hi hc =>
    intro lx2 e _ hn _; cases e
    exact absurd hn (ordinary_facts (LoadIdOrElse_ordinary _)).2.2.2.2
  | compare lx ch rest hs hi hc =>
    intro lx2 e _ hn _; cases e
    exact absurd hn (ordinary_facts (LoadCompareSymbol_ordinary _)).2.2.2.2
  | symbol lx ch rest hs hi hc => intro lx2 e _ hn _; cases e; cases hn
  | newlineDedent lx rest hs hi ht hf2 hp hl =>
    intro lx2 e _ _ hz; cases e
    simp only at hz
    right; omega
  | newline lx rest hs hi ht hf2 hp => intro lx2 e _ _ _; cases e; exact hp
  | blankLine lx rest r hs hi ht hr ih =>
    intro lx2 e hp hn hz
    obtain ⟨lx3, hr, rfl⟩ := setFirst_ok e
    exact ih lx3 hr hp hn hz
  | spaces lx rest r hs hi ht hd hr ih =>
    intro lx2 e hp hn hz
    obtain ⟨lx3, hr, rfl⟩ := setFirst_ok e
    exact ih lx3 hr hp hn hz
  | indentation lx rest r hs hi ht hr ih => intro lx2 _ hp; exact absurd ht hp
  | spaceAfterDedent lx rest hs hi ht => intro lx2 e hp hn _; cases e; exact absurd hn hp
  | unknown lx ch rest hs hi hp h1 h2 h3 h4 h5 h6 h7 h8 h9 h10 =>
    intro lx2 e hp hn _; cases e; exact absurd hn hp
  | endDedent lx hs hp ht hl => intro lx2 e _ hn _; cases e; cases hn
  | endNewline lx hs hp ht hl hn hd hf2 => intro lx2 e _ _ _; cases e; exact Or.inr hl
  | endEof lx hs hp ht hl hn => intro lx2 e _ hn2 _; cases e; cases hn2
  | afterEof lx hs hp ht => intro lx2 e hp hn _; cases e; exact absurd hn hp

theorem lexRun_coherent {input : List Char} {m : Nat} {r : List Token × Lexer}
    (h : lexRun input m = Except.ok r) : Coherent r.2 := by
  rw [lexRun_eq] at h
  exact nextTokens_coherent _ _ r (coherent_new input) h

/-- After a `Newline` the first call at `n ≥ 1` spaces measures them. -/
theorem NextToken_indentation (lx : Lexer) (n : Nat) (ch : Char) (rest : List Char)
    (hnl : lx.curr_token_ = Token.Newline) (hpend : lx.spaces_ = 0)
    (hin : lx.input_ = List.replicate (n + 1) ' ' ++ ch :: rest) (h1 : ch ≠ ' ')
    (h2 : ch ≠ '\n') :
    NextToken lx =
      NextToken { lx with input_ := ch :: rest,
                          spaces_ := (((n + 1) / 2 : Nat) : Int) - lx.indent_index_ } := by
  have hc := CountSpaces_replicate (n + 1) ch rest h1 h2
  rw [← hin] at hc
  have hi : lx.input_ = ' ' :: (List.replicate n ' ' ++ ch :: rest) := by
    rw [hin, List.replicate_succ, List.cons_append]
  have := Lexes.indentation lx _ _ hpend hi hnl (NextToken_lexes _)
  rw [hc] at this
  rw [(Lexes_iff lx _).1 this, setFirst_NextToken]

theorem nextTokens_congr {lx lx2 : Lexer} (h : NextToken lx = NextToken lx2) (j : Nat) :
    nextTokens (j + 1) lx = nextTokens (j + 1) lx2 := by
  rw [nextTokens_succ, nextTokens_succ, h]

/-- Indentation is counted in units of two spaces. When a call has just put
`Newline` in the place of another token (`lx0` is the lexer before that call,
`lx` after it), nothing is pending, and the unread input is `n` spaces followed by a byte `ch` that is
neither a space nor a newline, then with `k = n / 2 - lx.indent_index_` the
next `|k|` calls hand out exactly `|k|` tokens, all `Indent` if `k > 0` and all
`Dedent` if `k < 0`, and what follows is the stream of a lexer `lx2` that
stands at `ch` with indent level `n / 2` and nothing pending; where `ch`
starts a token, the next token is an ordinary one and the level stays
`n / 2`. -/
theorem indentation_units (input : List Char) (m : Nat) (ts : List Token) (lx0 lx : Lexer)
    (n : Nat) (ch : Char) (rest : List Char)
    (hrun : lexRun input m = Except.ok (ts, lx0))
    (hnext : NextToken lx0 = Except.ok lx)
    (hprev : lx0.curr_token_ ≠ Token.Newline)
    (hnl : lx.curr_token_ = Token.Newline)
    (hpend : lx.spaces_ = 0)
    (hin : lx.input_ = List.replicate n ' ' ++ ch :: rest)
    (h1 : ch ≠ ' ') (h2 : ch ≠ '\n') :
    ∃ lx2 : Lexer,
      lx2.input_ = ch :: rest ∧ lx2.indent_index_ = ((n / 2 : Nat) : Int) ∧ lx2.spaces_ = 0 ∧
      (∀ j, nextTokens ((((n / 2 : Nat) : Int) - lx.indent_index_).natAbs + (j + 1)) lx =
        prepend
          (List.replicate (((n / 2 : Nat) : Int) - lx.indent_index_).natAbs
            (if 0 < ((n / 2 : Nat) : Int) - lx.indent_index_ then Token.Indent else Token.Dedent))
          (nextTokens (j + 1) lx2)) ∧
      (startsToken ch = true → ∀ lx3, NextToken lx2 = Except.ok lx3 →
        lx3.curr_token_.ordinary = true ∧ lx3.indent_index_ = ((n / 2 : Nat) : Int)) := by
  have hc0 : Coherent lx0 := lexRun_coherent hrun
  obtain ⟨hc, hf, _⟩ := NextToken_stepOk hnext hc0
  cases n with
  | zero =>
    simp only [List.replicate_zero, List.nil_append] at hin
    have hfresh := ((Lexes_iff lx0 _).2 hnext).fresh_newline lx rfl hprev hnl hpend
    have hL : lx.indent_index_ = 0 := by
      rcases hfresh with q | q
      · rw [hin] at q
        simp only [peekIs, beq_iff_eq] at q
        exact absurd q h1
      · have := hc.1
        omega
    refine ⟨lx, hin, ?_, hpend, ?_, ?_⟩
    · rw [hL]; rfl
    · intro j
      simp only [hL, Nat.zero_div, Nat.cast_zero, Int.sub_self, Int.natAbs_zero, Nat.zero_add,
        List.replicate_zero, prepend_nil]
    · intro hs lx3 h3
      obtain ⟨o1, o2⟩ := startsToken_next hpend hin hs h3
      refine ⟨o1, ?_⟩
      rw [o2, hL]; rfl
  | succ n =>
    have hstep := NextToken_indentation lx n ch rest hnl hpend hin h1 h2
    rcases Int.lt_trichotomy ((((n + 1) / 2 : Nat) : Int) - lx.indent_index_) 0 with hk | hk | hk
    · -- dedents
      obtain ⟨p, hp⟩ : ∃ p : Nat, (((n + 1) / 2 : Nat) : Int) - lx.indent_index_ = -((p : Int) + 1) :=
        ⟨(-(((((n + 1) / 2 : Nat) : Int) - lx.indent_index_)) - 1).toNat, by omega⟩
      refine ⟨{ input_ := ch :: rest, indent_index_ := (((n + 1) / 2 : Nat) : Int),
                curr_token_ := Token.Dedent, first_ := false, spaces_ := 0 },
        rfl, rfl, rfl, ?_, ?_⟩
      · intro j
        rw [hp, if_neg (by omega), show (-((p : Int) + 1)).natAbs = p + 1 by omega,
          show p + 1 + (j + 1) = (p + 1 + j) + 1 by omega, nextTokens_congr hstep,
          show (p + 1 + j) + 1 = p + 1 + (j + 1) by omega]
        exact nextTokens_dedents p _ (((n + 1) / 2 : Nat) : Int) (by simp only; omega)
          (by simp only; omega) (j + 1)
      · intro hs lx3 h3
        exact startsToken_next rfl rfl hs h3
    · -- the level stays
      refine ⟨{ lx with input_ := ch :: rest }, rfl, ?_, hpend, ?_, ?_⟩
      · simp only; omega
      · intro j
        rw [hk, if_neg (by omega)]
        simp only [Int.natAbs_zero, Nat.zero_add, List.replicate_zero, prepend_nil]
        rw [nextTokens_congr hstep, hk, ← hpend]
      · intro hs lx3 h3
        obtain ⟨o1, o2⟩ :=
          @startsToken_next { lx with input_ := ch :: rest } lx3 ch rest hpend rfl hs h3
        refine ⟨o1, ?_⟩
        rw [o2]
        show lx.indent_index_ = _
        omega
    · -- indents
      obtain ⟨p, hp⟩ : ∃ p : Nat, (((n + 1) / 2 : Nat) : Int) - lx.indent_index_ = (p : Int) + 1 :=
        ⟨((((n + 1) / 2 : Nat) : Int) - lx.indent_index_ - 1).toNat, by omega⟩
      refine ⟨{ input_ := ch :: rest, indent_index_ := (((n + 1) / 2 : Nat) : Int),
                curr_token_ := Token.Indent, first_ := false, spaces_ := 0 },
        rfl, rfl, rfl, ?_, ?_⟩
      · intro j
        rw [hp, if_pos (by omega), show ((p : Int) + 1).natAbs = p + 1 by omega,
          show p + 1 + (j + 1) = (p + 1 + j) + 1 by omega, nextTokens_congr hstep,
          show (p + 1 + j) + 1 = p + 1 + (j + 1) by omega]
        exact nextTokens_indents p _ (((n + 1) / 2 : Nat) : Int) (by simp only; omega)
          (by simp only; omega) (j + 1)
      · intro hs lx3 h3
        exact startsToken_next rfl rfl hs h3

theorem LoadNumber_error (l : List Char) (e : Exception) (h : LoadNumber l = Except.error e) :
    e = Exception.invalid_argument ∨ e = Exception.out_of_range := by
  unfold LoadNumber at h
  simp only at h
  split at h
  · cases h
  · next e2 hs =>
    cases h
    unfold stoi at hs
    split_ifs at hs
    · cases hs; exact Or.inl rfl
    · cases hs; exact Or.inr rfl

theorem setFirst_error {r : Except Exception Lexer} {e : Exception}
    (h : setFirst r = Except.error e) : r = Except.error e := by
  cases r with
  | error e2 => exact h
  | ok lx => cases h

theorem Lexes.no_fuel_error {lx : Lexer} {r : Except Exception Lexer} (h : Lexes lx r) :
    r ≠ Except.error Exception.fuel_exhausted := by
  induction h with
  | numberError lx ch rest e hs hi hc hn =>
    intro q
    cases q
    rcases LoadNumber_error _ _ hn with j | j <;> cases j
  | dquoteError lx rest e hs hi hn =>
    intro q
    cases q
    cases (LoadStringLoop_isString rest "").2 _ hn
  | squoteError lx rest e hs hi hn =>
    intro q
    cases q
    cases (LoadSingleQuotedStringLoop_isString rest "").2 _ hn
  | comment lx rest r hs hi hr ih => exact fun q => ih (setFirst_error q)
  | blankLine lx rest r hs hi ht hr ih => exact fun q => ih (setFirst_error q)
  | spaces lx rest r hs hi ht hd hr ih => exact fun q => ih (setFirst_error q)
  | indentation lx rest r hs hi ht hr ih => exact fun q => ih (setFirst_error q)
  | _ => exact fun q => nomatch q

/-- `NextToken` never runs out of fuel: the fuel it is given, the number of
unread bytes plus one, covers every chain of calls of itself. -/
theorem NextToken_fuel_sufficient (lx : Lexer) :
    NextToken lx ≠ Except.error Exception.fuel_exhausted :=
  (NextToken_lexes lx).no_fuel_error

/-- C1. The token stream is well-bracketed: when the stream produced for an
input reaches `Eof`, the tokens handed out before the first `Eof` hold as many
`Indent` as `Dedent` tokens. -/
theorem indent_dedent_balanced (input : List Char) (n : Nat) (pre post : List Token)
    (h : tokenStream input n = Except.ok (pre ++ Token.Eof :: post))
    (hpre : Token.Eof ∉ pre) :
    pre.count Token.Indent = pre.count Token.Dedent := by
  obtain ⟨lx, hr⟩ := tokenStream_ok h
  have hb := nextTokens_balance (n + 1) { input_ := input } _ (coherent_new input)
    (fun q => Token.noConfusion q) hr pre post rfl hpre
  rw [sum_indentDelta] at hb
  have hz : (0 : Int) + ((pre.count Token.Indent : Int) - (pre.count Token.Dedent : Int)) = 0 :=
    hb
  omega

/-- The hypotheses of `indent_dedent_balanced` hold on the second lexer
scenario of the specification: one `Indent`, one `Dedent`. -/
theorem indent_dedent_balanced_witness :
    tokenStream "if x:\n  y = 1\nz = 2\n".toList 14 =
        Except.ok ([Token.If, Token.Id "x", Token.Char ':', Token.Newline, Token.Indent,
          Token.Id "y", Token.Char '=', Token.Number 1, Token.Newline, Token.Dedent,
          Token.Id "z", Token.Char '=', Token.Number 2, Token.Newline] ++ Token.Eof :: []) ∧
      [Token.If, Token.Id "x", Token.Char ':', Token.Newline, Token.Indent,
          Token.Id "y", Token.Char '=', Token.Number 1, Token.Newline, Token.Dedent,
          Token.Id "z", Token.Char '=', Token.Number 2, Token.Newline].count Token.Indent =
        [Token.If, Token.Id "x", Token.Char ':', Token.Newline, Token.Indent,
          Token.Id "y", Token.Char '=', Token.Number 1, Token.Newline, Token.Dedent,
          Token.Id "z", Token.Char '=', Token.Number 2, Token.Newline].count Token.Dedent :=
  ⟨rfl, indent_dedent_balanced "if x:\n  y = 1\nz = 2\n".toList 14 _ [] rfl (by decide)⟩

/-- C2 as stated fails. On `a`, newline, four spaces, `b` the second `Indent`
follows an `Indent`, not a `Newline`, and the first `Dedent` follows the
identifier `b`. -/
theorem indent_after_indent_counterexample :
    tokenStream "a\n    b".toList 7 =
        Except.ok ([Token.Id "a", Token.Newline] ++ Token.Indent :: Token.Indent ::
          [Token.Id "b", Token.Dedent, Token.Dedent, Token.Eof]) ∧
      Token.Indent ≠ Token.Newline ∧
      tokenStream "a\n    b".toList 7 =
        Except.ok ([Token.Id "a", Token.Newline, Token.Indent, Token.Indent] ++
          Token.Id "b" :: Token.Dedent :: [Token.Dedent, Token.Eof]) ∧
      Token.Id "b" ≠ Token.Newline ∧ Token.Id "b" ≠ Token.Dedent :=
  ⟨rfl, by decide, rfl, by decide, by decide⟩

/-- C2, amended. In every token stream the first token is neither `Indent`
nor `Dedent`; every `Indent` is immediately preceded by a `Newline` or by
another `Indent`; every `Dedent` is immediately preceded by a `Newline` or by
another `Dedent`, unless only `Dedent` and `Eof` tokens follow it (the dedents
that close the blocks left open at the end of the input). -/
theorem indent_dedent_predecessor (input : List Char) (n : Nat) (ts : List Token)
    (h : tokenStream input n = Except.ok ts) :
    (∀ t rest, ts = t :: rest → t ≠ Token.Indent ∧ t ≠ Token.Dedent) ∧
    ∀ pre a b post, ts = pre ++ a :: b :: post →
      (b = Token.Indent → a = Token.Newline ∨ a = Token.Indent) ∧
      (b = Token.Dedent → a = Token.Newline ∨ a = Token.Dedent ∨
        ∀ t ∈ post, t = Token.Dedent ∨ t = Token.Eof) := by
  obtain ⟨lx, hr⟩ := tokenStream_ok h
  constructor
  · intro t rest e
    obtain ⟨lx2, r2, h1, _, e2⟩ := nextTokens_succ_ok hr
    have e3 : ts = lx2.curr_token_ :: r2.1 := congrArg Prod.fst e2
    rw [e3] at e
    simp only [List.cons.injEq] at e
    rw [← e.1]
    exact first_token_plain h1
  · intro pre a b post e
    have hf := nextTokens_follows (n + 1) { input_ := input } _ (coherent_new input) hr
      (Token.Number 0 :: pre) a b post (by
        show Token.Number 0 :: ts = _
        rw [e, List.cons_append])
    exact ⟨hf.1, hf.2.1⟩

/-- The amended C2 on the input of the counterexample: the second `Indent`
follows an `Indent`. -/
theorem indent_dedent_predecessor_witness :
    tokenStream "a\n    b".toList 7 =
        Except.ok [Token.Id "a", Token.Newline, Token.Indent, Token.Indent, Token.Id "b",
          Token.Dedent, Token.Dedent, Token.Eof] ∧
      (Token.Indent = Token.Indent → Token.Indent = Token.Newline ∨ Token.Indent = Token.Indent) ∧
      (Token.Indent = Token.Dedent → Token.Indent = Token.Newline ∨ Token.Indent = Token.Dedent ∨
        ∀ t ∈ [Token.Id "b", Token.Dedent, Token.Dedent, Token.Eof],
          t = Token.Dedent ∨ t = Token.Eof) :=
  ⟨rfl, (indent_dedent_predecessor "a\n    b".toList 7 _ rfl).2
    [Token.Id "a", Token.Newline] Token.Indent Token.Indent
    [Token.Id "b", Token.Dedent, Token.Dedent, Token.Eof] rfl⟩

/-- C3 as stated fails. On `a`, newline, two spaces, `b`, newline the token
before the first `Eof` is `Dedent`, not `Newline`. -/
theorem last_token_counterexample :
    tokenStream "a\n  b\n".toList 6 =
        Except.ok ([Token.Id "a", Token.Newline, Token.Indent, Token.Id "b", Token.Newline] ++
          Token.Dedent :: Token.Eof :: []) ∧
      Token.Eof ∉ [Token.Id "a", Token.Newline, Token.Indent, Token.Id "b", Token.Newline] ∧
      Token.Dedent ≠ Token.Eof ∧ Token.Dedent ≠ Token.Newline :=
  ⟨rfl, by decide, by decide, by decide⟩

/-- C3, amended. In every token stream that holds a token other than `Eof`
before its first `Eof`, the token immediately before the first `Eof` is
`Newline` or `Dedent`. -/
theorem last_token_before_eof (input : List Char) (n : Nat) (pre post : List Token) (t : Token)
    (h : tokenStream input n = Except.ok (pre ++ t :: Token.Eof :: post))
    (ht : t ≠ Token.Eof) :
    t = Token.Newline ∨ t = Token.Dedent := by
  obtain ⟨lx, hr⟩ := tokenStream_ok h
  have hf := nextTokens_follows (n + 1) { input_ := input } _ (coherent_new input) hr
    (Token.Number 0 :: pre) t Token.Eof post (by
      show Token.Number 0 :: (pre ++ t :: Token.Eof :: post) = _
      rw [List.cons_append])
  rcases hf.2.2 rfl with q | q | q | q
  · exact absurd q ht
  · exact Or.inl q
  · exact Or.inr q
  · exact absurd q.1 (by simp)

/-- The amended C3 on the first lexer scenario of the specification: `Newline`
stands before `Eof`. -/
theorem last_token_before_eof_witness :
    tokenStream "x = 1\n".toList 4 =
        Except.ok ([Token.Id "x", Token.Char '=', Token.Number 1] ++
          Token.Newline :: Token.Eof :: []) ∧
      Token.Newline ≠ Token.Eof ∧
      (Token.Newline = Token.Newline ∨ Token.Newline = Token.Dedent) :=
  ⟨rfl, by decide, last_token_before_eof "x = 1\n".toList 4
    [Token.Id "x", Token.Char '=', Token.Number 1] [] Token.Newline rfl (by decide)⟩

/-- The theorem `indentation_units` on the second lexer scenario of the
specification: after `if x:` and the `Newline`, two spaces at level 0 give one
`Indent` and level 1. -/
theorem indentation_units_witness :
    ∃ lx2 : Lexer,
      lx2.input_ = "y = 1\nz = 2\n".toList ∧ lx2.indent_index_ = 1 ∧ lx2.spaces_ = 0 ∧
      nextTokens 2 { input_ := "  y = 1\nz = 2\n".toList, indent_index_ := 0,
                     curr_token_ := Token.Newline, first_ := false, spaces_ := 0 } =
        prepend [Token.Indent] (nextTokens 1 lx2) := by
  obtain ⟨lx2, a, b, c, d, _⟩ := indentation_units "if x:\n  y = 1\nz = 2\n".toList 2
    [Token.If, Token.Id "x", Token.Char ':']
    { input_ := "\n  y = 1\nz = 2\n".toList, indent_index_ := 0, curr_token_ := Token.Char ':',
      first_ := false, spaces_ := 0 }
    { input_ := "  y = 1\nz = 2\n".toList, indent_index_ := 0, curr_token_ := Token.Newline,
      first_ := false, spaces_ := 0 }
    2 'y' " = 1\nz = 2\n".toList rfl rfl (by decide) rfl rfl rfl (by decide) (by decide)
  exact ⟨lx2, a, b, c, d 0⟩

end parse

/-! # Theorems: the runtime and the syntax tree -/

namespace ast

open runtime

/-! ## `Return` and `MethodBody` -/

theorem Execute_MethodBody (fuel : Nat) (b : Statement) (closure : Closure) (heap : Heap)
    (context : Context) :
    Execute (fuel + 1) (Statement.MethodBody b) closure heap context =
      MethodBody.Execute (Execute fuel) b closure heap context := rfl

theorem Execute_Compound (fuel : Nat) (args_ : List Statement) (closure : Closure) (heap : Heap)
    (context : Context) :
    Execute (fuel + 1) (Statement.Compound args_) closure heap context =
      Compound.Loop (Execute fuel) args_ closure heap context := rfl

theorem Execute_IfElse (fuel : Nat) (condition_ if_body_ : Statement)
    (else_body_ : Option Statement) (closure : Closure) (heap : Heap) (context : Context) :
    Execute (fuel + 1) (Statement.IfElse condition_ if_body_ else_body_) closure heap context =
      IfElse.Execute (Execute fuel) condition_ if_body_ else_body_ closure heap context := rfl

theorem Execute_Return (fuel : Nat) (e : Statement) (closure : Closure) (heap : Heap)
    (context : Context) :
    Execute (fuel + 1) (Statement.Return e) closure heap context =
      Return.Execute (Execute fuel) e closure heap context := rfl

/-- A statement that throws after a prefix that ended normally ends the loop of
`Compound::Execute`: the statements after it are not executed. -/
theorem Compound_Loop_append (exec : Exec) (pre : List Statement) (s : Statement)
    (post : List Statement) :
    ∀ (closure : Closure) (heap : Heap) (context : Context) (w : ObjectHolder),
      (Compound.Loop exec pre closure heap context).outcome = Outcome.normal w →
      (∀ u, (exec s (Compound.Loop exec pre closure heap context).closure
          (Compound.Loop exec pre closure heap context).heap
          (Compound.Loop exec pre closure heap context).context).outcome ≠ Outcome.normal u) →
      Compound.Loop exec (pre ++ s :: post) closure heap context =
        exec s (Compound.Loop exec pre closure heap context).closure
          (Compound.Loop exec pre closure heap context).heap
          (Compound.Loop exec pre closure heap context).context := by
  induction pre with
  | nil =>
    intro closure heap context w _ hs
    simp only [List.nil_append, Compound.Loop] at hs ⊢
  | cons a pre ih =>
    intro closure heap context w hpre hs
    simp only [List.cons_append, Compound.Loop] at hpre hs ⊢
    split
    · next u hu =>
      simp only [hu] at hpre hs
      exact ih _ _ _ w hpre hs
    · next hn =>
      exfalso
      split at hpre
      · next u hu => exact hn u hu
      · next hn2 => exact hn2 w hpre

theorem ReachesReturn.result {fuel : Nat} {b : Statement} {closure : Closure} {heap : Heap}
    {context : Context} {v : ObjectHolder} {r : Result}
    (h : ReachesReturn fuel b closure heap context v r) :
    Execute fuel b closure heap context = r ∧ r.outcome = Outcome.thrown v := by
  induction h with
  | here fuel e closure heap context v he =>
    refine ⟨?_, rfl⟩
    rw [Execute_Return]
    simp only [Return.Execute, he]
  | compound fuel pre s post closure heap context w v r hpre hs ih =>
    refine ⟨?_, ih.2⟩
    rw [Execute_Compound, Compound_Loop_append (Execute fuel) pre s post closure heap context w hpre]
    · exact ih.1
    · intro u hu
      rw [ih.1, ih.2] at hu
      cases hu
  | ifBody fuel condition_ if_body_ else_body_ closure heap context c v r hc ht hs ih =>
    refine ⟨?_, ih.2⟩
    rw [Execute_IfElse]
    simp only [IfElse.Execute, hc, ht, if_true]
    exact ih.1
  | elseBody fuel condition_ if_body_ else_body closure heap context c v r hc ht hs ih =>
    refine ⟨?_, ih.2⟩
    rw [Execute_IfElse]
    simp only [IfElse.Execute, hc, ht]
    exact ih.1

/-- C5. `Return` is a non-local exit caught by the nearest `MethodBody`. If the
execution of `b` reaches a `Return` whose statement has the value `v`, nested
at any depth inside `Compound` and `IfElse` nodes, then `b` itself ends with
the thrown value `v` (no `Compound` or `IfElse` turns it into a value: outside
a `MethodBody` it escapes), in the state `r` that the `Return` left (no
statement after it is executed), and `MethodBody(b)` yields `v` in that state;
if `b` ends normally, `MethodBody(b)` yields `None`. -/
theorem return_exits_method (fuel : Nat) (b : Statement) (closure : Closure) (heap : Heap)
    (context : Context) :
    (∀ v r, ReachesReturn fuel b closure heap context v r →
      Execute fuel b closure heap context = r ∧ r.outcome = Outcome.thrown v ∧
      Execute (fuel + 1) (Statement.MethodBody b) closure heap context =
        { r with outcome := Outcome.normal v }) ∧
    (∀ w, (Execute fuel b closure heap context).outcome = Outcome.normal w →
      Execute (fuel + 1) (Statement.MethodBody b) closure heap context =
        { Execute fuel b closure heap context with outcome := Outcome.normal none }) := by
  constructor
  · intro v r h
    obtain ⟨h1, h2⟩ := h.result
    refine ⟨h1, h2, ?_⟩
    rw [Execute_MethodBody]
    simp only [MethodBody.Execute, h1, h2]
  · intro w h
    rw [Execute_MethodBody]
    simp only [MethodBody.Execute, h]

/-- The theorem `return_exits_method` on a body whose `Return` stands in a
`Compound` inside an `IfElse` inside a `Compound`: the assignment after the
`IfElse` is not executed and the method body yields the number 1. -/
theorem return_exits_method_witness :
    ReachesReturn 5
        (Statement.Compound
          [Statement.IfElse (Statement.VariableValue "flag" [])
            (Statement.Compound [Statement.Return (Statement.VariableValue "one" [])]) none,
           Statement.Assignment "after" (Statement.VariableValue "one" [])])
        [("flag", some (Object.Bool true)), ("one", some (Object.Number 1))] {} {}
        (some (Object.Number 1))
        { outcome := Outcome.thrown (some (Object.Number 1)),
          closure := [("flag", some (Object.Bool true)), ("one", some (Object.Number 1))],
          heap := {}, context := {} } ∧
      Execute 6
        (Statement.MethodBody (Statement.Compound
          [Statement.IfElse (Statement.VariableValue "flag" [])
            (Statement.Compound [Statement.Return (Statement.VariableValue "one" [])]) none,
           Statement.Assignment "after" (Statement.VariableValue "one" [])]))
        [("flag", some (Object.Bool true)), ("one", some (Object.Number 1))] {} {} =
        { outcome := Outcome.normal (some (Object.Number 1)),
          closure := [("flag", some (Object.Bool true)), ("one", some (Object.Number 1))],
          heap := {}, context := {} } := by
  have hR : ReachesReturn 5
      (Statement.Compound
        [Statement.IfElse (Statement.VariableValue "flag" [])
          (Statement.Compound [Statement.Return (Statement.VariableValue "one" [])]) none,
         Statement.Assignment "after" (Statement.VariableValue "one" [])])
      [("flag", some (Object.Bool true)), ("one", some (Object.Number 1))] {} {}
      (some (Object.Number 1))
      { outcome := Outcome.thrown (some (Object.Number 1)),
        closure := [("flag", some (Object.Bool true)), ("one", some (Object.Number 1))],
        heap := {}, context := {} } :=
    ReachesReturn.compound 4 [] _ [Statement.Assignment "after" (Statement.VariableValue "one" [])]
      _ _ _ none _ _ rfl
      (ReachesReturn.ifBody 3 _ _ none _ _ _ (some (Object.Bool true)) _ _ rfl rfl
        (ReachesReturn.compound 2 [] _ [] _ _ _ none _ _ rfl
          (ReachesReturn.here 1 (Statement.VariableValue "one" []) _ _ _ _ rfl)))
  exact ⟨hR, ((return_exits_method 5 _ _ _ _).1 _ _ hR).2.2⟩

end ast

namespace runtime

/-! ## Method lookup -/

theorem find_if_first (comp : Method → Bool) (pre : List Method) (m : Method) (post : List Method)
    (hm : comp m = true) (hpre : ∀ x ∈ pre, comp x = false) :
    find_if comp (pre ++ m :: post) = some m := by
  induction pre with
  | nil => simp only [List.nil_append, find_if, hm, if_true]
  | cons a pre ih =>
    have ha : comp a = false := hpre a (List.mem_cons_self _ _)
    simp only [List.cons_append, find_if, ha]
    exact ih (fun x hx => hpre x (List.mem_cons_of_mem _ hx))

theorem find_if_none (comp : Method → Bool) (ms : List Method) :
    find_if comp ms = none ↔ ∀ x ∈ ms, comp x = false := by
  induction ms with
  | nil => simp [find_if]
  | cons a ms ih =>
    simp only [find_if, List.mem_cons, forall_eq_or_imp]
    cases h : comp a <;> simp [ih]

theorem find_if_some (comp : Method → Bool) (ms : List Method) (m : Method)
    (h : find_if comp ms = some m) :
    ∃ pre post, ms = pre ++ m :: post ∧ comp m = true ∧ ∀ x ∈ pre, comp x = false := by
  induction ms with
  | nil => cases h
  | cons a ms ih =>
    simp only [find_if] at h
    cases ha : comp a with
    | true =>
      simp only [ha, if_true, Option.some.injEq] at h
      subst h
      exact ⟨[], ms, rfl, ha, fun x hx => nomatch hx⟩
    | false =>
      simp only [ha] at h
      obtain ⟨pre, post, e, hm, hp⟩ := ih h
      refine ⟨a :: pre, post, by rw [e, List.cons_append], hm, ?_⟩
      intro x hx
      rcases List.mem_cons.1 hx with q | q
      · rw [q]; exact ha
      · exact hp x q

theorem GetMethod_eq (cls : Class) (name : String) :
    cls.GetMethod name =
      match find_if (fun m => m.name == name) cls.methods_ with
      | some m => some m
      | none => GetMethodOfParent cls.parent_ name := by
  cases cls with
  | mk name_ methods_ parent_ => rw [Class.GetMethod]; rfl

theorem chain_eq (cls : Class) : cls.chain = cls :: chainOfParent cls.parent_ := by
  cases cls with
  | mk name_ methods_ parent_ => rw [Class.chain]; rfl

theorem GetMethod_none_iff (n : Nat) : ∀ (cls : Class) (name : String), cls.chain.length ≤ n →
    (cls.GetMethod name = none ↔ ∀ c ∈ cls.chain, ∀ x ∈ c.methods_, x.name ≠ name) := by
  induction n with
  | zero =>
    intro cls name h
    rw [chain_eq] at h
    simp at h
  | succ n ih =>
    intro cls name h
    rw [GetMethod_eq, chain_eq]
    rw [chain_eq] at h
    have hown : find_if (fun m => m.name == name) cls.methods_ = none ↔
        ∀ x ∈ cls.methods_, x.name ≠ name := by
      rw [find_if_none]
      simp
    have hpar : GetMethodOfParent cls.parent_ name = none ↔
        ∀ c ∈ chainOfParent cls.parent_, ∀ x ∈ c.methods_, x.name ≠ name := by
      cases hp : cls.parent_ with
      | none => simp [GetMethodOfParent, chainOfParent]
      | some parent =>
        rw [GetMethodOfParent, chainOfParent]
        refine ih parent name ?_
        rw [hp, chainOfParent] at h
        simp only [List.length_cons] at h
        omega
    simp only [List.mem_cons, forall_eq_or_imp]
    cases hf : find_if (fun m => m.name == name) cls.methods_ with
    | none =>
      simp only
      rw [hpar]
      constructor
      · intro q
        exact ⟨hown.1 hf, q⟩
      · intro q
        exact q.2
    | some m =>
      simp only [false_iff, reduceCtorEq]
      intro hall
      rw [hown.2 hall.1] at hf
      cases hf

/-- C6. `Class::GetMethod(name)` returns the first method named `name` in the
method list of the class, in declaration order; if the class has none, it
returns what `GetMethod(name)` of the parent returns, and null without a
parent; it returns null exactly when no class of the chain defines a method
of that name. So a method of a child shadows the method of the same name of
the parent, and a class that does not define the name inherits it. -/
theorem GetMethod_lookup (cls : Class) (name : String) :
    (∀ pre m post, cls.methods_ = pre ++ m :: post → m.name = name →
      (∀ x ∈ pre, x.name ≠ name) → cls.GetMethod name = some m) ∧
    ((∀ x ∈ cls.methods_, x.name ≠ name) →
      cls.GetMethod name =
        match cls.parent_ with
        | some parent => parent.GetMethod name
        | none => none) ∧
    (cls.GetMethod name = none ↔ ∀ c ∈ cls.chain, ∀ x ∈ c.methods_, x.name ≠ name) := by
  refine ⟨?_, ?_, GetMethod_none_iff _ cls name (Nat.le_refl _)⟩
  · intro pre m post e hm hpre
    rw [GetMethod_eq, e, find_if_first _ pre m post (by simpa using hm)
      (fun x hx => by simpa using hpre x hx)]
  · intro hall
    rw [GetMethod_eq, (find_if_none _ _).2 (fun x hx => by simpa using hall x hx)]
    cases cls.parent_ <;> simp [GetMethodOfParent]

/-- The theorem `GetMethod_lookup` on a class `B` with parent `A`: `f` of `B`
shadows `f` of `A`, `g` is inherited, `h` is not found. -/
theorem GetMethod_lookup_witness :
    (Class.mk "B" [Method.mk "f" ["x"] (Statement.Compound [])]
        (some (Class.mk "A" [Method.mk "f" [] (Statement.Compound []),
          Method.mk "g" [] (Statement.Compound [])] none))).GetMethod "f" =
        some (Method.mk "f" ["x"] (Statement.Compound [])) ∧
      (Class.mk "B" [Method.mk "f" ["x"] (Statement.Compound [])]
        (some (Class.mk "A" [Method.mk "f" [] (Statement.Compound []),
          Method.mk "g" [] (Statement.Compound [])] none))).GetMethod "g" =
        (Class.mk "A" [Method.mk "f" [] (Statement.Compound []),
          Method.mk "g" [] (Statement.Compound [])] none).GetMethod "g" ∧
      (Class.mk "B" [Method.mk "f" ["x"] (Statement.Compound [])]
        (some (Class.mk "A" [Method.mk "f" [] (Statement.Compound []),
          Method.mk "g" [] (Statement.Compound [])] none))).GetMethod "h" = none :=
  ⟨(GetMethod_lookup _ "f").1 [] _ [] rfl rfl (fun _ h => nomatch h),
   (GetMethod_lookup _ "g").2.1 (by
      intro x hx
      have hx2 : x = Method.mk "f" ["x"] (Statement.Compound []) := by simpa [Class.methods_] using hx
      subst hx2
      decide),
   rfl⟩

/-! ## Calls -/

/-- C7. `ClassInstance::HasMethod(name, argc)` holds exactly when `GetMethod`
finds a method and that method has `argc` formal parameters;
`ClassInstance::Call` throws a runtime error without executing anything (the
result does not depend on `exec`, and heap and context are unchanged) when
`HasMethod(name, len(args))` is false, and otherwise executes the body of the
method `GetMethod(name)` returns, in the frame built for it. -/
theorem HasMethod_Call (exec : Exec) (address : Nat) (cls_ : Class) (method : String)
    (actual_args : List ObjectHolder) (heap : Heap) (context : Context) :
    (∀ argument_count, ClassInstance.HasMethod cls_ method argument_count = true ↔
      ∃ m, cls_.GetMethod method = some m ∧ m.formal_params.length = argument_count) ∧
    (ClassInstance.HasMethod cls_ method actual_args.length = false →
      ClassInstance.Call exec address cls_ method actual_args heap context =
        { outcome := Outcome.runtime_error "Method not found", heap := heap,
          context := context }) ∧
    (ClassInstance.HasMethod cls_ method actual_args.length = true →
      ∃ m, cls_.GetMethod method = some m ∧
        ClassInstance.Call exec address cls_ method actual_args heap context =
          { outcome :=
              (exec m.body (ClassInstance.frame address cls_ m actual_args) heap context).outcome,
            heap := (exec m.body (ClassInstance.frame address cls_ m actual_args) heap context).heap,
            context :=
              (exec m.body (ClassInstance.frame address cls_ m actual_args) heap
                context).context }) := by
  refine ⟨?_, ?_, ?_⟩
  · intro argument_count
    unfold ClassInstance.HasMethod
    cases cls_.GetMethod method with
    | none => simp
    | some m => simp
  · intro h
    unfold ClassInstance.Call
    rw [h]
    rfl
  · intro h
    unfold ClassInstance.Call
    rw [h]
    unfold ClassInstance.HasMethod at h
    cases hm : cls_.GetMethod method with
    | none => rw [hm] at h; cases h
    | some m => exact ⟨m, rfl, rfl⟩

/-- The theorem `HasMethod_Call` on a call with no argument of a method that has
one parameter: the call is refused. -/
theorem HasMethod_Call_witness :
    ClassInstance.HasMethod (Class.mk "A" [Method.mk "f" ["x"] (Statement.Compound [])] none)
        "f" ([] : List ObjectHolder).length = false ∧
      ClassInstance.Call (ast.Execute 3) 0
          (Class.mk "A" [Method.mk "f" ["x"] (Statement.Compound [])] none) "f" [] {} {} =
        { outcome := Outcome.runtime_error "Method not found", heap := {}, context := {} } :=
  ⟨rfl, (HasMethod_Call (ast.Execute 3) 0 _ "f" [] {} {}).2.1 rfl⟩

theorem assign_absent (closure : Closure) (name : String) (value : ObjectHolder)
    (h : ∀ e ∈ closure, e.1 ≠ name) : closure.assign name value = closure ++ [(name, value)] := by
  induction closure with
  | nil => rfl
  | cons e closure ih =>
    obtain ⟨k, v⟩ := e
    have hk : k ≠ name := h (k, v) (List.mem_cons_self _ _)
    simp only [Closure.assign, hk, if_false, List.cons_append]
    rw [ih (fun e he => h e (List.mem_cons_of_mem _ he))]

theorem bindParams_fresh : ∀ (params : List String) (args : List ObjectHolder) (closure : Closure),
    params.length = args.length → params.Nodup → (∀ e ∈ closure, e.1 ∉ params) →
    bindParams params args closure = closure ++ List.zip params args := by
  intro params
  induction params with
  | nil =>
    intro args closure hl _ _
    cases args with
    | nil => simp [bindParams]
    | cons a args => cases hl
  | cons p params ih =>
    intro args closure hl hn hc
    cases args with
    | nil => cases hl
    | cons a args =>
      have hn2 := List.nodup_cons.1 hn
      simp only [bindParams, List.zip_cons_cons]
      rw [assign_absent closure p a (fun e he q => hc e he (q ▸ List.mem_cons_self _ _)),
        ih args _ (by simpa using hl) hn2.2]
      · simp
      · intro e he
        rcases List.mem_append.1 he with q | q
        · exact fun hp => hc e q (List.mem_cons_of_mem _ hp)
        · simp only [List.mem_singleton] at q
          rw [q]
          exact hn2.1

theorem find_assign (closure : Closure) (name : String) (value : ObjectHolder) (k : String) :
    (closure.assign name value).find k = if name = k then some value else closure.find k := by
  induction closure with
  | nil => simp [Closure.assign, Closure.find]
  | cons e closure ih =>
    obtain ⟨k2, v2⟩ := e
    by_cases h : k2 = name
    · subst h
      by_cases h2 : k2 = k
      · simp [Closure.assign, Closure.find, h2]
      · simp [Closure.assign, Closure.find, h2]
    · by_cases h2 : k2 = k
      · subst h2
        have h3 : ¬ name = k2 := fun q => h q.symm
        simp [Closure.assign, Closure.find, h, h3]
      · simp [Closure.assign, Closure.find, h, h2, ih]

theorem find_bindParams : ∀ (params : List String) (args : List ObjectHolder) (closure : Closure)
    (k : String),
    (bindParams params args closure).find k =
      match lastBinding (List.zip params args) k with
      | some w => some w
      | none => closure.find k := by
  intro params
  induction params with
  | nil => intro args closure k; simp [bindParams, lastBinding]
  | cons p params ih =>
    intro args closure k
    cases args with
    | nil => simp [bindParams, lastBinding]
    | cons a args =>
      have e1 : bindParams (p :: params) (a :: args) closure =
          bindParams params args (closure.assign p a) := rfl
      have e2 : lastBinding (List.zip (p :: params) (a :: args)) k =
          match lastBinding (List.zip params args) k with
          | some w => some w
          | none => if p = k then some a else none := rfl
      rw [e1, e2, ih args _ k, find_assign]
      cases lastBinding (List.zip params args) k with
      | some w => rfl
      | none =>
        by_cases h : p = k
        · simp [h]
        · simp [h]

theorem find_frame (address : Nat) (cls_ : Class) (m : Method) (args : List ObjectHolder)
    (k : String) :
    (ClassInstance.frame address cls_ m args).find k =
      lastBinding (("self", some (Object.ClassInstance address cls_)) ::
        List.zip m.formal_params args) k := by
  unfold ClassInstance.frame
  rw [find_bindParams]
  simp only [lastBinding, Closure.assign, Closure.find]

end runtime

namespace ast

open runtime

/-- C8, the claim fails. A method `f` whose one formal parameter is named
`self`, called with the number 1: the frame `ClassInstance::Call` builds holds
the one binding of `self` to the number 1, not to the receiver, and the body
`return self` returns the number 1. -/
theorem frame_self_parameter_counterexample :
    ClassInstance.frame 0
        (Class.mk "A" [Method.mk "f" ["self"]
          (Statement.MethodBody (Statement.Return (Statement.VariableValue "self" [])))] none)
        (Method.mk "f" ["self"]
          (Statement.MethodBody (Statement.Return (Statement.VariableValue "self" []))))
        [some (Object.Number 1)] =
      [("self", some (Object.Number 1))] ∧
    Execute 5
        (Statement.MethodCall (Statement.VariableValue "obj" []) "f"
          [Statement.VariableValue "one" []])
        [("obj", some (Object.ClassInstance 0 (Class.mk "A" [Method.mk "f" ["self"]
            (Statement.MethodBody (Statement.Return (Statement.VariableValue "self" [])))]
            none))),
         ("one", some (Object.Number 1))] {} {} =
      { outcome := Outcome.normal (some (Object.Number 1)),
        closure :=
          [("obj", some (Object.ClassInstance 0 (Class.mk "A" [Method.mk "f" ["self"]
              (Statement.MethodBody (Statement.Return (Statement.VariableValue "self" [])))]
              none))),
           ("one", some (Object.Number 1))],
        heap := {}, context := {} } :=
  ⟨rfl, rfl⟩

/-- C8, amended. Method frames are independent of the frame of the caller. When
the receiver of a `MethodCall` evaluates to an instance, the arguments evaluate
normally to `args` and `GetMethod` finds a method `m` with as many formal
parameters, the result and the effects of the call are those of the body of
`m` executed in the frame `ClassInstance::Call` builds, which holds nothing of
the closure of the caller: when the names of the formal parameters are
distinct and none of them is `self`, it holds exactly `self` bound to the
receiver and each formal parameter bound to its argument. The closure of the
caller is left as it was after the receiver and the arguments were evaluated.
(Whatever the names are, the frame gives a name the last of its bindings in
the sequence `self`, then the formal parameters in order.) -/
theorem method_frame_independent (fuel : Nat) (object_ : Statement) (method_ : String)
    (args_ : List Statement) (closure : Closure) (heap : Heap) (context : Context)
    (address : Nat) (cls_ : runtime.Class) (args : List ObjectHolder) (m : Method)
    (hobj : (Execute fuel object_ closure heap context).outcome =
      Outcome.normal (some (Object.ClassInstance address cls_)))
    (hargs : (evaluatedCall fuel object_ args_ closure heap context).outcome =
      Outcome.normal args)
    (hm : cls_.GetMethod method_ = some m) (hlen : m.formal_params.length = args.length) :
    Execute (fuel + 1) (Statement.MethodCall object_ method_ args_) closure heap context =
      { outcome := (Execute fuel m.body (ClassInstance.frame address cls_ m args)
          (evaluatedCall fuel object_ args_ closure heap context).heap
          (evaluatedCall fuel object_ args_ closure heap context).context).outcome,
        closure := (evaluatedCall fuel object_ args_ closure heap context).closure,
        heap := (Execute fuel m.body (ClassInstance.frame address cls_ m args)
          (evaluatedCall fuel object_ args_ closure heap context).heap
          (evaluatedCall fuel object_ args_ closure heap context).context).heap,
        context := (Execute fuel m.body (ClassInstance.frame address cls_ m args)
          (evaluatedCall fuel object_ args_ closure heap context).heap
          (evaluatedCall fuel object_ args_ closure heap context).context).context } ∧
    (("self" :: m.formal_params).Nodup →
      ClassInstance.frame address cls_ m args =
        ("self", some (Object.ClassInstance address cls_)) :: List.zip m.formal_params args) ∧
    (∀ name : String,
      (ClassInstance.frame address cls_ m args).find name =
        lastBinding (("self", some (Object.ClassInstance address cls_)) ::
          List.zip m.formal_params args) name) := by
  refine ⟨?_, ?_, find_frame address cls_ m args⟩
  · have hh : ClassInstance.HasMethod cls_ method_ args.length = true := by
      unfold ClassInstance.HasMethod
      rw [hm]
      simpa using hlen
    unfold evaluatedCall at hargs ⊢
    show MethodCall.Execute (Execute fuel) object_ method_ args_ closure heap context = _
    unfold MethodCall.Execute
    simp only [hobj, hargs]
    unfold ClassInstance.Call
    rw [hh]
    simp only [hm, if_true]
  · intro hn
    have hn2 := List.nodup_cons.1 hn
    unfold ClassInstance.frame
    rw [bindParams_fresh _ _ _ hlen hn2.2]
    · rfl
    · intro e he
      simp only [Closure.assign, List.mem_singleton] at he
      rw [he]
      exact hn2.1

/-- The theorem `method_frame_independent` on a method that assigns the local
name `t`: the closure of the caller does not get `t`, and the frame holds
`self` and `v`. -/
theorem method_frame_independent_witness :
    Execute 5
        (Statement.MethodCall (Statement.VariableValue "obj" []) "set"
          [Statement.VariableValue "one" []])
        [("obj", some (Object.ClassInstance 0 (Class.mk "A" [Method.mk "set" ["v"]
            (Statement.MethodBody (Statement.Compound
              [Statement.Assignment "t" (Statement.VariableValue "v" []),
               Statement.Return (Statement.VariableValue "t" [])]))] none))),
         ("one", some (Object.Number 1))] {} {} =
      { outcome := Outcome.normal (some (Object.Number 1)),
        closure :=
          [("obj", some (Object.ClassInstance 0 (Class.mk "A" [Method.mk "set" ["v"]
              (Statement.MethodBody (Statement.Compound
                [Statement.Assignment "t" (Statement.VariableValue "v" []),
                 Statement.Return (Statement.VariableValue "t" [])]))] none))),
           ("one", some (Object.Number 1))],
        heap := {}, context := {} } ∧
      ClassInstance.frame 0 (Class.mk "A" [Method.mk "set" ["v"]
            (Statement.MethodBody (Statement.Compound
              [Statement.Assignment "t" (Statement.VariableValue "v" []),
               Statement.Return (Statement.VariableValue "t" [])]))] none)
          (Method.mk "set" ["v"]
            (Statement.MethodBody (Statement.Compound
              [Statement.Assignment "t" (Statement.VariableValue "v" []),
               Statement.Return (Statement.VariableValue "t" [])])))
          [some (Object.Number 1)] =
        [("self", some (Object.ClassInstance 0 (Class.mk "A" [Method.mk "set" ["v"]
            (Statement.MethodBody (Statement.Compound
              [Statement.Assignment "t" (Statement.VariableValue "v" []),
               Statement.Return (Statement.VariableValue "t" [])]))] none))),
         ("v", some (Object.Number 1))] := by
  have h := method_frame_independent 4 (Statement.VariableValue "obj" []) "set"
    [Statement.VariableValue "one" []]
    [("obj", some (Object.ClassInstance 0 (Class.mk "A" [Method.mk "set" ["v"]
        (Statement.MethodBody (Statement.Compound
          [Statement.Assignment "t" (Statement.VariableValue "v" []),
           Statement.Return (Statement.VariableValue "t" [])]))] none))),
     ("one", some (Object.Number 1))] {} {} 0 _ [some (Object.Number 1)]
    (Method.mk "set" ["v"]
      (Statement.MethodBody (Statement.Compound
        [Statement.Assignment "t" (Statement.VariableValue "v" []),
         Statement.Return (Statement.VariableValue "t" [])])))
    rfl rfl rfl rfl
  exact ⟨h.1, h.2.1 (by decide)⟩

/-- C9, at the failing input. `VariableValue(["x", "y"])` in a closure that
binds `x` to the number 1 ends normally with the number 1: the remaining
name `y` is dropped and no error is raised. -/
theorem VariableValue_non_instance :
    Execute 1 (Statement.VariableValue "x" ["y"]) [("x", some (Object.Number 1))] {} {} =
      { outcome := Outcome.normal (some (Object.Number 1)),
        closure := [("x", some (Object.Number 1))], heap := {}, context := {} } :=
  rfl

/-- C10, at the failing input. The method `make` of `Factory` returns `A()`;
after `f = Factory()`, `a = f.make()`, `a.x = one`, `b = f.make()`, `r = b.x`
the names `a` and `b` hold the same instance (the member of the one
`NewInstance` node, at address 1), and the field `x` assigned through `a` is
present on the instance the second execution returned: `r` is the number 1. -/
theorem NewInstance_same_instance :
    (Execute 6
        (Statement.Compound
          [Statement.Assignment "f"
            (Statement.NewInstance 2
              (Class.mk "Factory" [Method.mk "make" []
                (Statement.MethodBody
                  (Statement.Return (Statement.NewInstance 1 (Class.mk "A" [] none) [])))] none)
              []),
           Statement.Assignment "a"
            (Statement.MethodCall (Statement.VariableValue "f" []) "make" []),
           Statement.FieldAssignment "a" [] "x" (Statement.VariableValue "one" []),
           Statement.Assignment "b"
            (Statement.MethodCall (Statement.VariableValue "f" []) "make" []),
           Statement.Assignment "r" (Statement.VariableValue "b" ["x"])])
        [("one", some (Object.Number 1))] {} {}).closure.find "a" =
        some (some (Object.ClassInstance 1 (Class.mk "A" [] none))) ∧
      (Execute 6
        (Statement.Compound
          [Statement.Assignment "f"
            (Statement.NewInstance 2
              (Class.mk "Factory" [Method.mk "make" []
                (Statement.MethodBody
                  (Statement.Return (Statement.NewInstance 1 (Class.mk "A" [] none) [])))] none)
              []),
           Statement.Assignment "a"
            (Statement.MethodCall (Statement.VariableValue "f" []) "make" []),
           Statement.FieldAssignment "a" [] "x" (Statement.VariableValue "one" []),
           Statement.Assignment "b"
            (Statement.MethodCall (Statement.VariableValue "f" []) "make" []),
           Statement.Assignment "r" (Statement.VariableValue "b" ["x"])])
        [("one", some (Object.Number 1))] {} {}).closure.find "b" =
        some (some (Object.ClassInstance 1 (Class.mk "A" [] none))) ∧
      (Execute 6
        (Statement.Compound
          [Statement.Assignment "f"
            (Statement.NewInstance 2
              (Class.mk "Factory" [Method.mk "make" []
                (Statement.MethodBody
                  (Statement.Return (Statement.NewInstance 1 (Class.mk "A" [] none) [])))] none)
              []),
           Statement.Assignment "a"
            (Statement.MethodCall (Statement.VariableValue "f" []) "make" []),
           Statement.FieldAssignment "a" [] "x" (Statement.VariableValue "one" []),
           Statement.Assignment "b"
            (Statement.MethodCall (Statement.VariableValue "f" []) "make" []),
           Statement.Assignment "r" (Statement.VariableValue "b" ["x"])])
        [("one", some (Object.Number 1))] {} {}).closure.find "r" =
        some (some (Object.Number 1)) :=
  ⟨rfl, rfl, rfl⟩

end ast

namespace runtime

/-! ## Truthiness -/

/-- C18. `IsTrue` agrees with the truthiness table on every holder: the null
holder is false, `Bool(b)` is `b`, `Number(n)` is true exactly when `n` is not
0, `String(s)` is true exactly when `s` is not empty, and every `Class` and
every `ClassInstance` is false. -/
theorem IsTrue_table :
    IsTrue none = false ∧
    (∀ b : Bool, IsTrue (some (Object.Bool b)) = b) ∧
    (∀ n : Int, IsTrue (some (Object.Number n)) = true ↔ n ≠ 0) ∧
    (∀ s : String, IsTrue (some (Object.String s)) = true ↔ s ≠ "") ∧
    (∀ cls : Class, IsTrue (some (Object.Class cls)) = false) ∧
    (∀ (address : Nat) (cls_ : Class),
      IsTrue (some (Object.ClassInstance address cls_)) = false) := by
  refine ⟨rfl, fun _ => rfl, ?_, ?_, fun _ => rfl, fun _ _ => rfl⟩
  · intro n
    simp [IsTrue]
  · intro s
    simp only [IsTrue, Bool.not_eq_true', ne_eq]
    rw [← Bool.not_eq_true, String.isEmpty_iff]

/-! ## Comparison -/

theorem Char_lt_iff_toNat (a b : Char) : a < b ↔ a.toNat < b.toNat := by
  rw [Char.lt_def]
  exact Iff.rfl

theorem Char_eq_of_toNat (a b : Char) (h1 : ¬ a.toNat < b.toNat) (h2 : ¬ b.toNat < a.toNat) :
    a = b := by
  apply Char.ext
  apply UInt32.ext
  show a.toNat = b.toNat
  omega

theorem Lex_iff_lexicographicLess : ∀ (l r : List Char),
    List.Lex (fun x1 x2 => x1 < x2) l r ↔ lexicographicLess l r = true := by
  intro l
  induction l with
  | nil =>
    intro r
    cases r with
    | nil =>
      simp only [lexicographicLess, Bool.false_eq_true, iff_false]
      intro h
      cases h
    | cons b bs =>
      simp only [lexicographicLess, iff_true]
      exact List.Lex.nil
  | cons a as ih =>
    intro r
    cases r with
    | nil =>
      simp only [lexicographicLess, Bool.false_eq_true, iff_false]
      intro h
      cases h
    | cons b bs =>
      simp only [lexicographicLess]
      constructor
      · intro h
        cases h with
        | rel hab =>
          rw [if_pos ((Char_lt_iff_toNat a b).1 hab)]
        | cons h3 =>
          rw [if_neg (Nat.lt_irrefl _), if_neg (Nat.lt_irrefl _)]
          exact (ih bs).1 h3
      · intro h
        by_cases h1 : a.toNat < b.toNat
        · exact List.Lex.rel ((Char_lt_iff_toNat a b).2 h1)
        · rw [if_neg h1] at h
          by_cases h2 : b.toNat < a.toNat
          · rw [if_pos h2] at h
            cases h
          · rw [if_neg h2] at h
            have e := Char_eq_of_toNat a b h1 h2
            subst e
            exact List.Lex.cons ((ih bs).2 h)

/-- The order `<` of the strings of the model is the lexicographic order of the
codes of their characters. -/
theorem String_lt_lexicographicLess (s t : String) :
    decide (s < t) = lexicographicLess s.data t.data := by
  by_cases h : s < t
  · rw [decide_eq_true h]
    exact ((Lex_iff_lexicographicLess _ _).1 (String.lt_iff_toList_lt.1 h)).symm
  · rw [decide_eq_false h]
    cases hl : lexicographicLess s.data t.data with
    | false => rfl
    | true =>
      exact absurd (String.lt_iff_toList_lt.2 ((Lex_iff_lexicographicLess _ _).2 hl)) h

/-- C13. For operands that are not instances `Equal` and `Less` are scalar
comparisons with a check of the kinds. On two `Bool`, two `Number` or two
`String` values `Equal` is the equality of the wrapped values and `Less` is
their strict order: false before true for `Bool`, the order of the integers
for `Number`, the lexicographic order of the character codes for `String`.
When the left operand is a scalar and the right operand is of another kind
(another scalar kind, null, a class or an instance), and when the left operand
is a class, both raise a runtime error; heap and context are unchanged. -/
theorem scalar_comparison (exec : Exec) (heap : Heap) (context : Context) :
    (∀ a b : Bool,
      Equal exec (some (Object.Bool a)) (some (Object.Bool b)) heap context =
        { outcome := Outcome.normal (decide (a = b)), heap := heap, context := context } ∧
      Less exec (some (Object.Bool a)) (some (Object.Bool b)) heap context =
        { outcome := Outcome.normal (!a && b), heap := heap, context := context }) ∧
    (∀ a b : Int,
      Equal exec (some (Object.Number a)) (some (Object.Number b)) heap context =
        { outcome := Outcome.normal (decide (a = b)), heap := heap, context := context } ∧
      Less exec (some (Object.Number a)) (some (Object.Number b)) heap context =
        { outcome := Outcome.normal (decide (a < b)), heap := heap, context := context }) ∧
    (∀ s t : String,
      Equal exec (some (Object.String s)) (some (Object.String t)) heap context =
        { outcome := Outcome.normal (decide (s = t)), heap := heap, context := context } ∧
      Less exec (some (Object.String s)) (some (Object.String t)) heap context =
        { outcome := Outcome.normal (lexicographicLess s.data t.data), heap := heap,
          context := context }) ∧
    (∀ lhs rhs : ObjectHolder, (kindOf lhs).scalar = true → kindOf rhs ≠ kindOf lhs →
      Equal exec lhs rhs heap context =
        { outcome := Outcome.runtime_error "Different types of compared objects", heap := heap,
          context := context } ∧
      Less exec lhs rhs heap context =
        { outcome := Outcome.runtime_error "Different types of compared objects", heap := heap,
          context := context }) ∧
    (∀ (cls : Class) (rhs : ObjectHolder),
      Equal exec (some (Object.Class cls)) rhs heap context =
        { outcome := Outcome.runtime_error "Comparation error", heap := heap,
          context := context } ∧
      Less exec (some (Object.Class cls)) rhs heap context =
        { outcome := Outcome.runtime_error "Comparation error", heap := heap,
          context := context }) := by
  refine ⟨?_, ?_, ?_, ?_, ?_⟩
  · intro a b
    constructor
    · cases a <;> cases b <;> rfl
    · cases a <;> cases b <;> rfl
  · intro a b
    have hb : (a == b) = decide (a = b) := by by_cases h : a = b <;> simp [h]
    constructor
    · simp only [Equal, CompareValueObjectsEq, compareEffect, hb]
    · rfl
  · intro s t
    have hb : (s == t) = decide (s = t) := by by_cases h : s = t <;> simp [h]
    constructor
    · simp only [Equal, CompareValueObjectsEq, compareEffect, hb]
    · simp only [Less, CompareValueObjectsLe, compareEffect, String_lt_lexicographicLess]
  · intro lhs rhs hs hk
    rcases lhs with _ | l
    · cases hs
    · cases l with
      | Number a =>
        rcases rhs with _ | r
        · exact ⟨rfl, rfl⟩
        · cases r <;> first | exact absurd rfl hk | exact ⟨rfl, rfl⟩
      | String a =>
        rcases rhs with _ | r
        · exact ⟨rfl, rfl⟩
        · cases r <;> first | exact absurd rfl hk | exact ⟨rfl, rfl⟩
      | Bool a =>
        rcases rhs with _ | r
        · exact ⟨rfl, rfl⟩
        · cases r <;> first | exact absurd rfl hk | exact ⟨rfl, rfl⟩
      | Class c => cases hs
      | ClassInstance address c => cases hs
  · intro cls rhs
    rcases rhs with _ | r
    · exact ⟨rfl, rfl⟩
    · cases r <;> exact ⟨rfl, rfl⟩

/-- The theorem `scalar_comparison` on the strings `ab` and `b` (the first is
less) and on the number 1 with the string `1` (a runtime error). -/
theorem scalar_comparison_witness :
    Less (ast.Execute 1) (some (Object.String "ab")) (some (Object.String "b")) {} {} =
        { outcome := Outcome.normal true, heap := {}, context := {} } ∧
      Equal (ast.Execute 1) (some (Object.Number 1)) (some (Object.String "1")) {} {} =
        { outcome := Outcome.runtime_error "Different types of compared objects", heap := {},
          context := {} } :=
  ⟨((scalar_comparison (ast.Execute 1) {} {}).2.2.1 "ab" "b").2,
   ((scalar_comparison (ast.Execute 1) {} {}).2.2.2.1 (some (Object.Number 1))
      (some (Object.String "1")) rfl (by decide)).1⟩

/-- C14. On two numbers `a` and `b` none of the six comparators raises: `Less`,
`Equal` and `Greater` return the truth values of `a < b`, `a = b` and `b < a`,
exactly one of which is true; `NotEqual` returns the negation of `Equal`,
`GreaterOrEqual` the negation of `Less`, and `LessOrEqual` the disjunction of
`Less` and `Equal`; heap and context are unchanged. -/
theorem number_comparators (exec : Exec) (a b : Int) (heap : Heap) (context : Context) :
    ∃ lt eq gt : Bool,
      Less exec (some (Object.Number a)) (some (Object.Number b)) heap context =
        { outcome := Outcome.normal lt, heap := heap, context := context } ∧
      Equal exec (some (Object.Number a)) (some (Object.Number b)) heap context =
        { outcome := Outcome.normal eq, heap := heap, context := context } ∧
      Greater exec (some (Object.Number a)) (some (Object.Number b)) heap context =
        { outcome := Outcome.normal gt, heap := heap, context := context } ∧
      NotEqual exec (some (Object.Number a)) (some (Object.Number b)) heap context =
        { outcome := Outcome.normal (!eq), heap := heap, context := context } ∧
      GreaterOrEqual exec (some (Object.Number a)) (some (Object.Number b)) heap context =
        { outcome := Outcome.normal (!lt), heap := heap, context := context } ∧
      LessOrEqual exec (some (Object.Number a)) (some (Object.Number b)) heap context =
        { outcome := Outcome.normal (lt || eq), heap := heap, context := context } ∧
      (lt = true ↔ a < b) ∧ (eq = true ↔ a = b) ∧ (gt = true ↔ b < a) ∧
      ((lt = true ∧ eq = false ∧ gt = false) ∨ (lt = false ∧ eq = true ∧ gt = false) ∨
        (lt = false ∧ eq = false ∧ gt = true)) := by
  have hb : (a == b) = decide (a = b) := by by_cases h : a = b <;> simp [h]
  have hE : Equal exec (some (Object.Number a)) (some (Object.Number b)) heap context =
      { outcome := Outcome.normal (decide (a = b)), heap := heap, context := context } := by
    simp only [Equal, CompareValueObjectsEq, compareEffect, hb]
  have hL : Less exec (some (Object.Number a)) (some (Object.Number b)) heap context =
      { outcome := Outcome.normal (decide (a < b)), heap := heap, context := context } := rfl
  refine ⟨decide (a < b), decide (a = b), decide (b < a), hL, hE, ?_, ?_, ?_, ?_, ?_, ?_, ?_, ?_⟩
  · unfold Greater
    rw [hL]
    by_cases h : a < b
    · have h2 : ¬ b < a := by omega
      simp [h, h2]
    · simp only [h, decide_False]
      rw [hE]
      by_cases h3 : a = b
      · have h2 : ¬ b < a := by omega
        simp [Effect.not, h3, h2]
      · have h2 : b < a := by omega
        simp [Effect.not, h3, h2]
  · unfold NotEqual
    rw [hE]
    rfl
  · unfold GreaterOrEqual
    rw [hL]
    rfl
  · unfold LessOrEqual
    rw [hL]
    by_cases h : a < b
    · simp [h]
    · simp only [h, decide_False, Bool.false_or]
      rw [hE]
  · simp
  · simp
  · simp
  · simp only [decide_eq_true_eq, decide_eq_false_iff_not]
    omega

/-! ## Division -/

theorem truncatedQuotient_natCast (m n : Nat) :
    truncatedQuotient (m : Int) (n : Int) = ((m / n : Nat) : Int) := by
  unfold truncatedQuotient
  simp only [Int.natAbs_ofNat]
  rcases Nat.eq_zero_or_pos m with hm | hm
  · subst hm
    simp
  · rcases Nat.eq_zero_or_pos n with hn | hn
    · subst hn
      simp
    · rw [Int.sign_eq_one_of_pos (by exact_mod_cast hm),
        Int.sign_eq_one_of_pos (by exact_mod_cast hn)]
      simp

theorem truncatedQuotient_neg_left (a b : Int) :
    truncatedQuotient (-a) b = -truncatedQuotient a b := by
  unfold truncatedQuotient
  rw [Int.sign_neg, Int.natAbs_neg]
  ring

theorem truncatedQuotient_neg_right (a b : Int) :
    truncatedQuotient a (-b) = -truncatedQuotient a b := by
  unfold truncatedQuotient
  rw [Int.sign_neg, Int.natAbs_neg]
  ring

/-- The quotient `/` of two `int` values of the source, `Int.tdiv` in the model,
is the quotient truncated toward zero. -/
theorem tdiv_eq_truncatedQuotient (a b : Int) : Int.tdiv a b = truncatedQuotient a b := by
  rcases Int.eq_nat_or_neg a with ⟨m, rfl | rfl⟩ <;>
    rcases Int.eq_nat_or_neg b with ⟨n, rfl | rfl⟩
  · rw [truncatedQuotient_natCast]
    rfl
  · rw [truncatedQuotient_neg_right, truncatedQuotient_natCast, Int.tdiv_neg]
    rfl
  · rw [truncatedQuotient_neg_left, truncatedQuotient_natCast, Int.neg_tdiv]
    rfl
  · rw [truncatedQuotient_neg_left, truncatedQuotient_neg_right, truncatedQuotient_natCast,
      Int.neg_tdiv, Int.tdiv_neg]
    rfl

/-- The quotient of two integers of a signed range `-P ≤ x < P` lies in the
range again, except for the quotient of `-P` by `-1`: that is the one
division whose result the `int` of the source cannot hold. -/
theorem truncatedQuotient_in_range (P a b : Int) (ha1 : -P ≤ a) (ha2 : a < P) (hb : b ≠ 0)
    (hex : ¬ (a = -P ∧ b = -1)) :
    -P ≤ truncatedQuotient a b ∧ truncatedQuotient a b < P := by
  rw [← tdiv_eq_truncatedQuotient]
  have hq : (a.tdiv b).natAbs = a.natAbs / b.natAbs := Int.natAbs_tdiv a b
  have hle : a.natAbs / b.natAbs ≤ a.natAbs := Nat.div_le_self _ _
  have hbpos : 0 < b.natAbs := Int.natAbs_pos.2 hb
  by_cases h1 : b.natAbs = 1
  · have hb2 : b = 1 ∨ b = -1 := by omega
    rcases hb2 with hb2 | hb2
    · subst hb2
      rw [Int.tdiv_one]
      omega
    · subst hb2
      rw [Int.tdiv_neg, Int.tdiv_one]
      have : a ≠ -P := fun q => hex ⟨q, rfl⟩
      omega
  · by_cases h0 : a.natAbs = 0
    · have : a = 0 := by omega
      subst this
      rw [Int.zero_tdiv]
      omega
    · have hlt : a.natAbs / b.natAbs < a.natAbs :=
        Nat.div_lt_self (by omega) (by omega)
      omega

/-! ## Printing an instance -/

/-- C20. Printing an instance whose class chain resolves `__str__` to a method
without formal parameters, in the own class or in an ancestor. When the call
of `__str__` returns an object, the instance prints as that object prints, in
the state the call left: the text is the printed form of the returned value
and nothing else. When the call returns `None`, `ClassInstance::Print` calls
`Print` through the null pointer: the behaviour is undefined, where the
printed form of `None` is expected. -/
theorem ClassInstance_Print_str (exec : Exec) (depth : Nat) (address : Nat) (cls_ : Class)
    (heap : Heap) (context : Context) (m : Method)
    (hm : cls_.GetMethod "__str__" = some m) (hp : m.formal_params.length = 0) :
    (∀ object2 : Object,
      (ClassInstance.Call exec address cls_ "__str__" [] heap context).outcome =
        Outcome.normal (some object2) →
      Object.Print exec (depth + 1) (Object.ClassInstance address cls_) heap context =
        Object.Print exec depth object2
          (ClassInstance.Call exec address cls_ "__str__" [] heap context).heap
          (ClassInstance.Call exec address cls_ "__str__" [] heap context).context) ∧
    ((ClassInstance.Call exec address cls_ "__str__" [] heap context).outcome =
        Outcome.normal none →
      Object.Print exec (depth + 1) (Object.ClassInstance address cls_) heap context =
        { outcome := Outcome.undefined,
          heap := (ClassInstance.Call exec address cls_ "__str__" [] heap context).heap,
          context :=
            (ClassInstance.Call exec address cls_ "__str__" [] heap context).context }) := by
  have hh : ClassInstance.HasMethod cls_ "__str__" 0 = true := by
    unfold ClassInstance.HasMethod
    rw [hm]
    simpa using hp
  constructor
  · intro object2 hc
    rw [Object.Print]
    simp only [hh, if_true, hc]
  · intro hc
    rw [Object.Print]
    simp only [hh, if_true, hc]

/-- The theorem `ClassInstance_Print_str` on an instance of `B`, whose parent
`A` defines `__str__` as `return self.text`, with the field `text` holding the
string `hi`: it prints as `hi`; and on an instance of a class whose `__str__`
has an empty body, so that the call returns `None`: the behaviour is
undefined. -/
theorem ClassInstance_Print_str_witness :
    Object.Print (ast.Execute 4) 2
        (Object.ClassInstance 0 (Class.mk "B" []
          (some (Class.mk "A" [Method.mk "__str__" []
            (Statement.MethodBody (Statement.Return (Statement.VariableValue "self" ["text"])))]
            none))))
        { fields_ := [(0, [("text", some (Object.String "hi"))])] } {} =
      { outcome := Outcome.normal "hi",
        heap := { fields_ := [(0, [("text", some (Object.String "hi"))])] }, context := {} } ∧
    Object.Print (ast.Execute 4) 2
        (Object.ClassInstance 0 (Class.mk "A" [Method.mk "__str__" []
          (Statement.MethodBody (Statement.Compound []))] none)) {} {} =
      { outcome := Outcome.undefined, heap := {}, context := {} } :=
  ⟨(ClassInstance_Print_str (ast.Execute 4) 1 0
      (Class.mk "B" []
        (some (Class.mk "A" [Method.mk "__str__" []
          (Statement.MethodBody (Statement.Return (Statement.VariableValue "self" ["text"])))]
          none)))
      { fields_ := [(0, [("text", some (Object.String "hi"))])] } {}
      (Method.mk "__str__" []
        (Statement.MethodBody (Statement.Return (Statement.VariableValue "self" ["text"]))))
      rfl rfl).1 (Object.String "hi") rfl,
   (ClassInstance_Print_str (ast.Execute 4) 1 0
      (Class.mk "A" [Method.mk "__str__" [] (Statement.MethodBody (Statement.Compound []))] none)
      {} {} (Method.mk "__str__" [] (Statement.MethodBody (Statement.Compound []))) rfl rfl).2
      rfl⟩

end runtime

namespace ast

open runtime

/-! ## Arithmetic -/

theorem Execute_Add (fuel : Nat) (lhs_ rhs_ : Statement) (closure : Closure) (heap : Heap)
    (context : Context) :
    Execute (fuel + 1) (Statement.Add lhs_ rhs_) closure heap context =
      Add.Execute (Execute fuel) lhs_ rhs_ closure heap context := rfl

theorem Execute_Div (fuel : Nat) (lhs_ rhs_ : Statement) (closure : Closure) (heap : Heap)
    (context : Context) :
    Execute (fuel + 1) (Statement.Div lhs_ rhs_) closure heap context =
      Div.Execute (Execute fuel) lhs_ rhs_ closure heap context := rfl

/-- The two operands of a binary operation are evaluated left first, the right
one in the state the left one left. -/
theorem ExecuteOperands_normal (exec : Exec) (lhs_ rhs_ : Statement) (closure : Closure)
    (heap : Heap) (context : Context) (l r : Result) (left_obj right_obj : ObjectHolder)
    (hl : exec lhs_ closure heap context = l) (hlo : l.outcome = Outcome.normal left_obj)
    (hr : exec rhs_ l.closure l.heap l.context = r)
    (hro : r.outcome = Outcome.normal right_obj) :
    ExecuteOperands exec lhs_ rhs_ closure heap context =
      (Outcome.normal (left_obj, right_obj), r) := by
  unfold ExecuteOperands
  simp only [hl, hlo, hr, hro]

theorem wrapInt_of_fits (x : Int) (h1 : -2147483648 ≤ x) (h2 : x ≤ 2147483647) :
    wrapInt x = x := by
  unfold wrapInt
  omega

/-- C15, the claim fails. The sum of the numbers 2147483647 and 1 does not fit
an `int`: `Add::Execute` returns the number -2147483648, not the sum. -/
theorem Add_overflow_counterexample :
    Execute 2 (Statement.Add (Statement.VariableValue "x" []) (Statement.VariableValue "one" []))
        [("x", some (Object.Number 2147483647)), ("one", some (Object.Number 1))] {} {} =
      { outcome := Outcome.normal (some (Object.Number (-2147483648))),
        closure := [("x", some (Object.Number 2147483647)), ("one", some (Object.Number 1))],
        heap := {}, context := {} } ∧
    (2147483647 : Int) + 1 ≠ -2147483648 :=
  ⟨rfl, by decide⟩

/-- C15, amended. `Add::Execute` evaluates the left operand and then, in the
state that left, the right operand. When both end normally, with the values
`left_obj` and `right_obj` and the state `r`: two numbers whose sum fits an
`int` give their sum, two strings the first followed by the second, both in
the state `r`; an instance on the left gives what the call of its `__add__`
with the one argument `right_obj` gives, whatever the right value is; every
other combination of kinds raises the runtime error of `Add`. -/
theorem Add_Execute_cases (fuel : Nat) (lhs_ rhs_ : Statement) (closure : Closure) (heap : Heap)
    (context : Context) (l r : Result) (left_obj right_obj : ObjectHolder)
    (hl : Execute fuel lhs_ closure heap context = l)
    (hlo : l.outcome = Outcome.normal left_obj)
    (hr : Execute fuel rhs_ l.closure l.heap l.context = r)
    (hro : r.outcome = Outcome.normal right_obj) :
    (∀ a b : Int, left_obj = some (Object.Number a) → right_obj = some (Object.Number b) →
      -2147483648 ≤ a + b → a + b ≤ 2147483647 →
      Execute (fuel + 1) (Statement.Add lhs_ rhs_) closure heap context =
        { r with outcome := Outcome.normal (some (Object.Number (a + b))) }) ∧
    (∀ s t : String, left_obj = some (Object.String s) → right_obj = some (Object.String t) →
      Execute (fuel + 1) (Statement.Add lhs_ rhs_) closure heap context =
        { r with outcome := Outcome.normal (some (Object.String (s ++ t))) }) ∧
    (∀ (address : Nat) (cls_ : runtime.Class),
      left_obj = some (Object.ClassInstance address cls_) →
      Execute (fuel + 1) (Statement.Add lhs_ rhs_) closure heap context =
        { outcome := (ClassInstance.Call (Execute fuel) address cls_ "__add__" [right_obj] r.heap
            r.context).outcome,
          closure := r.closure,
          heap := (ClassInstance.Call (Execute fuel) address cls_ "__add__" [right_obj] r.heap
            r.context).heap,
          context := (ClassInstance.Call (Execute fuel) address cls_ "__add__" [right_obj] r.heap
            r.context).context }) ∧
    (¬ (kindOf left_obj = Kind.number ∧ kindOf right_obj = Kind.number) →
      ¬ (kindOf left_obj = Kind.string ∧ kindOf right_obj = Kind.string) →
      kindOf left_obj ≠ Kind.classInstance →
      Execute (fuel + 1) (Statement.Add lhs_ rhs_) closure heap context =
        { r with outcome := Outcome.runtime_error "Failed to add, check arguments" }) := by
  have h := ExecuteOperands_normal (Execute fuel) lhs_ rhs_ closure heap context l r left_obj
    right_obj hl hlo hr hro
  rw [Execute_Add]
  unfold Add.Execute
  rw [h]
  refine ⟨?_, ?_, ?_, ?_⟩
  · intro a b h1 h2 h3 h4
    subst h1 h2
    simp only [wrapInt_of_fits (a + b) h3 h4]
  · intro s t h1 h2
    subst h1 h2
    rfl
  · intro address cls_ h1
    subst h1
    rfl
  · intro h1 h2 h3
    rcases left_obj with _ | lo
    · rfl
    · cases lo with
      | Number a =>
        rcases right_obj with _ | ro
        · rfl
        · cases ro with
          | Number b => exact absurd ⟨rfl, rfl⟩ h1
          | String b => rfl
          | Bool b => rfl
          | Class c => rfl
          | ClassInstance address c => rfl
      | String a =>
        rcases right_obj with _ | ro
        · rfl
        · cases ro with
          | Number b => rfl
          | String b => exact absurd ⟨rfl, rfl⟩ h2
          | Bool b => rfl
          | Class c => rfl
          | ClassInstance address c => rfl
      | Bool a => rfl
      | Class c => rfl
      | ClassInstance address c => exact absurd rfl h3

/-- The theorem `Add_Execute_cases` on `x + two` with `x` the number 1 and `two`
the number 2, which gives the number 3; on `s + t` with the strings `ab` and
`c`, which gives `abc`; and on `x + s`, a number with a string, which raises
the runtime error. -/
theorem Add_Execute_cases_witness :
    Execute 2 (Statement.Add (Statement.VariableValue "x" []) (Statement.VariableValue "two" []))
        [("x", some (Object.Number 1)), ("two", some (Object.Number 2))] {} {} =
      { outcome := Outcome.normal (some (Object.Number 3)),
        closure := [("x", some (Object.Number 1)), ("two", some (Object.Number 2))],
        heap := {}, context := {} } ∧
    Execute 2 (Statement.Add (Statement.VariableValue "s" []) (Statement.VariableValue "t" []))
        [("s", some (Object.String "ab")), ("t", some (Object.String "c"))] {} {} =
      { outcome := Outcome.normal (some (Object.String "abc")),
        closure := [("s", some (Object.String "ab")), ("t", some (Object.String "c"))],
        heap := {}, context := {} } ∧
    Execute 2 (Statement.Add (Statement.VariableValue "x" []) (Statement.VariableValue "s" []))
        [("x", some (Object.Number 1)), ("s", some (Object.String "ab"))] {} {} =
      { outcome := Outcome.runtime_error "Failed to add, check arguments",
        closure := [("x", some (Object.Number 1)), ("s", some (Object.String "ab"))],
        heap := {}, context := {} } :=
  ⟨(Add_Execute_cases 1 (Statement.VariableValue "x" []) (Statement.VariableValue "two" [])
      [("x", some (Object.Number 1)), ("two", some (Object.Number 2))] {} {} _ _
      (some (Object.Number 1)) (some (Object.Number 2)) rfl rfl rfl rfl).1 1 2 rfl rfl
      (by decide) (by decide),
   (Add_Execute_cases 1 (Statement.VariableValue "s" []) (Statement.VariableValue "t" [])
      [("s", some (Object.String "ab")), ("t", some (Object.String "c"))] {} {} _ _
      (some (Object.String "ab")) (some (Object.String "c")) rfl rfl rfl rfl).2.1 "ab" "c" rfl rfl,
   (Add_Execute_cases 1 (Statement.VariableValue "x" []) (Statement.VariableValue "s" [])
      [("x", some (Object.Number 1)), ("s", some (Object.String "ab"))] {} {} _ _
      (some (Object.Number 1)) (some (Object.String "ab")) rfl rfl rfl rfl).2.2.2
      (by decide) (by decide) (by decide)⟩

/-- C16, the claim fails. The quotient of -2147483648 by -1, truncated toward
zero, is 2147483648, which does not fit an `int`: `Div::Execute` returns no
number there, the division is undefined behaviour. -/
theorem Div_overflow_counterexample :
    Execute 2 (Statement.Div (Statement.VariableValue "a" []) (Statement.VariableValue "b" []))
        [("a", some (Object.Number (-2147483648))), ("b", some (Object.Number (-1)))] {} {} =
      { outcome := Outcome.undefined,
        closure := [("a", some (Object.Number (-2147483648))), ("b", some (Object.Number (-1)))],
        heap := {}, context := {} } ∧
    truncatedQuotient (-2147483648) (-1) = 2147483648 ∧ (-1 : Int) ≠ 0 :=
  ⟨rfl, by decide, by decide⟩

/-- C16, amended. `Div::Execute` evaluates the left operand and then, in the
state that left, the right operand. When both end normally, with the values
`left_obj` and `right_obj` and the state `r`: a number divided by the number 0
raises the runtime error of the division by zero; a number `a` divided by a
number `b` other than 0 gives the number that is the quotient of `a` by `b`
truncated toward zero, unless `a` is -2147483648 and `b` is -1 (the one
quotient of two `int` values that does not fit an `int`); when one of the two
values is not a number the runtime error of `Div` is raised. -/
theorem Div_Execute_cases (fuel : Nat) (lhs_ rhs_ : Statement) (closure : Closure) (heap : Heap)
    (context : Context) (l r : Result) (left_obj right_obj : ObjectHolder)
    (hl : Execute fuel lhs_ closure heap context = l)
    (hlo : l.outcome = Outcome.normal left_obj)
    (hr : Execute fuel rhs_ l.closure l.heap l.context = r)
    (hro : r.outcome = Outcome.normal right_obj) :
    (∀ a : Int, left_obj = some (Object.Number a) → right_obj = some (Object.Number 0) →
      Execute (fuel + 1) (Statement.Div lhs_ rhs_) closure heap context =
        { r with outcome :=
            Outcome.runtime_error "Failed to divide by 0, can't deal with eternity" }) ∧
    (∀ a b : Int, left_obj = some (Object.Number a) → right_obj = some (Object.Number b) →
      b ≠ 0 → ¬ (a = -2147483648 ∧ b = -1) →
      Execute (fuel + 1) (Statement.Div lhs_ rhs_) closure heap context =
        { r with outcome := Outcome.normal (some (Object.Number (truncatedQuotient a b))) } ∧
      (-2147483648 ≤ a → a ≤ 2147483647 →
        -2147483648 ≤ truncatedQuotient a b ∧ truncatedQuotient a b ≤ 2147483647)) ∧
    (kindOf left_obj ≠ Kind.number ∨ kindOf right_obj ≠ Kind.number →
      Execute (fuel + 1) (Statement.Div lhs_ rhs_) closure heap context =
        { r with outcome := Outcome.runtime_error "Failed to div, check arguments" }) := by
  have h := ExecuteOperands_normal (Execute fuel) lhs_ rhs_ closure heap context l r left_obj
    right_obj hl hlo hr hro
  rw [Execute_Div]
  unfold Div.Execute
  rw [h]
  refine ⟨?_, ?_, ?_⟩
  · intro a h1 h2
    subst h1 h2
    rfl
  · intro a b h1 h2 hb hex
    subst h1 h2
    refine ⟨?_, ?_⟩
    · simp only [hb, hex, if_false, tdiv_eq_truncatedQuotient]
    · intro ha1 ha2
      have hq := truncatedQuotient_in_range 2147483648 a b ha1 (by omega) hb hex
      omega
  · intro hk
    rcases left_obj with _ | lo
    · rfl
    · cases lo with
      | Number a =>
        rcases right_obj with _ | ro
        · rfl
        · cases ro with
          | Number b =>
            rcases hk with hk | hk
            · exact absurd rfl hk
            · exact absurd rfl hk
          | String b => rfl
          | Bool b => rfl
          | Class c => rfl
          | ClassInstance address c => rfl
      | String a => rfl
      | Bool a => rfl
      | Class c => rfl
      | ClassInstance address c => rfl

/-- The theorem `Div_Execute_cases` on `a / b` with `a` the number -7 and `b`
the number 2, which gives -3 (and not -4); on `a / zero`, which raises the
runtime error of the division by zero; and on `a / s` with a string `s`, which
raises the runtime error of `Div`. -/
theorem Div_Execute_cases_witness :
    Execute 2 (Statement.Div (Statement.VariableValue "a" []) (Statement.VariableValue "b" []))
        [("a", some (Object.Number (-7))), ("b", some (Object.Number 2))] {} {} =
      { outcome := Outcome.normal (some (Object.Number (-3))),
        closure := [("a", some (Object.Number (-7))), ("b", some (Object.Number 2))],
        heap := {}, context := {} } ∧
    Execute 2 (Statement.Div (Statement.VariableValue "a" []) (Statement.VariableValue "zero" []))
        [("a", some (Object.Number (-7))), ("zero", some (Object.Number 0))] {} {} =
      { outcome := Outcome.runtime_error "Failed to divide by 0, can't deal with eternity",
        closure := [("a", some (Object.Number (-7))), ("zero", some (Object.Number 0))],
        heap := {}, context := {} } ∧
    Execute 2 (Statement.Div (Statement.VariableValue "a" []) (Statement.VariableValue "s" []))
        [("a", some (Object.Number (-7))), ("s", some (Object.String "2"))] {} {} =
      { outcome := Outcome.runtime_error "Failed to div, check arguments",
        closure := [("a", some (Object.Number (-7))), ("s", some (Object.String "2"))],
        heap := {}, context := {} } :=
  ⟨((Div_Execute_cases 1 (Statement.VariableValue "a" []) (Statement.VariableValue "b" [])
      [("a", some (Object.Number (-7))), ("b", some (Object.Number 2))] {} {} _ _
      (some (Object.Number (-7))) (some (Object.Number 2)) rfl rfl rfl rfl).2.1 (-7) 2 rfl rfl
      (by decide) (by decide)).1,
   (Div_Execute_cases 1 (Statement.VariableValue "a" []) (Statement.VariableValue "zero" [])
      [("a", some (Object.Number (-7))), ("zero", some (Object.Number 0))] {} {} _ _
      (some (Object.Number (-7))) (some (Object.Number 0)) rfl rfl rfl rfl).1 (-7) rfl rfl,
   (Div_Execute_cases 1 (Statement.VariableValue "a" []) (Statement.VariableValue "s" [])
      [("a", some (Object.Number (-7))), ("s", some (Object.String "2"))] {} {} _ _
      (some (Object.Number (-7))) (some (Object.String "2")) rfl rfl rfl rfl).2.2
      (Or.inr (by decide))⟩

/-! ## `Or` and `And` -/

theorem Execute_Or (fuel : Nat) (lhs_ rhs_ : Statement) (closure : Closure) (heap : Heap)
    (context : Context) :
    Execute (fuel + 1) (Statement.Or lhs_ rhs_) closure heap context =
      Or.Execute (Execute fuel) lhs_ rhs_ closure heap context := rfl

theorem Execute_And (fuel : Nat) (lhs_ rhs_ : Statement) (closure : Closure) (heap : Heap)
    (context : Context) :
    Execute (fuel + 1) (Statement.And lhs_ rhs_) closure heap context =
      And.Execute (Execute fuel) lhs_ rhs_ closure heap context := rfl

/-- C17. `Or` and `And` short-circuit and yield a `Bool`. When the left operand
ends normally with the value `left_obj` in the state `l`: if `left_obj` is
true, `Or` gives `Bool(true)` in the state `l`, whatever the right operand is
(it is not evaluated: the result does not depend on it and the state is the
one the left operand left); otherwise `Or` evaluates the right operand in the
state `l` and, when that ends normally with `right_obj`, gives
`Bool(IsTrue(right_obj))` in the state the right operand left. Dually, `And`
gives `Bool(false)` in the state `l` when `left_obj` is not true, and
`Bool(IsTrue(right_obj))` otherwise. -/
theorem Or_And_short_circuit (fuel : Nat) (lhs_ rhs_ : Statement) (closure : Closure)
    (heap : Heap) (context : Context) (l : Result) (left_obj : ObjectHolder)
    (hl : Execute fuel lhs_ closure heap context = l)
    (hlo : l.outcome = Outcome.normal left_obj) :
    (IsTrue left_obj = true →
      Execute (fuel + 1) (Statement.Or lhs_ rhs_) closure heap context =
        { l with outcome := Outcome.normal (some (Object.Bool true)) }) ∧
    (IsTrue left_obj = false → ∀ (r : Result) (right_obj : ObjectHolder),
      Execute fuel rhs_ l.closure l.heap l.context = r →
      r.outcome = Outcome.normal right_obj →
      Execute (fuel + 1) (Statement.Or lhs_ rhs_) closure heap context =
        { r with outcome := Outcome.normal (some (Object.Bool (IsTrue right_obj))) }) ∧
    (IsTrue left_obj = false →
      Execute (fuel + 1) (Statement.And lhs_ rhs_) closure heap context =
        { l with outcome := Outcome.normal (some (Object.Bool false)) }) ∧
    (IsTrue left_obj = true → ∀ (r : Result) (right_obj : ObjectHolder),
      Execute fuel rhs_ l.closure l.heap l.context = r →
      r.outcome = Outcome.normal right_obj →
      Execute (fuel + 1) (Statement.And lhs_ rhs_) closure heap context =
        { r with outcome := Outcome.normal (some (Object.Bool (IsTrue right_obj))) }) := by
  refine ⟨?_, ?_, ?_, ?_⟩
  · intro ht
    rw [Execute_Or]
    unfold Or.Execute
    simp only [hl, hlo, ht, if_true]
  · intro ht r right_obj hr hro
    rw [Execute_Or]
    unfold Or.Execute
    simp only [hl, hlo, ht, hr, hro]
    cases h : IsTrue right_obj <;> simp
  · intro ht
    rw [Execute_And]
    unfold And.Execute
    simp only [hl, hlo, ht]
    rfl
  · intro ht r right_obj hr hro
    rw [Execute_And]
    unfold And.Execute
    simp only [hl, hlo, ht, hr, hro]
    cases h : IsTrue right_obj <;> simp

/-- The theorem `Or_And_short_circuit` with a right operand that would raise, the
unknown name `missing`: `t or missing` with `t` true gives `Bool(true)` and
`f and missing` with `f` the number 0 gives `Bool(false)`; no error is raised.
With a left operand that does not decide, `f or s` with the string `s` gives
`Bool(true)`. -/
theorem Or_And_short_circuit_witness :
    Execute 2 (Statement.VariableValue "missing" []) [("t", some (Object.Bool true))] {} {} =
      { outcome := Outcome.runtime_error "Unknown variable name",
        closure := [("t", some (Object.Bool true))], heap := {}, context := {} } ∧
    Execute 2 (Statement.Or (Statement.VariableValue "t" []) (Statement.VariableValue "missing" []))
        [("t", some (Object.Bool true))] {} {} =
      { outcome := Outcome.normal (some (Object.Bool true)),
        closure := [("t", some (Object.Bool true))], heap := {}, context := {} } ∧
    Execute 2
        (Statement.And (Statement.VariableValue "f" []) (Statement.VariableValue "missing" []))
        [("f", some (Object.Number 0))] {} {} =
      { outcome := Outcome.normal (some (Object.Bool false)),
        closure := [("f", some (Object.Number 0))], heap := {}, context := {} } ∧
    Execute 2 (Statement.Or (Statement.VariableValue "f" []) (Statement.VariableValue "s" []))
        [("f", some (Object.Number 0)), ("s", some (Object.String "a"))] {} {} =
      { outcome := Outcome.normal (some (Object.Bool true)),
        closure := [("f", some (Object.Number 0)), ("s", some (Object.String "a"))],
        heap := {}, context := {} } :=
  ⟨rfl,
   (Or_And_short_circuit 1 (Statement.VariableValue "t" []) (Statement.VariableValue "missing" [])
      [("t", some (Object.Bool true))] {} {} _ (some (Object.Bool true)) rfl rfl).1 rfl,
   (Or_And_short_circuit 1 (Statement.VariableValue "f" []) (Statement.VariableValue "missing" [])
      [("f", some (Object.Number 0))] {} {} _ (some (Object.Number 0)) rfl rfl).2.2.1 rfl,
   (Or_And_short_circuit 1 (Statement.VariableValue "f" []) (Statement.VariableValue "s" [])
      [("f", some (Object.Number 0)), ("s", some (Object.String "a"))] {} {} _
      (some (Object.Number 0)) rfl rfl).2.1 rfl _ (some (Object.String "a")) rfl rfl⟩

/-! ## `Print` -/

theorem write_write (context : Context) (a b : String) :
    (context.write a).write b = context.write (a ++ b) := by
  simp only [Context.write, String.append_assoc]

theorem write_empty (context : Context) : context.write "" = context := by
  simp only [Context.write, String.append_empty]

theorem Execute_Print (fuel : Nat) (args_ : List Statement) (closure : Closure) (heap : Heap)
    (context : Context) :
    Execute (fuel + 1) (Statement.Print args_) closure heap context =
      Print.Execute (Execute fuel) fuel args_ closure heap context := rfl

/-- The loop of `Print::Execute` writes a space before every argument but the
first, and after it what the argument wrote and the printed form of its
value. -/
theorem Print_Loop_written (exec : Exec) (depth : Nat) (args_ : List Statement)
    (closure : Closure) (heap : Heap) (written : List String) (closure2 : Closure) (heap2 : Heap)
    (h : PrintsArguments exec depth args_ closure heap written closure2 heap2) :
    ∀ (first : Bool) (context : Context),
      Print.Loop exec depth args_ first closure heap context =
        { outcome := Outcome.normal none, closure := closure2, heap := heap2,
          context :=
            match written with
            | [] => context
            | _ :: _ => context.write ((if first then "" else " ") ++ spaced written) } := by
  induction h with
  | nil closure heap =>
    intro first context
    rfl
  | null var rest closure closure1 closure2 heap heap1 heap2 side written hvar hrest ih =>
    intro first context
    simp only [Print.Loop, hvar]
    rw [ih false]
    cases written with
    | nil =>
      cases first <;>
        simp only [spaced, write_write, String.append_assoc, String.empty_append, if_true,
          Bool.false_eq_true, if_false]
    | cons t ts =>
      cases first <;>
        simp only [spaced, write_write, String.append_assoc, String.empty_append, if_true,
          Bool.false_eq_true, if_false]
  | object var rest closure closure1 closure2 heap heap1 heap1p heap2 object side1 side2 form
      written hvar hprint hrest ih =>
    intro first context
    simp only [Print.Loop, hvar, hprint]
    rw [ih false]
    cases written with
    | nil =>
      cases first <;>
        simp only [spaced, write_write, String.append_assoc, String.empty_append, if_true,
          Bool.false_eq_true, if_false]
    | cons t ts =>
      cases first <;>
        simp only [spaced, write_write, String.append_assoc, String.empty_append, if_true,
          Bool.false_eq_true, if_false]

/-- C19. `Print::Execute` evaluates its arguments from left to right and appends
to the stream of the context, for the arguments in order, the printed form of
the value of each (after whatever the evaluation of that argument wrote
itself), with exactly one space between consecutive arguments and one line
feed at the end, and returns `None`; the closure and the heap are the ones the
last argument left. A null value prints as `None` (in `PrintsArguments`),
`Bool` as `True` or `False`, a class named `C` as `Class C`. Without arguments
only the line feed is written. -/
theorem Print_Execute_output (fuel : Nat) (args_ : List Statement) (closure : Closure)
    (heap : Heap) (context : Context) :
    (∀ (written : List String) (closure2 : Closure) (heap2 : Heap),
      PrintsArguments (Execute fuel) fuel args_ closure heap written closure2 heap2 →
      Execute (fuel + 1) (Statement.Print args_) closure heap context =
        { outcome := Outcome.normal none, closure := closure2, heap := heap2,
          context := context.write (spaced written ++ "\n") }) ∧
    Execute (fuel + 1) (Statement.Print []) closure heap context =
      { outcome := Outcome.normal none, closure := closure, heap := heap,
        context := context.write "\n" } ∧
    (∀ (exec : Exec) (depth : Nat) (b : Bool) (h : Heap) (c : Context),
      Object.Print exec (depth + 1) (Object.Bool b) h c =
        { outcome := Outcome.normal (if b then "True" else "False"), heap := h, context := c }) ∧
    (∀ (exec : Exec) (depth : Nat) (cls : runtime.Class) (h : Heap) (c : Context),
      Object.Print exec (depth + 1) (Object.Class cls) h c =
        { outcome := Outcome.normal ("Class " ++ cls.GetName), heap := h, context := c }) := by
  refine ⟨?_, rfl, fun _ _ _ _ _ => rfl, fun _ _ _ _ _ => rfl⟩
  intro written closure2 heap2 h
  rw [Execute_Print]
  unfold Print.Execute
  rw [Print_Loop_written (Execute fuel) fuel args_ closure heap written closure2 heap2 h true
    context]
  cases written with
  | nil => simp only [spaced, String.empty_append]
  | cons t ts => simp only [write_write, if_true, String.empty_append]

/-- The theorem `Print_Execute_output` on `print n, b, c, y` with `n` null, `b`
true, `c` the class `C` and `y` the number 3: the line `None True Class C 3`
is written. -/
theorem Print_Execute_output_witness :
    Execute 3
        (Statement.Print [Statement.VariableValue "n" [], Statement.VariableValue "b" [],
          Statement.VariableValue "c" [], Statement.VariableValue "y" []])
        [("n", none), ("b", some (Object.Bool true)),
         ("c", some (Object.Class (Class.mk "C" [] none))), ("y", some (Object.Number 3))]
        {} {} =
      { outcome := Outcome.normal none,
        closure := [("n", none), ("b", some (Object.Bool true)),
          ("c", some (Object.Class (Class.mk "C" [] none))), ("y", some (Object.Number 3))],
        heap := {}, context := { output := "None True Class C 3\n" } } :=
  (Print_Execute_output 2
      [Statement.VariableValue "n" [], Statement.VariableValue "b" [],
        Statement.VariableValue "c" [], Statement.VariableValue "y" []]
      [("n", none), ("b", some (Object.Bool true)),
       ("c", some (Object.Class (Class.mk "C" [] none))), ("y", some (Object.Number 3))]
      {} {}).1
    ["" ++ "None", "" ++ "" ++ "True", "" ++ "" ++ "Class C", "" ++ "" ++ "3"] _ {}
    (PrintsArguments.null _ _ _ _ _ _ _ _ "" _ (fun context => by rw [write_empty]; rfl)
      (PrintsArguments.object _ _ _ _ _ _ _ _ _ (Object.Bool true) "" "" "True" _
        (fun context => by rw [write_empty]; rfl) (fun context => by rw [write_empty]; rfl)
        (PrintsArguments.object _ _ _ _ _ _ _ _ _ (Object.Class (Class.mk "C" [] none)) "" ""
          "Class C" _
          (fun context => by rw [write_empty]; rfl) (fun context => by rw [write_empty]; rfl)
          (PrintsArguments.object _ _ _ _ _ _ _ _ _ (Object.Number 3) "" "" "3" _
            (fun context => by rw [write_empty]; rfl) (fun context => by rw [write_empty]; rfl)
            (PrintsArguments.nil _ _)))))

end ast

/-! # Theorems: the lexer, its tokens -/

namespace parse

theorem endsWord_false_iff (c : Char) :
    endsWord c = false ↔
      (c ≠ ' ' ∧ c ≠ '#' ∧ c ≠ '\n' ∧ IsSymbol c = false ∧ IsCompareSymbol c = false) := by
  have hf := charFacts c
  have h1 : IsSymbol c = false ↔ ¬ ((40 ≤ c.toNat ∧ c.toNat ≤ 47) ∨ c.toNat = 58) := by
    rw [← hf.symbol]; simp
  have h2 : IsCompareSymbol c = false ↔
      ¬ (c.toNat = 61 ∨ c.toNat = 60 ∨ c.toNat = 62 ∨ c.toNat = 33) := by
    rw [← hf.compare]; simp
  rw [h1, h2]
  unfold endsWord
  simp only [Bool.or_eq_false_iff, beq_eq_false_iff_ne, ne_eq, Bool.and_eq_false_iff,
    decide_eq_false_iff_not, char_eq_iff]
  have e1 : ('=' : Char).toNat = 61 := rfl
  have e2 : ('<' : Char).toNat = 60 := rfl
  have e3 : ('>' : Char).toNat = 62 := rfl
  have e4 : ('!' : Char).toNat = 33 := rfl
  have e5 : (' ' : Char).toNat = 32 := rfl
  have e6 : ('#' : Char).toNat = 35 := rfl
  have e7 : ('\n' : Char).toNat = 10 := rfl
  rw [e1, e2, e3, e4, e5, e6, e7]
  omega

theorem toSignedChar_neg_iff (c : Char) : toSignedChar c < 0 ↔ 128 ≤ c.toNat := by
  unfold toSignedChar
  split <;> omega

theorem LoadLiteralLoop_eq : ∀ (input : List Char) (res : String),
    LoadLiteralLoop input res =
      (String.mk (res.data ++ input.takeWhile wordByte), input.dropWhile wordByte) := by
  intro input
  induction input with
  | nil => intro res; simp [LoadLiteralLoop]
  | cons c rest ih =>
    intro res
    unfold LoadLiteralLoop
    by_cases hn : toSignedChar c < 0
    · have hw : wordByte c = false := by
        unfold wordByte
        have := (toSignedChar_neg_iff c).1 hn
        simp only [Bool.and_eq_false_iff, decide_eq_false_iff_not]
        left; omega
      rw [if_pos hn]
      simp [List.takeWhile, List.dropWhile, hw]
    · rw [if_neg hn]
      have hlt : c.toNat < 128 := by
        have := (toSignedChar_neg_iff c).not.1 hn
        omega
      by_cases he : endsWord c = false
      · have hw : wordByte c = true := by
          unfold wordByte
          simp [hlt, he]
        rw [if_pos ((endsWord_false_iff c).1 he), ih]
        simp [List.takeWhile, List.dropWhile, hw, String.push]
      · have hw : wordByte c = false := by
          unfold wordByte
          simp at he
          simp [he]
        rw [if_neg (fun q => he ((endsWord_false_iff c).2 q))]
        simp [List.takeWhile, List.dropWhile, hw]

theorem LoadLiteral_eq (input : List Char) :
    LoadLiteral input = (String.mk (input.takeWhile wordByte), input.dropWhile wordByte) := by
  unfold LoadLiteral
  rw [LoadLiteralLoop_eq]
  rfl

theorem LoadIdOrElse_eq (l : List Char) :
    LoadIdOrElse l = (wordToken (LoadLiteral l).1, (LoadLiteral l).2) := by
  unfold LoadIdOrElse
  show (ite ((LoadLiteral l).1 = "True") _ _ : Token × List Char) = _
  by_cases h1 : (LoadLiteral l).1 = "True"
  · rw [if_pos h1, h1]; rfl
  rw [if_neg h1]
  by_cases h2 : (LoadLiteral l).1 = "False"
  · rw [if_pos h2, h2]; rfl
  rw [if_neg h2]
  by_cases h3 : (LoadLiteral l).1 = "None"
  · rw [if_pos h3, h3]; rfl
  rw [if_neg h3]
  by_cases h4 : (LoadLiteral l).1 = "class"
  · rw [if_pos h4, h4]; rfl
  rw [if_neg h4]
  by_cases h5 : (LoadLiteral l).1 = "return"
  · rw [if_pos h5, h5]; rfl
  rw [if_neg h5]
  by_cases h6 : (LoadLiteral l).1 = "if"
  · rw [if_pos h6, h6]; rfl
  rw [if_neg h6]
  by_cases h7 : (LoadLiteral l).1 = "else"
  · rw [if_pos h7, h7]; rfl
  rw [if_neg h7]
  by_cases h8 : (LoadLiteral l).1 = "def"
  · rw [if_pos h8, h8]; rfl
  rw [if_neg h8]
  by_cases h9 : (LoadLiteral l).1 = "print"
  · rw [if_pos h9, h9]; rfl
  rw [if_neg h9]
  by_cases h10 : (LoadLiteral l).1 = "and"
  · rw [if_pos h10, h10]; rfl
  rw [if_neg h10]
  by_cases h11 : (LoadLiteral l).1 = "or"
  · rw [if_pos h11, h11]; rfl
  rw [if_neg h11]
  by_cases h12 : (LoadLiteral l).1 = "not"
  · rw [if_pos h12, h12]; rfl
  rw [if_neg h12]
  have hk : keywords.lookup (LoadLiteral l).1 = none := by
    have hb : ∀ k : String, ¬ (LoadLiteral l).1 = k → ((LoadLiteral l).1 == k) = false := by
      intro k h
      simp [h]
    simp only [keywords, List.lookup, hb _ h1, hb _ h2, hb _ h3, hb _ h4, hb _ h5, hb _ h6,
      hb _ h7, hb _ h8, hb _ h9, hb _ h10, hb _ h11, hb _ h12]
  unfold wordToken
  rw [hk]

/-- What `NextToken` does at a letter or an underscore (no indent or dedent
pending): it consumes the maximal run of bytes below 128 that are not a space,
`#`, a newline, one of `= < > !`, a byte in 40..47 or the byte 58; the run is
not empty. It hands out the token of the keyword when the run is exactly one
of the twelve keywords, and `Id` with the run otherwise. -/
theorem keyword_recognition (lx : Lexer) (ch : Char) (rest : List Char)
    (hs : lx.spaces_ = 0) (hi : lx.input_ = ch :: rest) (hc : ch.isAlpha = true ∨ ch = '_') :
    NextToken lx =
      Except.ok { lx with curr_token_ := wordToken (String.mk (lx.input_.takeWhile wordByte)),
                          input_ := lx.input_.dropWhile wordByte, first_ := false } ∧
    wordByte ch = true ∧
    (∀ s t, (s, t) ∈ keywords → wordToken s = t) ∧
    (∀ s, (∀ t, (s, t) ∉ keywords) → wordToken s = Token.Id s) := by
  refine ⟨?_, ?_, ?_, ?_⟩
  · rw [(Lexes_iff lx _).1 (Lexes.word lx ch rest hs hi hc), LoadIdOrElse_eq, LoadLiteral_eq]
  · have hf := charFacts ch
    unfold wordByte endsWord
    have hn : (40 ≤ ch.toNat ∧ ch.toNat ≤ 47) = False := by
      rcases hc with h | h
      · have := hf.alpha.1 h; simp; omega
      · have := hf.underscore.1 h; simp; omega
    have hlt : ch.toNat < 128 := by
      rcases hc with h | h
      · have := hf.alpha.1 h; omega
      · have := hf.underscore.1 h; omega
    simp only [Bool.and_eq_true, decide_eq_true_eq, Bool.not_eq_true', Bool.or_eq_false_iff,
      beq_eq_false_iff_ne, ne_eq, char_eq_iff, Bool.and_eq_false_iff, decide_eq_false_iff_not]
    have e1 : ('=' : Char).toNat = 61 := rfl
    have e2 : ('<' : Char).toNat = 60 := rfl
    have e3 : ('>' : Char).toNat = 62 := rfl
    have e4 : ('!' : Char).toNat = 33 := rfl
    have e5 : (' ' : Char).toNat = 32 := rfl
    have e6 : ('#' : Char).toNat = 35 := rfl
    have e7 : ('\n' : Char).toNat = 10 := rfl
    rw [e1, e2, e3, e4, e5, e6, e7]
    rcases hc with h | h
    · have := hf.alpha.1 h; omega
    · have := hf.underscore.1 h; omega
  · intro s t h
    simp only [keywords, List.mem_cons, Prod.mk.injEq, List.mem_singleton, List.not_mem_nil,
      or_false] at h
    rcases h with h | h | h | h | h | h | h | h | h | h | h | h <;>
      (obtain ⟨h1, h2⟩ := h; subst h1; subst h2; rfl)
  · intro s h
    have hk : keywords.lookup s = none := by
      rw [List.lookup_eq_none_iff]
      intro p hp
      have hn := h p.2
      rw [bne_iff_ne]
      intro q
      apply hn
      rw [q]
      exact hp
    unfold wordToken
    rw [hk]

theorem LoadStringLoop_escape (escaped : Char) (rest2 : List Char) (s : String) :
    LoadStringLoop ('\\' :: escaped :: rest2) s =
      LoadStringLoop rest2 (String.mk (s.data ++ (escapeOf escaped).toList)) := by
  rw [LoadStringLoop]
  rw [if_neg (by decide), if_pos rfl]
  unfold escapeOf
  by_cases h1 : escaped = 'n'
  · subst h1; simp [String.push]
  by_cases h2 : escaped = 't'
  · subst h2; simp [String.push]
  by_cases h3 : escaped = 'r'
  · subst h3; simp [String.push]
  by_cases h4 : escaped = '\''
  · subst h4; simp [String.push]
  by_cases h5 : escaped = '\\'
  · subst h5; simp [String.push]
  by_cases h6 : escaped = '"'
  · subst h6; simp [String.push]
  simp [h1, h2, h3, h4, h5, h6]

theorem LoadSingleQuotedStringLoop_escape (escaped : Char) (rest2 : List Char) (s : String) :
    LoadSingleQuotedStringLoop ('\\' :: escaped :: rest2) s =
      LoadSingleQuotedStringLoop rest2 (String.mk (s.data ++ (escapeOf escaped).toList)) := by
  rw [LoadSingleQuotedStringLoop]
  rw [if_neg (by decide), if_pos rfl]
  unfold escapeOf
  by_cases h1 : escaped = 'n'
  · subst h1; simp [String.push]
  by_cases h2 : escaped = 't'
  · subst h2; simp [String.push]
  by_cases h3 : escaped = 'r'
  · subst h3; simp [String.push]
  by_cases h4 : escaped = '"'
  · subst h4; simp [String.push]
  by_cases h5 : escaped = '\\'
  · subst h5; simp [String.push]
  by_cases h6 : escaped = '\''
  · subst h6; simp [String.push]
  simp [h1, h2, h3, h4, h5, h6]

theorem closedBody_plain (q c : Char) (rest : List Char) (hb : c ≠ '\\') :
    closedBody q (c :: rest) = (c != q && closedBody q rest) := by
  rw [closedBody.eq_def]
  simp only [if_neg hb]

theorem closedBody_escape (q escaped : Char) (rest2 : List Char) :
    closedBody q ('\\' :: escaped :: rest2) = closedBody q rest2 := by
  rw [closedBody.eq_def]
  simp only [if_pos]

theorem closedBody_dangling (q : Char) : closedBody q ['\\'] = false := by
  rw [closedBody.eq_def]
  simp only [if_pos]

theorem decodeBody_plain (c : Char) (rest : List Char) (hb : c ≠ '\\') :
    decodeBody (c :: rest) = c :: decodeBody rest := by
  rw [decodeBody.eq_def]
  simp only [if_neg hb]

theorem decodeBody_escape (escaped : Char) (rest2 : List Char) :
    decodeBody ('\\' :: escaped :: rest2) = (escapeOf escaped).toList ++ decodeBody rest2 := by
  rw [decodeBody.eq_def]
  simp only [if_pos]

theorem LoadStringLoop_quote (rest : List Char) (s : String) :
    LoadStringLoop ('"' :: rest) s = Except.ok (Token.String s, rest) := by
  rw [LoadStringLoop.eq_def]
  simp only [if_pos]

theorem LoadStringLoop_plain (c : Char) (rest : List Char) (s : String) (h1 : c ≠ '"')
    (h2 : c ≠ '\\') : LoadStringLoop (c :: rest) s = LoadStringLoop rest (s.push c) := by
  rw [LoadStringLoop.eq_def]
  simp only [if_neg h1, if_neg h2]

theorem LoadSingleQuotedStringLoop_quote (rest : List Char) (s : String) :
    LoadSingleQuotedStringLoop ('\'' :: rest) s = Except.ok (Token.String s, rest) := by
  rw [LoadSingleQuotedStringLoop.eq_def]
  simp only [if_pos]

theorem LoadSingleQuotedStringLoop_plain (c : Char) (rest : List Char) (s : String)
    (h1 : c ≠ '\'') (h2 : c ≠ '\\') :
    LoadSingleQuotedStringLoop (c :: rest) s = LoadSingleQuotedStringLoop rest (s.push c) := by
  rw [LoadSingleQuotedStringLoop.eq_def]
  simp only [if_neg h1, if_neg h2]

theorem LoadStringLoop_closed : ∀ (n : Nat) (body rest : List Char) (s : String),
    body.length ≤ n → closedBody '"' body = true →
    LoadStringLoop (body ++ '"' :: rest) s =
      Except.ok (Token.String (String.mk (s.data ++ decodeBody body)), rest) := by
  intro n
  induction n with
  | zero =>
    intro body rest s hl _
    have : body = [] := List.length_eq_zero.1 (Nat.le_zero.1 hl)
    subst this
    rw [List.nil_append, LoadStringLoop_quote]
    simp [decodeBody]
  | succ n ih =>
    intro body rest s hl hc
    cases body with
    | nil =>
      rw [List.nil_append, LoadStringLoop_quote]
      simp [decodeBody]
    | cons c body1 =>
      by_cases hb : c = '\\'
      · subst hb
        cases body1 with
        | nil =>
          rw [closedBody_dangling] at hc
          cases hc
        | cons escaped body2 =>
          rw [closedBody_escape] at hc
          rw [List.cons_append, List.cons_append, LoadStringLoop_escape,
            ih body2 rest _ (by simp at hl; omega) hc, decodeBody_escape]
          simp
      · rw [closedBody_plain '"' c body1 hb] at hc
        have hc2 : c ≠ '"' ∧ closedBody '"' body1 = true := by
          simpa using hc
        rw [List.cons_append, LoadStringLoop_plain c _ s hc2.1 hb,
          ih body1 rest _ (by simp at hl; omega) hc2.2, decodeBody_plain c body1 hb]
        simp [String.push]

theorem LoadSingleQuotedStringLoop_closed : ∀ (n : Nat) (body rest : List Char) (s : String),
    body.length ≤ n → closedBody '\'' body = true →
    LoadSingleQuotedStringLoop (body ++ '\'' :: rest) s =
      Except.ok (Token.String (String.mk (s.data ++ decodeBody body)), rest) := by
  intro n
  induction n with
  | zero =>
    intro body rest s hl _
    have : body = [] := List.length_eq_zero.1 (Nat.le_zero.1 hl)
    subst this
    rw [List.nil_append, LoadSingleQuotedStringLoop_quote]
    simp [decodeBody]
  | succ n ih =>
    intro body rest s hl hc
    cases body with
    | nil =>
      rw [List.nil_append, LoadSingleQuotedStringLoop_quote]
      simp [decodeBody]
    | cons c body1 =>
      by_cases hb : c = '\\'
      · subst hb
        cases body1 with
        | nil =>
          rw [closedBody_dangling] at hc
          cases hc
        | cons escaped body2 =>
          rw [closedBody_escape] at hc
          rw [List.cons_append, List.cons_append, LoadSingleQuotedStringLoop_escape,
            ih body2 rest _ (by simp at hl; omega) hc, decodeBody_escape]
          simp
      · rw [closedBody_plain '\'' c body1 hb] at hc
        have hc2 : c ≠ '\'' ∧ closedBody '\'' body1 = true := by
          simpa using hc
        rw [List.cons_append, LoadSingleQuotedStringLoop_plain c _ s hc2.1 hb,
          ih body1 rest _ (by simp at hl; omega) hc2.2, decodeBody_plain c body1 hb]
        simp [String.push]

/-- C22, at the failing input. `LoadLiteral` tests the end of the stream with
`c < 0` on the `char` it peeked, and a byte of 128 or more is negative as a
`char`: the word ends in front of it. On ASCII words the lexer does what the
claim says (the first part: the run of word bytes below 128, then the keyword
or `Id`). On the UTF-8 bytes of `café = 1` the run of bytes that do not end a
word is `caf` and the two bytes 195, 169 of the `é`; the lexer hands out `Id`
with `caf`, then `Newline` and `Eof`, and the rest of the line stays
unread. -/
theorem word_cut_at_high_byte :
    (∀ (lx : Lexer) (ch : Char) (rest : List Char), lx.spaces_ = 0 → lx.input_ = ch :: rest →
      (ch.isAlpha = true ∨ ch = '_') →
      NextToken lx =
        Except.ok { lx with
          curr_token_ := wordToken (String.mk (lx.input_.takeWhile wordByte)),
          input_ := lx.input_.dropWhile wordByte, first_ := false }) ∧
    List.takeWhile (fun c => !endsWord c)
        ['c', 'a', 'f', Char.ofNat 195, Char.ofNat 169, ' ', '=', ' ', '1'] =
      ['c', 'a', 'f', Char.ofNat 195, Char.ofNat 169] ∧
    lexRun ['c', 'a', 'f', Char.ofNat 195, Char.ofNat 169, ' ', '=', ' ', '1'] 2 =
      Except.ok ([Token.Id "caf", Token.Newline, Token.Eof],
        { input_ := [Char.ofNat 195, Char.ofNat 169, ' ', '=', ' ', '1'],
          curr_token_ := Token.Eof, first_ := false }) :=
  ⟨fun lx ch rest hs hi hc => (keyword_recognition lx ch rest hs hi hc).1, by decide, rfl⟩

/-- C23. String literal decoding. When the next byte is a quote `q`, double or
single (and no indent or dedent is pending), and the bytes `body` after it are
followed by the first quote `q` that is not escaped, `NextToken` hands out
`String` with `body` decoded and consumes the closing quote: each of the
escapes `\n`, `\t`, `\r`, `\\`, `\"`, `\'` is replaced by the character it
denotes, in both quote styles; a backslash followed by any other byte is
dropped together with that byte; every other byte, the other quote, `#`,
spaces and raw newlines included, is copied. -/
theorem string_literal_decoding (lx : Lexer) (q : Char) (body rest : List Char)
    (hs : lx.spaces_ = 0) (hq : q = '"' ∨ q = '\'')
    (hi : lx.input_ = q :: (body ++ q :: rest)) (hc : closedBody q body = true) :
    NextToken lx =
      Except.ok { lx with curr_token_ := Token.String (String.mk (decodeBody body)),
                          input_ := rest, first_ := false } := by
  rcases hq with hq | hq
  · subst hq
    exact (Lexes_iff lx _).1 (Lexes.dquote lx _ _ hs hi
      (LoadStringLoop_closed _ body rest "" (Nat.le_refl _) hc))
  · subst hq
    exact (Lexes_iff lx _).1 (Lexes.squote lx _ _ hs hi
      (LoadSingleQuotedStringLoop_closed _ body rest "" (Nat.le_refl _) hc))

theorem LoadNumberLoop_eq : ∀ (input parsed_num : List Char),
    LoadNumberLoop input parsed_num =
      (parsed_num ++ input.takeWhile Char.isDigit, input.dropWhile Char.isDigit) := by
  intro input
  induction input with
  | nil => intro p; simp [LoadNumberLoop]
  | cons c rest ih =>
    intro p
    unfold LoadNumberLoop
    by_cases h : c.isDigit = true
    · rw [if_pos h, ih]
      simp [List.takeWhile, List.dropWhile, h]
    · rw [if_neg h]
      simp [List.takeWhile, List.dropWhile, h]

theorem decimalValue_append (digits : List Char) (d : Char) :
    decimalValue (digits ++ [d]) = 10 * decimalValue digits + (d.toNat - 48) := by
  unfold decimalValue
  rw [List.foldl_append]
  rfl

theorem decimalValue_foldl (digits : List Char) (v : Nat) :
    digits.foldl (fun v d => 10 * v + (d.toNat - 48)) v =
      v * 10 ^ digits.length + decimalValue digits := by
  induction digits generalizing v with
  | nil => simp [decimalValue]
  | cons d ds ih =>
    unfold decimalValue
    simp only [List.foldl_cons, List.length_cons]
    rw [ih, ih (10 * 0 + (d.toNat - 48))]
    ring

theorem decimalValue_zero_cons (digits : List Char) :
    decimalValue ('0' :: digits) = decimalValue digits := by
  show List.foldl (fun v d => 10 * v + (d.toNat - 48)) (10 * 0 + (('0' : Char).toNat - 48)) digits = _
  rw [decimalValue_foldl]
  simp

/-- C24, the claim fails. The run of digits `2147483648` has a value that fits a
signed 64-bit integer, and the lexer raises `std::out_of_range` on it. -/
theorem number_beyond_int_counterexample :
    decimalValue "2147483648".toList = 2147483648 ∧
      (2147483648 : Int) ≤ 9223372036854775807 ∧
      Lexer.new "2147483648".toList = Except.error Exception.out_of_range :=
  ⟨by decide, by decide, rfl⟩

/-- C24, amended. Number literals. When the next byte is a decimal digit (and no
indent or dedent is pending), `NextToken` consumes the maximal run of decimal
digits; when the decimal value of the run fits an `int` (it is at most
2147483647) it hands out `Number` with that value and raises no error; when
the value is larger it raises `std::out_of_range`. The decimal value is the
usual one: appending a digit multiplies by ten and adds the digit, and leading
zeros do not count. -/
theorem number_literal (lx : Lexer) (ch : Char) (rest : List Char)
    (hs : lx.spaces_ = 0) (hi : lx.input_ = ch :: rest) (hc : ch.isDigit = true) :
    (decimalValue (lx.input_.takeWhile Char.isDigit) ≤ 2147483647 →
      NextToken lx =
        Except.ok { lx with
          curr_token_ := Token.Number (decimalValue (lx.input_.takeWhile Char.isDigit) : Int),
          input_ := lx.input_.dropWhile Char.isDigit, first_ := false }) ∧
    (2147483647 < decimalValue (lx.input_.takeWhile Char.isDigit) →
      NextToken lx = Except.error Exception.out_of_range) ∧
    decimalValue [] = 0 ∧
    (∀ (digits : List Char) (d : Char),
      decimalValue (digits ++ [d]) = 10 * decimalValue digits + (d.toNat - 48)) ∧
    (∀ digits : List Char, decimalValue ('0' :: digits) = decimalValue digits) := by
  have hne : lx.input_.takeWhile Char.isDigit ≠ [] := by
    rw [hi]
    simp [List.takeWhile, hc]
  have hload : LoadNumber lx.input_ =
      match stoi (lx.input_.takeWhile Char.isDigit) with
      | Except.ok v => Except.ok (Token.Number v, lx.input_.dropWhile Char.isDigit)
      | Except.error e => Except.error e := by
    unfold LoadNumber
    rw [LoadNumberLoop_eq]
    rfl
  refine ⟨?_, ?_, rfl, decimalValue_append, decimalValue_zero_cons⟩
  · intro hv
    have hst : stoi (lx.input_.takeWhile Char.isDigit) =
        Except.ok (decimalValue (lx.input_.takeWhile Char.isDigit) : Int) := by
      unfold stoi
      rw [if_neg hne, if_pos hv]
    rw [hst] at hload
    exact (Lexes_iff lx _).1 (Lexes.number lx ch rest _ hs hi hc hload)
  · intro hv
    have hst : stoi (lx.input_.takeWhile Char.isDigit) = Except.error Exception.out_of_range := by
      unfold stoi
      rw [if_neg hne, if_neg (by omega)]
    rw [hst] at hload
    exact (Lexes_iff lx _).1 (Lexes.numberError lx ch rest _ hs hi hc hload)

/-- C26. The `Expect` helpers fail exactly on a mismatch and do not advance.
`Expect<T>()` returns the current token when it holds the alternative `T` and
raises `LexerError` otherwise; `Expect<T>(value)` succeeds exactly when the
current token holds `T` with the payload `value` and raises `LexerError`
otherwise; both leave the lexer as it was. `ExpectNext<T>(value)` is
`NextToken` followed by `Expect<T>(value)` on the lexer it left, and
`ExpectNext<T>()` is `NextToken` followed by `Expect<T>()`, with another
message in the `LexerError`; an exception of `NextToken` leaves the call. -/
theorem Expect_contract (lx : Lexer) (T : Alternative) (value : Payload) :
    (lx.Expect T).lexer = lx ∧ (lx.ExpectValue T value).lexer = lx ∧
    (lx.curr_token_.alternative = T → (lx.Expect T).result = Except.ok lx.curr_token_) ∧
    (lx.curr_token_.alternative ≠ T →
      (lx.Expect T).result = Except.error (Exception.LexerError "Wrong type")) ∧
    (lx.curr_token_.alternative = T ∧ lx.curr_token_.value = some value →
      (lx.ExpectValue T value).result = Except.ok ()) ∧
    (¬ (lx.curr_token_.alternative = T ∧ lx.curr_token_.value = some value) →
      (lx.ExpectValue T value).result =
        Except.error (Exception.LexerError "Wrong type or value")) ∧
    (∀ e, NextToken lx = Except.error e →
      lx.ExpectNext T = Except.error e ∧ lx.ExpectNextValue T value = Except.error e) ∧
    (∀ lx2, NextToken lx = Except.ok lx2 →
      lx.ExpectNextValue T value = Except.ok (lx2.ExpectValue T value) ∧
      ∃ r, lx.ExpectNext T = Except.ok r ∧ r.lexer = (lx2.Expect T).lexer ∧
        (lx2.curr_token_.alternative = T → r.result = (lx2.Expect T).result) ∧
        (lx2.curr_token_.alternative ≠ T →
          r.result = Except.error (Exception.LexerError "Wrong next token's type") ∧
          (lx2.Expect T).result = Except.error (Exception.LexerError "Wrong type"))) := by
  have hE : ∀ l : Lexer, l.curr_token_.alternative = T →
      l.Expect T = { lexer := l, result := Except.ok l.curr_token_ } := by
    intro l h
    unfold Lexer.Expect Token.Is
    rw [if_pos (by simpa using h)]
  have hE2 : ∀ l : Lexer, l.curr_token_.alternative ≠ T →
      l.Expect T = { lexer := l, result := Except.error (Exception.LexerError "Wrong type") } := by
    intro l h
    unfold Lexer.Expect Token.Is
    rw [if_neg (by simpa using h)]
  have hV : ∀ l : Lexer, l.curr_token_.alternative = T ∧ l.curr_token_.value = some value →
      l.ExpectValue T value = { lexer := l, result := Except.ok () } := by
    intro l h
    unfold Lexer.ExpectValue Token.Is
    rw [if_pos (by simpa using h)]
  have hV2 : ∀ l : Lexer, ¬ (l.curr_token_.alternative = T ∧ l.curr_token_.value = some value) →
      l.ExpectValue T value =
        { lexer := l, result := Except.error (Exception.LexerError "Wrong type or value") } := by
    intro l h
    unfold Lexer.ExpectValue Token.Is
    rw [if_neg (by simpa using h)]
  refine ⟨?_, ?_, ?_, ?_, ?_, ?_, ?_, ?_⟩
  · by_cases h : lx.curr_token_.alternative = T
    · rw [hE lx h]
    · rw [hE2 lx h]
  · by_cases h : lx.curr_token_.alternative = T ∧ lx.curr_token_.value = some value
    · rw [hV lx h]
    · rw [hV2 lx h]
  · intro h
    rw [hE lx h]
  · intro h
    rw [hE2 lx h]
  · intro h
    rw [hV lx h]
  · intro h
    rw [hV2 lx h]
  · intro e h
    unfold Lexer.ExpectNext Lexer.ExpectNextValue
    rw [h]
    exact ⟨rfl, rfl⟩
  · intro lx2 h
    constructor
    · unfold Lexer.ExpectNextValue
      rw [h]
      by_cases hv : lx2.curr_token_.alternative = T ∧ lx2.curr_token_.value = some value
      · rw [hV lx2 hv]
        simp only
        unfold Token.Is
        rw [if_pos (by simpa using hv)]
      · rw [hV2 lx2 hv]
        simp only
        unfold Token.Is
        rw [if_neg (by simpa using hv)]
    · unfold Lexer.ExpectNext
      rw [h]
      by_cases ha : lx2.curr_token_.alternative = T
      · refine ⟨{ lexer := lx2, result := Except.ok lx2.curr_token_ }, ?_, ?_, ?_, ?_⟩
        · simp only
          unfold Token.Is
          rw [if_pos (by simpa using ha)]
        · rw [hE lx2 ha]
        · intro _
          rw [hE lx2 ha]
        · intro hn
          exact absurd ha hn
      · refine ⟨{ lexer := lx2,
                  result := Except.error (Exception.LexerError "Wrong next token's type") },
          ?_, ?_, ?_, ?_⟩
        · simp only
          unfold Token.Is
          rw [if_neg (by simpa using ha)]
        · rw [hE2 lx2 ha]
        · intro hp
          exact absurd hp ha
        · intro _
          rw [hE2 lx2 ha]
          exact ⟨rfl, rfl⟩

theorem noBranch_stuck (lx : Lexer) (ch : Char) (rest : List Char) (hs : lx.spaces_ = 0)
    (hi : lx.input_ = ch :: rest) (hn : noBranch ch = true) : Stuck lx := by
  unfold noBranch at hn
  simp only [Bool.and_eq_true, decide_eq_true_eq, bne_iff_ne, ne_eq, Bool.not_eq_true'] at hn
  obtain ⟨⟨⟨⟨⟨⟨⟨⟨⟨⟨h0, h1⟩, h2⟩, h3⟩, h4⟩, h5⟩, h6⟩, h7⟩, h8⟩, h9⟩, h10⟩ := hn
  intro b
  exact Lexes.unknown { lx with first_ := b } ch rest hs hi h0 h1 h2 h3 h4 h5 h6 h7 h8 h9 h10

theorem nextTokens_of_stuck : ∀ (n : Nat) (lx : Lexer), Stuck lx →
    nextTokens (n + 1) lx =
      Except.ok (List.replicate (n + 1) lx.curr_token_, { lx with first_ := false }) := by
  intro n
  induction n with
  | zero =>
    intro lx h
    rw [nextTokens_succ, h.next]
    rfl
  | succ n ih =>
    intro lx h
    rw [nextTokens_succ, h.next]
    simp only
    rw [ih _ (h.setFirst false)]
    rfl

/-- C27, at the failing input. `NextToken` has no branch for a tab (nor for any
byte of `noBranch`): in front of such a byte it consumes nothing and returns
the current token again, at every call. On the input `a`, newline, tab, `b`
the constructor returns `Id` with `a` and every later call returns `Newline`:
no call returns `Eof`. -/
theorem tab_never_Eof (n : Nat) :
    (∀ (lx : Lexer) (ch : Char) (rest : List Char), lx.spaces_ = 0 → lx.input_ = ch :: rest →
      noBranch ch = true →
      nextTokens (n + 1) lx =
        Except.ok (List.replicate (n + 1) lx.curr_token_, { lx with first_ := false })) ∧
    noBranch '\t' = true ∧
    tokenStream "a\n\tb".toList (n + 1) =
      Except.ok (Token.Id "a" :: List.replicate (n + 1) Token.Newline) := by
  refine ⟨fun lx ch rest hs hi hn => nextTokens_of_stuck n lx (noBranch_stuck lx ch rest hs hi hn),
    by decide, ?_⟩
  have h1 : Lexer.new "a\n\tb".toList =
      Except.ok { input_ := "\n\tb".toList, curr_token_ := Token.Id "a", first_ := false } := rfl
  have h2 : NextToken { input_ := "\n\tb".toList, curr_token_ := Token.Id "a", first_ := false } =
      Except.ok { input_ := "\tb".toList, curr_token_ := Token.Newline, first_ := false } := rfl
  have hst : Stuck { input_ := "\tb".toList, curr_token_ := Token.Newline, first_ := false } :=
    noBranch_stuck _ '\t' ['b'] rfl rfl (by decide)
  unfold tokenStream lexRun
  rw [h1]
  simp only
  rw [nextTokens_succ, h2]
  simp only
  cases n with
  | zero => rfl
  | succ m =>
    rw [nextTokens_of_stuck m _ hst]
    rfl

/-- C4, at the failing input. The program is `a`, then `b` behind two spaces,
then a line of two spaces, a tab and `c`. After five calls the last call has
returned `Newline`, the level is 1, nothing is pending, and the unread input
starts with no space and then a tab, a byte that is neither a space nor a
newline: one `Dedent` and the level 0 are due. `NextToken` has no branch for
the tab: every further call returns `Newline` again and the level stays 1. -/
theorem Newline_again_at_tab (n : Nat) :
    lexRun "a\n  b\n  \tc".toList 5 =
      Except.ok ([Token.Id "a", Token.Newline, Token.Indent, Token.Id "b", Token.Newline,
          Token.Newline],
        { input_ := "\tc".toList, indent_index_ := 1, curr_token_ := Token.Newline,
          first_ := false, spaces_ := 0 }) ∧
    nextTokens (n + 1)
        { input_ := "\tc".toList, indent_index_ := 1, curr_token_ := Token.Newline,
          first_ := false, spaces_ := 0 } =
      Except.ok (List.replicate (n + 1) Token.Newline,
        { input_ := "\tc".toList, indent_index_ := 1, curr_token_ := Token.Newline,
          first_ := false, spaces_ := 0 }) :=
  ⟨rfl, nextTokens_of_stuck n _ (noBranch_stuck _ '\t' ['c'] rfl rfl (by decide))⟩

/-- C28, at the failing input. `NextToken` takes every byte that is not positive
as a `char` for the end of the stream: when it returns a first `Eof`, the
unread input is empty or starts with the byte 0 or a byte of 128 or more. On
the bytes `a`, 200, `b` the tokens are `Id` with `a`, `Newline`, `Eof` and two
bytes are left unread behind the `Eof`; on the bytes 0, `x` the constructor
returns `Eof` and both bytes are left unread. -/
theorem Eof_with_unread_bytes :
    (∀ lx lx2 : Lexer, Coherent lx → lx.curr_token_ ≠ Token.Eof →
      NextToken lx = Except.ok lx2 → lx2.curr_token_ = Token.Eof →
      lx2.input_ = [] ∨ ∃ ch rest, lx2.input_ = ch :: rest ∧ (ch.toNat = 0 ∨ 128 ≤ ch.toNat)) ∧
    lexRun ['a', Char.ofNat 200, 'b'] 2 =
      Except.ok ([Token.Id "a", Token.Newline, Token.Eof],
        { input_ := [Char.ofNat 200, 'b'], curr_token_ := Token.Eof, first_ := false }) ∧
    Lexer.new [Char.ofNat 0, 'x'] =
      Except.ok { input_ := [Char.ofNat 0, 'x'], curr_token_ := Token.Eof, first_ := false } := by
  refine ⟨?_, rfl, rfl⟩
  intro lx lx2 hc hne h he
  have hstep := NextToken_stepOk h hc
  rcases hstep.2.2 with hs | hs
  · exact absurd (hs.2.1 ▸ he) hne
  · have ha := (hs.2.2.2 he).2.2
    have hp : peekChar lx2.input_ ≤ 0 := ha.1
    cases hin : lx2.input_ with
    | nil => exact Or.inl rfl
    | cons ch rest =>
      right
      refine ⟨ch, rest, rfl, ?_⟩
      rw [hin] at hp
      have hq : ¬ (0 < toSignedChar ch) := by
        have : peekChar (ch :: rest) = toSignedChar ch := rfl
        omega
      rw [toSignedChar_pos_iff] at hq
      omega

/-- The theorem `keyword_recognition` on `class A:` (the keyword token, the
run ends at the space), on `classy=1` (an identifier that starts with a
keyword) and on `None#c` (the run ends at `#`). -/
theorem keyword_recognition_witness :
    NextToken { input_ := "class A:".toList, first_ := false } =
      Except.ok { input_ := " A:".toList, curr_token_ := Token.Class, first_ := false } ∧
    NextToken { input_ := "classy=1".toList, first_ := false } =
      Except.ok { input_ := "=1".toList, curr_token_ := Token.Id "classy", first_ := false } ∧
    NextToken { input_ := "None#c".toList, first_ := false } =
      Except.ok { input_ := "#c".toList, curr_token_ := Token.None, first_ := false } :=
  ⟨(keyword_recognition { input_ := "class A:".toList, first_ := false } 'c' "lass A:".toList
      rfl rfl (Or.inl rfl)).1,
   (keyword_recognition { input_ := "classy=1".toList, first_ := false } 'c' "lassy=1".toList
      rfl rfl (Or.inl rfl)).1,
   (keyword_recognition { input_ := "None#c".toList, first_ := false } 'N' "one#c".toList
      rfl rfl (Or.inl rfl)).1⟩

/-- The theorem `string_literal_decoding` on the literal `"a\n\"b"` of the
specification, and on a literal in single quotes that holds a double quote, a
`#`, an escaped single quote and the unknown escape `\q`. -/
theorem string_literal_decoding_witness :
    NextToken { input_ := ['"', 'a', '\\', 'n', '\\', '"', 'b', '"', ' ', 'x'],
                first_ := false } =
      Except.ok { input_ := [' ', 'x'], curr_token_ := Token.String "a\n\"b",
                  first_ := false } ∧
    NextToken { input_ := ['\'', '"', '#', '\\', '\'', '\\', 'q', 'z', '\''],
                first_ := false } =
      Except.ok { input_ := [], curr_token_ := Token.String "\"#'z", first_ := false } :=
  ⟨string_literal_decoding
      { input_ := ['"', 'a', '\\', 'n', '\\', '"', 'b', '"', ' ', 'x'], first_ := false }
      '"' ['a', '\\', 'n', '\\', '"', 'b'] [' ', 'x'] rfl (Or.inl rfl) rfl rfl,
   string_literal_decoding
      { input_ := ['\'', '"', '#', '\\', '\'', '\\', 'q', 'z', '\''], first_ := false }
      '\'' ['"', '#', '\\', '\'', '\\', 'q', 'z'] [] rfl (Or.inr rfl) rfl rfl⟩

/-- The theorem `number_literal` on `007+1`, which gives the number 7, and on
`2147483647`, the largest value. -/
theorem number_literal_witness :
    NextToken { input_ := "007+1".toList, first_ := false } =
      Except.ok { input_ := "+1".toList, curr_token_ := Token.Number 7, first_ := false } ∧
    NextToken { input_ := "2147483647".toList, first_ := false } =
      Except.ok { input_ := [], curr_token_ := Token.Number 2147483647, first_ := false } ∧
    NextToken { input_ := "99999999999".toList, first_ := false } =
      Except.error Exception.out_of_range :=
  ⟨(number_literal { input_ := "007+1".toList, first_ := false } '0' "07+1".toList rfl rfl
      rfl).1 (by decide),
   (number_literal { input_ := "2147483647".toList, first_ := false } '2' "147483647".toList
      rfl rfl rfl).1 (by decide),
   (number_literal { input_ := "99999999999".toList, first_ := false } '9' "9999999999".toList
      rfl rfl rfl).2.1 (by decide)⟩

/-- The theorem `Expect_contract` on the lexer of `x = 1`, whose current token
is `Id` with `x`: `Expect<Id>()` returns it, `Expect<Number>()` throws,
`Expect<Id>("x")` succeeds, and `ExpectNext<Char>('=')` advances and
succeeds. -/
theorem Expect_contract_witness :
    (Lexer.Expect { input_ := " = 1".toList, curr_token_ := Token.Id "x", first_ := false }
        Alternative.Id).result = Except.ok (Token.Id "x") ∧
    (Lexer.Expect { input_ := " = 1".toList, curr_token_ := Token.Id "x", first_ := false }
        Alternative.Number).result = Except.error (Exception.LexerError "Wrong type") ∧
    (Lexer.ExpectValue { input_ := " = 1".toList, curr_token_ := Token.Id "x", first_ := false }
        Alternative.Id (Payload.string "x")).result = Except.ok () ∧
    Lexer.ExpectNextValue
        { input_ := " = 1".toList, curr_token_ := Token.Id "x", first_ := false }
        Alternative.Char (Payload.char '=') =
      Except.ok { lexer := { input_ := " 1".toList, curr_token_ := Token.Char '=',
                             first_ := false },
                  result := Except.ok () } :=
  ⟨(Expect_contract { input_ := " = 1".toList, curr_token_ := Token.Id "x", first_ := false }
      Alternative.Id (Payload.string "x")).2.2.1 rfl,
   (Expect_contract { input_ := " = 1".toList, curr_token_ := Token.Id "x", first_ := false }
      Alternative.Number (Payload.int 1)).2.2.2.1 (by decide),
   (Expect_contract { input_ := " = 1".toList, curr_token_ := Token.Id "x", first_ := false }
      Alternative.Id (Payload.string "x")).2.2.2.2.1 ⟨rfl, rfl⟩,
   ((Expect_contract { input_ := " = 1".toList, curr_token_ := Token.Id "x", first_ := false }
      Alternative.Char (Payload.char '=')).2.2.2.2.2.2.2
      { input_ := " 1".toList, curr_token_ := Token.Char '=', first_ := false } rfl).1⟩

end parse

/-! # Theorems: `Stringify` -/

namespace ast

open runtime

theorem Execute_Stringify (fuel : Nat) (argument_ : Statement) (closure : Closure) (heap : Heap)
    (context : Context) :
    Execute (fuel + 1) (Statement.Stringify argument_) closure heap context =
      Stringify.Execute (Execute fuel) fuel argument_ closure heap context := rfl

/-- Every normal result of `Stringify::Execute` is a `String`. -/
theorem Stringify_normal (exec : Exec) (depth : Nat) (argument_ : Statement) (closure : Closure)
    (heap : Heap) (context : Context) (w : ObjectHolder)
    (h : (Stringify.Execute exec depth argument_ closure heap context).outcome =
      Outcome.normal w) :
    ∃ s, w = some (Object.String s) := by
  unfold Stringify.Execute at h
  cases hr : (exec argument_ closure heap context).outcome with
  | normal v =>
    cases v with
    | none =>
      simp only [hr, Outcome.normal.injEq] at h
      exact ⟨_, h.symm⟩
    | some object =>
      simp only [hr] at h
      cases hp : (Object.Print exec depth object (exec argument_ closure heap context).heap
          (exec argument_ closure heap context).context).outcome with
      | normal text =>
        simp only [hp, Outcome.normal.injEq] at h
        exact ⟨_, h.symm⟩
      | thrown t => simp only [hp, Outcome.propagate] at h; cases h
      | runtime_error e => simp only [hp, Outcome.propagate] at h; cases h
      | undefined => simp only [hp, Outcome.propagate] at h; cases h
      | fuel_exhausted => simp only [hp, Outcome.propagate] at h; cases h
  | thrown t => simp only [hr] at h; cases h
  | runtime_error e => simp only [hr] at h; cases h
  | undefined => simp only [hr] at h; cases h
  | fuel_exhausted => simp only [hr] at h; cases h

/-- C21. `Stringify` is idempotent. When `x` evaluates normally to a value that
is null, a number, a string or a boolean, `Stringify(x)` and
`Stringify(Stringify(x))` both return the same `String`, in the state one
evaluation of `x` left: `None` for null, the decimal form of a number, the
string itself, `True` or `False`. More generally, whenever `Stringify(x)`
ends normally, `Stringify(Stringify(x))` has the same result. -/
theorem Stringify_idempotent (fuel : Nat) (x : Statement) (closure : Closure) (heap : Heap)
    (context : Context) :
    (∀ (r : Result) (v : ObjectHolder), Execute fuel x closure heap context = r →
      r.outcome = Outcome.normal v →
      kindOf v ≠ Kind.classObject → kindOf v ≠ Kind.classInstance →
      ∃ s : String,
        Execute (fuel + 1) (Statement.Stringify x) closure heap context =
          { r with outcome := Outcome.normal (some (Object.String s)) } ∧
        Execute (fuel + 2) (Statement.Stringify (Statement.Stringify x)) closure heap context =
          { r with outcome := Outcome.normal (some (Object.String s)) } ∧
        (v = none → s = "None") ∧
        (∀ n : Int, v = some (Object.Number n) → s = toString n) ∧
        (∀ t : String, v = some (Object.String t) → s = t) ∧
        (∀ b : Bool, v = some (Object.Bool b) → s = if b then "True" else "False")) ∧
    (∀ (r1 : Result) (w : ObjectHolder),
      Execute (fuel + 1) (Statement.Stringify x) closure heap context = r1 →
      r1.outcome = Outcome.normal w →
      Execute (fuel + 2) (Statement.Stringify (Statement.Stringify x)) closure heap context =
        r1) := by
  have hgen : ∀ (r1 : Result) (w : ObjectHolder),
      Execute (fuel + 1) (Statement.Stringify x) closure heap context = r1 →
      r1.outcome = Outcome.normal w →
      Execute (fuel + 2) (Statement.Stringify (Statement.Stringify x)) closure heap context =
        r1 := by
    intro r1 w h1 hw
    obtain ⟨s, hs⟩ := Stringify_normal (Execute fuel) fuel x closure heap context w
      (by rw [← Execute_Stringify, h1]; exact hw)
    subst hs
    rw [Execute_Stringify (fuel + 1)]
    unfold Stringify.Execute
    simp only [h1, hw]
    cases r1
    simp only at hw
    rw [hw]
    rfl
  refine ⟨?_, hgen⟩
  intro r v hr hv hk1 hk2
  cases fuel with
  | zero =>
    rw [← hr] at hv
    cases hv
  | succ k =>
    rcases v with _ | o
    · have e1 : Execute (k + 1 + 1) (Statement.Stringify x) closure heap context =
          { r with outcome := Outcome.normal (some (Object.String "None")) } := by
        rw [Execute_Stringify]
        unfold Stringify.Execute
        simp only [hr, hv]
      refine ⟨"None", e1, hgen _ _ e1 rfl, fun _ => rfl, ?_, ?_, ?_⟩
      · intro n h; cases h
      · intro t h; cases h
      · intro b h; cases h
    · cases o with
      | Number n =>
        have e1 : Execute (k + 1 + 1) (Statement.Stringify x) closure heap context =
            { r with outcome := Outcome.normal (some (Object.String (toString n))) } := by
          rw [Execute_Stringify]
          unfold Stringify.Execute
          simp only [hr, hv, Object.Print]
        refine ⟨toString n, e1, hgen _ _ e1 rfl, ?_, ?_, ?_, ?_⟩
        · intro h; cases h
        · intro m h; cases h; rfl
        · intro t h; cases h
        · intro b h; cases h
      | String t =>
        have e1 : Execute (k + 1 + 1) (Statement.Stringify x) closure heap context =
            { r with outcome := Outcome.normal (some (Object.String t)) } := by
          rw [Execute_Stringify]
          unfold Stringify.Execute
          simp only [hr, hv, Object.Print]
        refine ⟨t, e1, hgen _ _ e1 rfl, ?_, ?_, ?_, ?_⟩
        · intro h; cases h
        · intro m h; cases h
        · intro m h; cases h; rfl
        · intro b h; cases h
      | Bool b =>
        have e1 : Execute (k + 1 + 1) (Statement.Stringify x) closure heap context =
            { r with outcome :=
                Outcome.normal (some (Object.String (if b then "True" else "False"))) } := by
          rw [Execute_Stringify]
          unfold Stringify.Execute
          simp only [hr, hv, Object.Print]
        refine ⟨_, e1, hgen _ _ e1 rfl, ?_, ?_, ?_, ?_⟩
        · intro h; cases h
        · intro m h; cases h
        · intro t h; cases h
        · intro m h; cases h; rfl
      | Class c => exact absurd rfl hk1
      | ClassInstance a c => exact absurd rfl hk2

/-- The theorem `Stringify_idempotent` on `str(y)` and `str(str(y))` with `y`
the number 3 (both give the string `3` and leave the state as it was), and on
`str(str(n))` with `n` null, which gives the string `None`. -/
theorem Stringify_idempotent_witness :
    (∃ s : String,
      Execute 2 (Statement.Stringify (Statement.VariableValue "y" []))
          [("y", some (Object.Number 3)), ("n", none)] {} {} =
        { outcome := Outcome.normal (some (Object.String s)),
          closure := [("y", some (Object.Number 3)), ("n", none)], heap := {}, context := {} } ∧
      Execute 3 (Statement.Stringify (Statement.Stringify (Statement.VariableValue "y" [])))
          [("y", some (Object.Number 3)), ("n", none)] {} {} =
        { outcome := Outcome.normal (some (Object.String s)),
          closure := [("y", some (Object.Number 3)), ("n", none)], heap := {}, context := {} } ∧
      s = "3") ∧
    Execute 3 (Statement.Stringify (Statement.Stringify (Statement.VariableValue "n" [])))
        [("y", some (Object.Number 3)), ("n", none)] {} {} =
      { outcome := Outcome.normal (some (Object.String "None")),
        closure := [("y", some (Object.Number 3)), ("n", none)], heap := {}, context := {} } := by
  refine ⟨?_, ?_⟩
  · obtain ⟨s, h1, h2, _, h4, _, _⟩ :=
      (Stringify_idempotent 1 (Statement.VariableValue "y" [])
        [("y", some (Object.Number 3)), ("n", none)] {} {}).1
        { outcome := Outcome.normal (some (Object.Number 3)),
          closure := [("y", some (Object.Number 3)), ("n", none)], heap := {}, context := {} }
        (some (Object.Number 3)) rfl rfl (by decide) (by decide)
    exact ⟨s, h1, h2, h4 3 rfl⟩
  · exact (Stringify_idempotent 1 (Statement.VariableValue "n" [])
      [("y", some (Object.Number 3)), ("n", none)] {} {}).2
      { outcome := Outcome.normal (some (Object.String "None")),
        closure := [("y", some (Object.Number 3)), ("n", none)], heap := {}, context := {} }
      (some (Object.String "None")) rfl rfl

end ast
